import Mathlib

/-!
# pgaccounts: roster tokenizer and account lifecycle

A shallow embedding of `pgaccounts.c` (S. Faroult, 2017): the roster read loop
of `main`, and the transactional `create_account` / `delete_account` routines
with the small transaction helpers they call.

Conventions of the embedding.

* A byte read by `fgetc` is a `Char`; a C string (`char *`) is the `List Char`
  of the characters that precede its terminating NUL. The comparison
  `ch == G_sep` is the comparison of the two characters.
* The program's `short` variables are `Int`s; every `++` goes through `wrap16`,
  the conversion of the incremented value back to a 16-bit signed integer.
  The flags of type `char` that only hold 0 or 1 (`ok`, the argument of
  `remove_savepoint`) are `Bool`s.
* The database server is an `Oracle`: it answers every statement, given the
  history of the statements executed before on the connection, with a result
  status and the number of notices it raises while the statement runs. The
  session keeps the log of the statements passed to `PQexec`.
* The fixed-size buffers `account` and `defpass` are maps from index to
  character; a write outside `0 .. ID_LEN-1` is undefined behaviour and makes
  the embedded loop return `none`.
* The read loop is a fold of `step` over the bytes of the roster; the second
  `fgetc`, inside the escape case, is the step taken when `esc` is set.
* The state of the loop also records what the run does: the calls of the
  lifecycle routines with the index of the physical line that triggered each,
  and the lines printed on `stdout`. Messages written to `stderr` are not
  modelled.

The file has two parts: the definitions (the embedding, then the vocabulary
in which the properties are stated), and the theorems.
-/

namespace Pgaccounts

/-! ## Constants of the source -/

/-- The macro `DEF_SEP`. -/
def DEF_SEP : Char := ','

/-- The macro `DEF_ID`. -/
def DEF_ID : Int := 1

/-- The macro `NO_OP`. -/
def NO_OP : Int := 0

/-- The macro `CREATE`. -/
def CREATE : Int := 1

/-- The macro `DELETE`. -/
def DELETE : Int := 2

/-- The macro `ID_LEN`, the size of the `account` and `defpass` arrays. -/
def ID_LEN : Int := 250

/-- The character NUL, terminator of C strings. -/
def NUL : Char := Char.ofNat 0

/-- The double quote character, first case label of the read loop. -/
def DQUOTE : Char := Char.ofNat 34

/-- The backslash character, the escape case label of the read loop. -/
def BACKSLASH : Char := Char.ofNat 92

/-- The newline character, the record terminator of the read loop. -/
def NEWLINE : Char := Char.ofNat 10

/-- The single quote character that closes the password literal. -/
def SQUOTE : Char := Char.ofNat 39

/-! ## Machine integers -/

/-- Conversion of an `int` value to `short` (16-bit two's complement), as done
when the result of `x++` is stored back into a `short` variable. -/
def wrap16 (x : Int) : Int := (x + 32768) % 65536 - 32768

/-- The library function `isdigit` in the C locale. -/
def isdigit (c : Char) : Bool := decide (48 ≤ c.toNat ∧ c.toNat ≤ 57)

/-- The expression `*id` for a C string: its first character, NUL when the
string is empty. -/
def deref (s : List Char) : Char := s.headD NUL

/-! ## String buffers (`strbuf.h`) -/

/-- Modelled from the spec: `strbuf.h` is not part of the sources; the spec
describes statements as "string-built SQL via concatenation". `strbuf_init`
gives the empty buffer. -/
def strbuf_init : List Char := []

/-- Modelled from the spec: `strbuf_add` of the missing `strbuf.h` appends a C
string to the buffer (statement text is built by concatenation). -/
def strbuf_add (cmd : List Char) (s : List Char) : List Char := cmd ++ s

/-- Modelled from the spec: `strbuf_addc` of the missing `strbuf.h` appends one
character to the buffer. -/
def strbuf_addc (cmd : List Char) (c : Char) : List Char := cmd ++ [c]

/-- Modelled from the spec: `strbuf_clear` of the missing `strbuf.h` empties the
buffer. -/
def strbuf_clear (_cmd : List Char) : List Char := []

/-! ## The database session -/

/-- What the server answers to one statement: whether `PQresultStatus` is
`PGRES_COMMAND_OK`, and how many times the notice receiver runs meanwhile. -/
structure Resp where
  ok : Bool
  notices : Nat
deriving DecidableEq, Repr

/-- One executed statement, as recorded in the session log: its text, its
result status, the notices raised, and the value of `G_warnings` before and
after the call of `PQexec`. -/
structure Exec where
  stmt : List Char
  ok : Bool
  notices : Nat
  wBefore : Int
  wAfter : Int
deriving DecidableEq, Repr

/-- A database behaviour: the answer to a statement given everything executed
on the connection so far. -/
abbrev Oracle := List Exec → List Char → Resp

/-- The process-wide variables `G_conn` (is the pointer non-null) and
`G_warnings`, together with the log of the statements passed to `PQexec`. -/
structure Session where
  G_conn : Bool
  G_warnings : Int
  log : List Exec
deriving DecidableEq, Repr

/-- The notice receiver `ignore_notice`: `G_warnings++` on a `short`. -/
def ignore_notice (g : Session) : Session :=
  { g with G_warnings := wrap16 (g.G_warnings + 1) }

/-- The library call `PQexec(G_conn, cmd)` followed by the test
`PQresultStatus(res) == PGRES_COMMAND_OK`: the server answers, the notice
receiver runs once per notice, and the call is appended to the log. -/
def PQexec (db : Oracle) (g : Session) (cmd : List Char) : Bool × Session :=
  let r := db g.log cmd
  let g1 := Nat.iterate ignore_notice r.notices g
  (r.ok, { g1 with log := g.log ++ [Exec.mk cmd r.ok r.notices g.G_warnings g1.G_warnings] })

/-! ## Transaction helpers -/

/-- The function `new_savepoint`. -/
def new_savepoint (db : Oracle) (g : Session) : Session :=
  if g.G_conn then (PQexec db g "savepoint sv".toList).2 else g

/-- The function `remove_savepoint`. -/
def remove_savepoint (db : Oracle) (rollback : Bool) (g : Session) : Session :=
  if g.G_conn then
    let g1 := if rollback then (PQexec db g "rollback to savepoint sv".toList).2 else g
    (PQexec db g1 "release savepoint sv".toList).2
  else g

/-- The function `start_tx`. -/
def start_tx (db : Oracle) (g : Session) : Session :=
  if g.G_conn then (PQexec db g "start transaction".toList).2 else g

/-- The function `commit_tx`. -/
def commit_tx (db : Oracle) (g : Session) : Session :=
  if g.G_conn then (PQexec db g "commit".toList).2 else g

/-- The function `rollback_tx`. -/
def rollback_tx (db : Oracle) (g : Session) : Session :=
  if g.G_conn then (PQexec db g "rollback".toList).2 else g

/-! ## Account lifecycle -/

/-- The function `create_account`. The arguments are `none` for a null
pointer; the result pairs the returned flag `ok` with the session after the
call. -/
def create_account (db : Oracle) (id pwd role : Option (List Char)) (g : Session) :
    Bool × Session :=
  match id, pwd with
  | some id, some pwd =>
    if g.G_conn then
      let cmd := strbuf_init
      let g := start_tx db g
      -- create user <id> with password <pwd>
      let cmd := strbuf_add cmd "create user ".toList
      let cmd := if isdigit (deref id) then strbuf_addc cmd 'u' else cmd
      let cmd := strbuf_add cmd id
      let cmd := strbuf_add cmd " with password '".toList
      let cmd := strbuf_add cmd pwd
      let cmd := strbuf_addc cmd SQUOTE
      let r := PQexec db g cmd
      let ok := r.1
      let g := r.2
      let cmd := strbuf_clear cmd
      let s2 : Bool × Session :=
        if ok then
          -- create schema <id> authorization <id>
          let cmd := strbuf_add cmd "create schema ".toList
          let cmd := if isdigit (deref id) then strbuf_addc cmd 's' else cmd
          let cmd := strbuf_add cmd id
          let cmd := strbuf_add cmd " authorization ".toList
          let cmd := if isdigit (deref id) then strbuf_addc cmd 'u' else cmd
          let cmd := strbuf_add cmd id
          PQexec db g cmd
        else (ok, g)
      let ok := s2.1
      let g := s2.2
      let s3 : Bool × Session :=
        if ok then
          let cmd := strbuf_add cmd "alter role ".toList
          let cmd := if isdigit (deref id) then strbuf_addc cmd 'u' else cmd
          let cmd := strbuf_add cmd id
          let cmd := strbuf_add cmd " set search_path to ".toList
          let cmd := if isdigit (deref id) then strbuf_addc cmd 's' else cmd
          let cmd := strbuf_add cmd id
          let cmd := strbuf_add cmd ",public".toList
          PQexec db g cmd
        else (ok, g)
      let ok := s3.1
      let g := s3.2
      let s4 : Bool × Session :=
        match ok, role with
        | true, some role =>
          -- grant <role> to <id>
          let cmd := strbuf_add cmd "grant ".toList
          let cmd := strbuf_add cmd role
          let cmd := strbuf_add cmd " to ".toList
          let cmd := if isdigit (deref id) then strbuf_addc cmd 'u' else cmd
          let cmd := strbuf_add cmd id
          PQexec db g cmd
        | _, _ => (ok, g)
      let ok := s4.1
      let g := s4.2
      if ok then (ok, commit_tx db g) else (ok, rollback_tx db g)
    else (true, g)
  | _, _ => (true, g)

/-- The function `delete_account`. The argument is `none` for a null pointer;
the result pairs the returned flag `ok` with the session after the call. -/
def delete_account (db : Oracle) (id : Option (List Char)) (g : Session) :
    Bool × Session :=
  match id with
  | some id =>
    if g.G_conn then
      let g := start_tx db g
      let cmd := strbuf_init
      let cmd := strbuf_add cmd "drop schema if exists ".toList
      let cmd := if isdigit (deref id) then strbuf_addc cmd 'S' else cmd
      let cmd := strbuf_add cmd id
      let cmd := strbuf_add cmd " cascade".toList
      let r := PQexec db g cmd
      let ok := r.1
      let g := r.2
      let cmd := strbuf_clear cmd
      let cmd := strbuf_add cmd "drop owned by ".toList
      let cmd := if isdigit (deref id) then strbuf_addc cmd 'U' else cmd
      let cmd := strbuf_add cmd id
      let cmd := strbuf_add cmd " restrict".toList
      -- Ignore errors (if objects remain, the following "drop user" will fail)
      let g := new_savepoint db g
      let r := PQexec db g cmd
      let status := r.1
      let g := r.2
      let g := remove_savepoint db (!status) g
      let cmd := strbuf_clear cmd
      let s4 : Bool × Session :=
        if ok then
          let cmd := strbuf_add cmd "drop user if exists ".toList
          let cmd := if isdigit (deref id) then strbuf_addc cmd 'U' else cmd
          let cmd := strbuf_add cmd id
          let warnings := g.G_warnings
          let r := PQexec db g cmd
          let ok := r.1
          let g := r.2
          let ok := if g.G_warnings > warnings then false else ok
          (ok, g)
        else (ok, g)
      let ok := s4.1
      let g := s4.2
      if ok then (ok, commit_tx db g) else (ok, rollback_tx db g)
    else (true, g)
  | none => (true, g)

/-! ## The roster read loop of `main` -/

/-- The values fixed by option parsing before the roster is read: the globals
`G_sep`, `G_id`, `G_pwd`, the locals `skip` and `op` of `main`, and the role
name `G_str[STR_ROLE]` (`none` for a null pointer). -/
structure Config where
  G_sep : Char
  G_id : Int
  G_pwd : Int
  skip : Int
  op : Int
  role : Option (List Char)

/-- The configuration when no option but the operation flag is given:
separator `DEF_SEP`, both selectors `DEF_ID`, nothing skipped, no role. -/
def default_config (op : Int) : Config :=
  { G_sep := DEF_SEP, G_id := DEF_ID, G_pwd := DEF_ID, skip := 0, op := op, role := none }

/-- A `char` array of `main`, as a map from index to character. -/
abbrev Buf := Nat → Char

/-- The assignment `buf[i] = c` on an array of `ID_LEN` characters; `none` when
the index is outside the array. -/
def store (buf : Buf) (i : Int) (c : Char) : Option Buf :=
  if 0 ≤ i ∧ i < ID_LEN then some (fun j => if j = i.toNat then c else buf j) else none

/-- The characters of `buf` from index `i` up to the first NUL, looking at no
more than `n` positions. -/
def cstrAux (buf : Buf) : Nat → Nat → List Char
  | 0, _ => []
  | n + 1, i => if buf i = NUL then [] else buf i :: cstrAux buf n (i + 1)

/-- The C string held by an array of `ID_LEN` characters, which is what a
callee sees when the array is passed as a `char *`. -/
def cstr (buf : Buf) : List Char := cstrAux buf ID_LEN.toNat 0

/-- One call of the lifecycle manager made by the read loop, as recorded for
the statements below: the 1-based index of the physical line whose newline
triggered it, which of the two routines was called, the identifier and (for
`create_account`) the password handed over, and the value returned. -/
structure Call where
  line : Nat
  create : Bool
  id : List Char
  pwd : Option (List Char)
  ok : Bool
deriving DecidableEq, Repr

/-- The variables of `main` that live across iterations of the read loop,
the session, and the observable record of the run.

`esc` says that the `fgetc` inside the escape case is the next read; `phys`
counts the newline bytes read so far; `calls` and `out` record the calls of
`create_account` / `delete_account` and the lines printed on `stdout`;
`exited` says that `exit(0)` was called from the escape case. -/
structure State where
  blind : Nat
  fieldnum : Int
  aidx : Int
  pidx : Int
  account : Buf
  defpass : Buf
  linecnt : Int
  cnt : Int
  esc : Bool
  g : Session
  phys : Nat
  calls : List Call
  out : List (List Char)
  exited : Bool

/-- The line printed after a successful call: `" -- account %s%s created\n"`
or `" -- account %s%s deleted\n"`. -/
def account_line (account : List Char) (verb : List Char) : List Char :=
  " -- account ".toList ++ (if isdigit (deref account) then "u".toList else []) ++ account
    ++ " ".toList ++ verb ++ [NEWLINE]

/-- The body of `if (linecnt > skip)` in the newline case: both buffers are
terminated and the record is handed to `create_account` or `delete_account`;
a successful call prints its line and increments `cnt`. -/
def dispatch (cfg : Config) (db : Oracle) (st : State) : Option State :=
  match store st.account st.aidx NUL with
  | none => none
  | some account =>
    match store st.defpass st.pidx NUL with
    | none => none
    | some defpass =>
      let st := { st with account := account, defpass := defpass }
      if cfg.op = CREATE then
        let r := create_account db (some (cstr account)) (some (cstr defpass)) cfg.role st.g
        let st := { st with
          g := r.2,
          calls := st.calls ++ [Call.mk st.phys true (cstr account) (some (cstr defpass)) r.1] }
        if r.1 then
          some { st with
            out := st.out ++ [account_line (cstr account) "created".toList],
            cnt := wrap16 (st.cnt + 1) }
        else some st
      else
        let r := delete_account db (some (cstr account)) st.g
        let st := { st with
          g := r.2,
          calls := st.calls ++ [Call.mk st.phys false (cstr account) none r.1] }
        if r.1 then
          some { st with
            out := st.out ++ [account_line (cstr account) "deleted".toList],
            cnt := wrap16 (st.cnt + 1) }
        else some st

/-- The newline case of the switch. -/
def case_newline (cfg : Config) (db : Oracle) (st : State) : Option State :=
  let st := { st with linecnt := wrap16 (st.linecnt + 1), fieldnum := 1, blind := 0 }
  match (if st.linecnt > cfg.skip then dispatch cfg db st else some st) with
  | none => none
  | some st =>
    match store st.account 0 NUL with
    | none => none
    | some account =>
      match store st.defpass 0 NUL with
      | none => none
      | some defpass =>
        some { st with account := account, aidx := 0, defpass := defpass, pidx := 0 }

/-- The default case of the switch, for the separator. -/
def case_sep (cfg : Config) (st : State) : Option State :=
  if st.blind = 0 then
    match (if st.fieldnum = cfg.G_id then store st.account st.aidx NUL else some st.account) with
    | none => none
    | some account =>
      match (if st.fieldnum = cfg.G_pwd then store st.defpass st.pidx NUL
             else some st.defpass) with
      | none => none
      | some defpass =>
        let fieldnum := wrap16 (st.fieldnum + 1)
        some { st with
          account := account,
          defpass := defpass,
          fieldnum := fieldnum,
          aidx := if fieldnum = cfg.G_id then 0 else st.aidx,
          pidx := if fieldnum = cfg.G_pwd then 0 else st.pidx }
  else some st

/-- The default case of the switch, for a character other than the separator. -/
def case_other (cfg : Config) (st : State) (ch : Char) : Option State :=
  match (if st.fieldnum = cfg.G_id then
           (store st.account st.aidx ch).map (fun b => (b, wrap16 (st.aidx + 1)))
         else some (st.account, st.aidx)) with
  | none => none
  | some a =>
    match (if st.fieldnum = cfg.G_pwd then
             (store st.defpass st.pidx ch).map (fun b => (b, wrap16 (st.pidx + 1)))
           else some (st.defpass, st.pidx)) with
    | none => none
    | some p =>
      some { st with account := a.1, aidx := a.2, defpass := p.1, pidx := p.2 }

/-- One byte read from the roster. When `esc` is set the byte is the one read
by the `fgetc` of the escape case, after which the switch is left; otherwise
it is the byte read by the loop condition and goes through the switch. The
first line only keeps the count `phys` of the newline bytes read. -/
def step (cfg : Config) (db : Oracle) (st : State) (ch : Char) : Option State :=
  let st := { st with phys := if ch = NEWLINE then st.phys + 1 else st.phys }
  if st.esc then
    some { st with esc := false }
  else if ch = DQUOTE then
    some { st with blind := (st.blind + 1) % 2 }
  else if ch = BACKSLASH then
    some { st with esc := true }
  else if ch = NEWLINE then
    case_newline cfg db st
  else if ch = cfg.G_sep then
    case_sep cfg st
  else
    case_other cfg st ch

/-- The read loop `while ((ch = fgetc(fp)) != EOF)` over the bytes of the
roster. -/
def main_loop (cfg : Config) (db : Oracle) (roster : List Char) (st : State) : Option State :=
  roster.foldlM (step cfg db) st

/-- The conversion `%d` of `printf`. -/
def fmt_d (n : Int) : List Char := (toString n).toList

/-- The summary line `"*** %d account%s %s ***\n"`. -/
def summary_line (cfg : Config) (cnt : Int) : List Char :=
  "*** ".toList ++ fmt_d cnt ++ " account".toList ++ (if cnt = 1 then [] else "s".toList)
    ++ " ".toList ++ (if cfg.op = CREATE then "created".toList else "deleted".toList)
    ++ " ***".toList ++ [NEWLINE]

/-- End of file. If it is met by the `fgetc` of the escape case the program
calls `exit(0)`; otherwise the loop ends and the summary line is printed. -/
def at_eof (cfg : Config) (st : State) : State :=
  if st.esc then { st with exited := true }
  else { st with out := st.out ++ [summary_line cfg st.cnt] }

/-- The variables of `main` when the roster is opened: the arrays hold
whatever the stack held (`a0`, `p0`), and the session is `g`. -/
def init (a0 p0 : Buf) (g : Session) : State :=
  { blind := 0, fieldnum := 1, aidx := 0, pidx := 0, account := a0, defpass := p0,
    linecnt := 0, cnt := 0, esc := false, g := g, phys := 0, calls := [], out := [],
    exited := false }

/-- The session right after `connect` and `PQsetNoticeReceiver`. -/
def connected : Session := { G_conn := true, G_warnings := 0, log := [] }

/-- The part of `main` that reads the roster, from `fopen` to `return 0`. -/
def main_read (cfg : Config) (db : Oracle) (roster : List Char) (a0 p0 : Buf) :
    Option State :=
  (main_loop cfg db roster (init a0 p0 connected)).map (at_eof cfg)

/-! ## Vocabulary of the statements about the lifecycle routines -/

/-- The name `create_account` writes for the login role: the identifier,
prefixed with `u` when its first character is a digit. -/
def login_name (id : List Char) : List Char := if isdigit (deref id) then 'u' :: id else id

/-- The name `create_account` writes for the namespace: the identifier,
prefixed with `s` when its first character is a digit. -/
def schema_name (id : List Char) : List Char := if isdigit (deref id) then 's' :: id else id

/-- The name `delete_account` writes for the login role: the identifier,
prefixed with `U` when its first character is a digit. -/
def drop_login_name (id : List Char) : List Char := if isdigit (deref id) then 'U' :: id else id

/-- The name `delete_account` writes for the namespace: the identifier,
prefixed with `S` when its first character is a digit. -/
def drop_schema_name (id : List Char) : List Char := if isdigit (deref id) then 'S' :: id else id

/-- The text `start transaction`. -/
def stmt_start : List Char := "start transaction".toList

/-- The text `commit`. -/
def stmt_commit : List Char := "commit".toList

/-- The text `rollback`. -/
def stmt_rollback : List Char := "rollback".toList

/-- The text `savepoint sv`. -/
def stmt_savepoint : List Char := "savepoint sv".toList

/-- The text `rollback to savepoint sv`. -/
def stmt_rollback_to : List Char := "rollback to savepoint sv".toList

/-- The text `release savepoint sv`. -/
def stmt_release : List Char := "release savepoint sv".toList

/-- The text `create user L with password 'pwd'`. -/
def stmt_create_user (l pwd : List Char) : List Char :=
  "create user ".toList ++ l ++ " with password '".toList ++ pwd ++ [SQUOTE]

/-- The text `create schema S authorization L`. -/
def stmt_create_schema (s l : List Char) : List Char :=
  "create schema ".toList ++ s ++ " authorization ".toList ++ l

/-- The text `alter role L set search_path to S,public`. -/
def stmt_alter_role (l s : List Char) : List Char :=
  "alter role ".toList ++ l ++ " set search_path to ".toList ++ s ++ ",public".toList

/-- The text `grant role to L`. -/
def stmt_grant (role l : List Char) : List Char :=
  "grant ".toList ++ role ++ " to ".toList ++ l

/-- The text `drop schema if exists S cascade`. -/
def stmt_drop_schema (s : List Char) : List Char :=
  "drop schema if exists ".toList ++ s ++ " cascade".toList

/-- The text `drop owned by L restrict`. -/
def stmt_drop_owned (l : List Char) : List Char :=
  "drop owned by ".toList ++ l ++ " restrict".toList

/-- The text `drop user if exists L`. -/
def stmt_drop_user (l : List Char) : List Char :=
  "drop user if exists ".toList ++ l

/-- The provisioning statements of one account, in order: create user, create
schema, alter role, and the grant when a role is supplied. -/
def provisioning_script (id pwd : List Char) (role : Option (List Char)) : List (List Char) :=
  [stmt_create_user (login_name id) pwd,
   stmt_create_schema (schema_name id) (login_name id),
   stmt_alter_role (login_name id) (schema_name id)]
  ++ (match role with
      | some r => [stmt_grant r (login_name id)]
      | none => [])

/-- The log entries appended between session `g` and the later session `g1`:
the statements executed by the call that led from one to the other. -/
def issued (g g1 : Session) : List Exec := g1.log.drop g.log.length

/-- The log entry that `PQexec db g cmd` appends. -/
def PQentry (db : Oracle) (g : Session) (cmd : List Char) : Exec :=
  Exec.mk cmd (db g.log cmd).ok (db g.log cmd).notices g.G_warnings
    (Nat.iterate ignore_notice (db g.log cmd).notices g).G_warnings

/-- Execution of a list of statements in order, stopping after the first one
that fails; the flag tells whether all of them succeeded. -/
def exec_until_fail (db : Oracle) : List (List Char) → Session → Bool × Session
  | [], g => (true, g)
  | c :: cs, g =>
    if (PQexec db g c).1 = false then (false, (PQexec db g c).2)
    else exec_until_fail db cs (PQexec db g c).2

/-- Closed form of `create_account` on a live connection with non-null
identifier and password: `start transaction`, the provisioning statements up
to the first failure, then `commit` or `rollback`. -/
def provision_flow (db : Oracle) (id pwd : List Char) (role : Option (List Char))
    (g : Session) : Bool × Session :=
  let r := exec_until_fail db (provisioning_script id pwd role) (PQexec db g stmt_start).2
  (r.1, (PQexec db r.2 (if r.1 = false then stmt_rollback else stmt_commit)).2)

/-- Session of `delete_account` after `start transaction`. -/
def dep_started (db : Oracle) (g : Session) : Session := (PQexec db g stmt_start).2

/-- Result of the drop-schema statement of `delete_account`. -/
def dep_schema (db : Oracle) (id : List Char) (g : Session) : Bool × Session :=
  PQexec db (dep_started db g) (stmt_drop_schema (drop_schema_name id))

/-- Session of `delete_account` after `savepoint sv`. -/
def dep_saved (db : Oracle) (id : List Char) (g : Session) : Session :=
  (PQexec db (dep_schema db id g).2 stmt_savepoint).2

/-- Result of the drop-owned statement of `delete_account`. -/
def dep_owned (db : Oracle) (id : List Char) (g : Session) : Bool × Session :=
  PQexec db (dep_saved db id g) (stmt_drop_owned (drop_login_name id))

/-- Session of `delete_account` after the rollback to the savepoint, which is
executed when the drop-owned statement failed. -/
def dep_undone (db : Oracle) (id : List Char) (g : Session) : Session :=
  if (dep_owned db id g).1 = false then (PQexec db (dep_owned db id g).2 stmt_rollback_to).2
  else (dep_owned db id g).2

/-- Session of `delete_account` after `release savepoint sv`. -/
def dep_released (db : Oracle) (id : List Char) (g : Session) : Session :=
  (PQexec db (dep_undone db id g) stmt_release).2

/-- Result of the drop-user statement of `delete_account`, which is executed
when the drop-schema statement succeeded. -/
def dep_user (db : Oracle) (id : List Char) (g : Session) : Bool × Session :=
  PQexec db (dep_released db id g) (stmt_drop_user (drop_login_name id))

/-- Closed form of `delete_account` on a live connection with a non-null
identifier, over the intermediate sessions named above. -/
def deprovision_flow (db : Oracle) (id : List Char) (g : Session) : Bool × Session :=
  if (dep_schema db id g).1 = false then
    (false, (PQexec db (dep_released db id g) stmt_rollback).2)
  else if (dep_user db id g).1 = false then
    (false, (PQexec db (dep_user db id g).2 stmt_rollback).2)
  else if (dep_user db id g).2.G_warnings > (dep_released db id g).G_warnings then
    (false, (PQexec db (dep_user db id g).2 stmt_rollback).2)
  else (true, (PQexec db (dep_user db id g).2 stmt_commit).2)

/-! ## Database behaviours used in the examples -/

/-- The database on which every statement succeeds and raises no notice. -/
def okDb : Oracle := fun _ _ => Resp.mk true 0

/-- The database that rejects exactly the statement `bad` and raises no
notice. -/
def rejecting (bad : List Char) : Oracle := fun _ cmd => Resp.mk (decide (cmd ≠ bad)) 0

/-- The database on which every statement succeeds, the statement `noisy`
raising one notice and the others none. -/
def noticing (noisy : List Char) : Oracle :=
  fun _ cmd => Resp.mk true (if cmd = noisy then 1 else 0)

/-! ## Vocabulary of the statements about the read loop -/

/-- The call made for a dispatched record: `create_account` when `op` is
`CREATE`, `delete_account` otherwise. -/
def lifecycle (cfg : Config) (db : Oracle) (id pwd : List Char) (g : Session) :
    Bool × Session :=
  if cfg.op = CREATE then create_account db (some id) (some pwd) cfg.role g
  else delete_account db (some id) g

/-- Closed form of the state produced by `dispatch` once both terminators are
written: `acc` and `dp` are the terminated arrays. -/
def dispatched (cfg : Config) (db : Oracle) (st : State) (acc dp : Buf) : State :=
  { st with
    account := acc,
    defpass := dp,
    g := (lifecycle cfg db (cstr acc) (cstr dp) st.g).2,
    calls := st.calls ++
      [Call.mk st.phys (decide (cfg.op = CREATE)) (cstr acc)
        (if cfg.op = CREATE then some (cstr dp) else none)
        (lifecycle cfg db (cstr acc) (cstr dp) st.g).1],
    out :=
      if (lifecycle cfg db (cstr acc) (cstr dp) st.g).1 = true then
        st.out ++ [account_line (cstr acc)
          (if cfg.op = CREATE then "created".toList else "deleted".toList)]
      else st.out,
    cnt :=
      if (lifecycle cfg db (cstr acc) (cstr dp) st.g).1 = true then wrap16 (st.cnt + 1)
      else st.cnt }

/-- The array `buf` after the assignment `buf[0] = c`. -/
def set0 (buf : Buf) (c : Char) : Buf := fun j => if j = 0 then c else buf j

/-- The state at the beginning of a line, as left by the newline case and by
the declarations of `main`: first field, outside quotes, both indices at 0,
and no escape pending. -/
def line_start (st : State) : Prop :=
  st.fieldnum = 1 ∧ st.blind = 0 ∧ st.aidx = 0 ∧ st.pidx = 0 ∧ st.esc = false

/-- An array holding the character `x` at every index, standing for the
uninitialised `account` and `defpass` in the examples. -/
def blank : Buf := fun _ => 'x'

/-- One step of the count of unescaped quotes on the current line, written
from the description of the tokenizer: the pair holds whether the previous
byte was an unescaped backslash (so that the present byte is escaped) and the
number of unescaped double quotes seen since the last unescaped newline. -/
def quote_scan (s : Bool × Nat) (ch : Char) : Bool × Nat :=
  if s.1 then (false, s.2)
  else if ch = BACKSLASH then (true, s.2)
  else if ch = NEWLINE then (false, 0)
  else if ch = DQUOTE then (false, s.2 + 1)
  else (false, s.2)

/-- The number of unescaped double quotes seen so far on the current line,
after the bytes `pre` of the roster. -/
def quotes_on_line (pre : List Char) : Nat := (pre.foldl quote_scan (false, 0)).2

/-- The field of index `n` (counted from 0) of a line for the separator `sep`:
the characters between the `n`-th occurrence of the separator and the next
one (from the start of the line for `n = 0`, to its end when there is no next
occurrence); empty when the line has fewer occurrences. -/
def field_at (sep : Char) : Nat → List Char → List Char
  | _, [] => []
  | 0, c :: l => if c = sep then [] else c :: field_at sep 0 l
  | n + 1, c :: l => if c = sep then field_at sep n l else field_at sep (n + 1) l

/-- The array `buf` holds the characters of `a` at the indices `0 ..
a.length - 1`. -/
def holds (buf : Buf) (a : List Char) : Prop := ∀ i : Nat, i < a.length → buf i = a.getD i NUL

/-- What a plain byte (no quote, backslash or newline, read outside quotes)
does to one of the two buffers: `sel` is the selector of the buffer, `fn` the
field counter, `t` the array with its index. -/
def track_step (sep : Char) (sel fn : Int) (t : Buf × Int) (ch : Char) : Option (Buf × Int) :=
  if ch = sep then
    (if fn = sel then store t.1 t.2 NUL else some t.1).bind (fun b =>
      some (b, if wrap16 (fn + 1) = sel then 0 else t.2))
  else if fn = sel then (store t.1 t.2 ch).map (fun b => (b, wrap16 (t.2 + 1)))
  else some t

/-- What a plain byte does to the field counter. -/
def next_field (sep : Char) (fn : Int) (ch : Char) : Int :=
  if ch = sep then wrap16 (fn + 1) else fn

/-- The effect of a run of plain bytes on one of the two buffers. -/
def run_track (sep : Char) (sel : Int) : Int → Buf × Int → List Char → Option (Buf × Int)
  | _, t, [] => some t
  | fn, t, ch :: l =>
    (track_step sep sel fn t ch).bind (fun t1 => run_track sep sel (next_field sep fn ch) t1 l)

/-- The content accumulated in a buffer after the plain bytes `l`, when `k`
separators have been read on the line so far, the buffer selects the field of
index `n`, and `a` is what the buffer holds now. -/
def final_content (sep : Char) (n k : Nat) (a l : List Char) : List Char :=
  if k < n then field_at sep (n - k) l
  else if k = n then a ++ field_at sep 0 l
  else a

/-- The answers of a server on which neither the schema nor the role of the
account exists: `drop schema if exists` and `drop user if exists` succeed
with one notice each ("does not exist, skipping"), `drop owned by` fails, and
every other statement succeeds without notice. -/
def missingDb : Oracle := fun _ cmd =>
  if "drop owned by ".toList.isPrefixOf cmd then Resp.mk false 0
  else if "drop schema if exists ".toList.isPrefixOf cmd then Resp.mk true 1
  else if "drop user if exists ".toList.isPrefixOf cmd then Resp.mk true 1
  else Resp.mk true 0

/-- The roster made of `k` lines, each holding the single identifier `x`. -/
def roster_of_x : Nat → List Char
  | 0 => []
  | k + 1 => roster_of_x k ++ ['x', NEWLINE]

/-- The number of recorded calls of the lifecycle manager that returned
success. -/
def tally (calls : List Call) : Nat := (calls.filter (fun c => c.ok)).length

/-- The summary line as the description words it: `*** n accounts created ***`
or `*** n accounts deleted ***` according to the mode, with `account` for
`accounts` when `n = 1`. -/
def summary_text (n : Nat) (created : Bool) : List Char :=
  "*** ".toList ++ (toString n).toList ++
    (if n = 1 then " account ".toList else " accounts ".toList) ++
    (if created then "created".toList else "deleted".toList) ++ " ***".toList

/-- Whether every `savepoint sv` of a list of statements is followed, later in
the list, by a `release savepoint sv`. -/
def savepoints_released : List (List Char) → Bool
  | [] => true
  | s :: l =>
    (if s = stmt_savepoint then decide (stmt_release ∈ l) else true) && savepoints_released l

/-- The bracketing of the statements of one record, as the description words
it: the list begins with `start transaction`, ends with `commit` or
`rollback`, holds none of these three statements in between, and every
`savepoint sv` in between is followed by a `release savepoint sv` before the
final statement. -/
def bracketed (l : List (List Char)) : Prop :=
  ∃ (mid : List (List Char)) (f : List Char),
    l = stmt_start :: (mid ++ [f]) ∧ (f = stmt_commit ∨ f = stmt_rollback) ∧
    (∀ s ∈ mid, s ≠ stmt_start ∧ s ≠ stmt_commit ∧ s ≠ stmt_rollback) ∧
    savepoints_released mid = true

/-- The auxiliary statements: the six fixed texts sent by `start_tx`,
`commit_tx`, `rollback_tx`, `new_savepoint` and `remove_savepoint`. -/
def auxiliary (s : List Char) : Bool :=
  decide (s ∈ [stmt_start, stmt_commit, stmt_rollback, stmt_savepoint, stmt_rollback_to,
    stmt_release])

/-- Two log entries that are the same but, possibly, for the result status of
an auxiliary statement. -/
def aux_entry (e1 e2 : Exec) : Prop :=
  e1.stmt = e2.stmt ∧ e1.notices = e2.notices ∧ e1.wBefore = e2.wBefore ∧
  e1.wAfter = e2.wAfter ∧ (auxiliary e1.stmt = false → e1.ok = e2.ok)

/-- Two histories that are the same but, possibly, for the result status of
their auxiliary statements. -/
def aux_equiv (l1 l2 : List Exec) : Prop := List.Forall₂ aux_entry l1 l2

/-- Two database behaviours that agree on the notices raised by every
statement and on the outcome of every statement that is not auxiliary,
whenever they are asked after histories that differ at most in the outcome of
auxiliary statements; they are free to differ in whether the auxiliary
statements succeed. -/
def agree_but_auxiliary (db1 db2 : Oracle) : Prop :=
  ∀ (l1 l2 : List Exec) (cmd : List Char), aux_equiv l1 l2 →
    (db1 l1 cmd).notices = (db2 l2 cmd).notices ∧
    (auxiliary cmd = false → (db1 l1 cmd).ok = (db2 l2 cmd).ok)

/-- Two sessions with the same connection and warning counter whose logs
differ at most in the outcome of auxiliary statements. -/
def aux_sessions (g1 g2 : Session) : Prop :=
  g1.G_conn = g2.G_conn ∧ g1.G_warnings = g2.G_warnings ∧ aux_equiv g1.log g2.log

/-- The (identifier, secret) records handed to the lifecycle manager, in the
order of the calls. -/
def records (calls : List Call) : List (List Char × Option (List Char)) :=
  calls.map (fun c => (c.id, c.pwd))

/-- The tokenizer of the description without its two arrays: whether an escape
is pending, the inside-quotes flag, the field counter, and the number of bytes
each of the two selected fields has accumulated since its count was last
reset. -/
structure Fill where
  esc : Bool
  quoted : Bool
  fieldnum : Int
  na : Nat
  np : Nat
deriving DecidableEq, Repr

/-- One byte of the roster, for the counts of accumulated bytes, written from
the description of the tokenizer: the byte after a backslash is consumed; a
quote toggles the flag; a newline that is not escaped starts a new line with
both counts at 0; a separator outside quotes ends the field, and the count of
a buffer restarts at 0 when the field counter reaches its selector; a
separator inside quotes is ignored; any other byte is accumulated by each
buffer whose selector is the current field. -/
def fill_step (cfg : Config) (s : Fill) (ch : Char) : Fill :=
  if s.esc then { s with esc := false }
  else if ch = DQUOTE then { s with quoted := !s.quoted }
  else if ch = BACKSLASH then { s with esc := true }
  else if ch = NEWLINE then { esc := false, quoted := false, fieldnum := 1, na := 0, np := 0 }
  else if ch = cfg.G_sep then
    if s.quoted then s
    else
      { s with
        fieldnum := wrap16 (s.fieldnum + 1),
        na := if wrap16 (s.fieldnum + 1) = cfg.G_id then 0 else s.na,
        np := if wrap16 (s.fieldnum + 1) = cfg.G_pwd then 0 else s.np }
  else
    { s with
      na := if s.fieldnum = cfg.G_id then s.na + 1 else s.na,
      np := if s.fieldnum = cfg.G_pwd then s.np + 1 else s.np }

/-- The counts at the beginning of the roster. -/
def fill_init : Fill := { esc := false, quoted := false, fieldnum := 1, na := 0, np := 0 }

/-- Whether, from the counts `s` on, each of the two selected fields holds at
most 249 accumulated bytes after every byte of the roster. -/
def fits_from (cfg : Config) : Fill → List Char → Bool
  | _, [] => true
  | s, ch :: l =>
    decide ((fill_step cfg s ch).na ≤ 249 ∧ (fill_step cfg s ch).np ≤ 249) &&
      fits_from cfg (fill_step cfg s ch) l

/-- Whether a roster never makes the identifier field or the secret field
accumulate more than 249 bytes. -/
def fits (cfg : Config) (roster : List Char) : Bool := fits_from cfg fill_init roster

/-- The variables of the read loop agree with the counts of the description:
same pending escape, quote flag and field counter, and each buffer index is
the number of bytes accumulated by its field. -/
def tracks (st : State) (s : Fill) : Prop :=
  st.esc = s.esc ∧ st.blind = (if s.quoted then 1 else 0) ∧ st.fieldnum = s.fieldnum ∧
  st.aidx = (s.na : Int) ∧ st.pidx = (s.np : Int)

/-- Two states of the read loop at the same point of a line: no escape
pending, same quote flag, field counter and buffer indices, and the two pairs
of arrays hold the same bytes below their indices. The line counter, the
session and the record of the run are left free. -/
def same_line (s t : State) : Prop :=
  s.esc = false ∧ t.esc = false ∧ s.blind = t.blind ∧ s.fieldnum = t.fieldnum ∧
  s.aidx = t.aidx ∧ s.pidx = t.pidx ∧
  (∀ i : Nat, (i : Int) < s.aidx → s.account i = t.account i) ∧
  (∀ i : Nat, (i : Int) < s.pidx → s.defpass i = t.defpass i)

/-! ## Basic facts on the session -/

theorem iterate_notice_conn (n : Nat) (g : Session) :
    (Nat.iterate ignore_notice n g).G_conn = g.G_conn := by
  induction n generalizing g with
  | zero => rfl
  | succ n ih => simp [Function.iterate_succ, ih, ignore_notice]

theorem iterate_notice_log (n : Nat) (g : Session) :
    (Nat.iterate ignore_notice n g).log = g.log := by
  induction n generalizing g with
  | zero => rfl
  | succ n ih => simp [Function.iterate_succ, ih, ignore_notice]

@[simp] theorem PQexec_conn (db : Oracle) (g : Session) (cmd : List Char) :
    (PQexec db g cmd).2.G_conn = g.G_conn := by
  simp [PQexec, iterate_notice_conn]

@[simp] theorem PQexec_log (db : Oracle) (g : Session) (cmd : List Char) :
    (PQexec db g cmd).2.log = g.log ++ [PQentry db g cmd] := by
  simp [PQexec, PQentry]

@[simp] theorem PQentry_stmt (db : Oracle) (g : Session) (cmd : List Char) :
    (PQentry db g cmd).stmt = cmd := rfl

@[simp] theorem PQentry_ok (db : Oracle) (g : Session) (cmd : List Char) :
    (PQentry db g cmd).ok = (PQexec db g cmd).1 := rfl

@[simp] theorem PQentry_wBefore (db : Oracle) (g : Session) (cmd : List Char) :
    (PQentry db g cmd).wBefore = g.G_warnings := rfl

@[simp] theorem PQentry_wAfter (db : Oracle) (g : Session) (cmd : List Char) :
    (PQentry db g cmd).wAfter = (PQexec db g cmd).2.G_warnings := rfl

/-! ## Closed forms of the lifecycle routines -/

theorem create_account_eq (db : Oracle) (id pwd : List Char) (role : Option (List Char))
    (g : Session) (h : g.G_conn = true) :
    create_account db (some id) (some pwd) role g = provision_flow db id pwd role g := by
  cases hd : isdigit (deref id) <;> cases role <;>
    simp only [create_account, provision_flow, hd, h, start_tx, commit_tx, rollback_tx,
      PQexec_conn, strbuf_add, strbuf_addc, strbuf_init, strbuf_clear, stmt_create_user,
      stmt_create_schema, stmt_alter_role, stmt_grant, login_name, schema_name, if_true,
      if_false, Bool.false_eq_true, List.nil_append, List.append_assoc, List.singleton_append,
      List.cons_append, stmt_start, stmt_commit, stmt_rollback, exec_until_fail,
      provisioning_script] <;>
    (cases h1 : (PQexec db (PQexec db g "start transaction".toList).2 _).1 <;>
      simp only [h1, h, PQexec_conn, if_true, if_false, Bool.false_eq_true,
        Bool.true_eq_false] <;>
     try (cases h2 : (PQexec db (PQexec db (PQexec db g "start transaction".toList).2 _).2 _).1 <;>
      simp only [h1, h2, h, PQexec_conn, if_true, if_false, Bool.false_eq_true,
        Bool.true_eq_false] <;>
     try (cases h3 : (PQexec db (PQexec db (PQexec db
            (PQexec db g "start transaction".toList).2 _).2 _).2 _).1 <;>
      simp only [h1, h2, h3, h, PQexec_conn, if_true, if_false, Bool.false_eq_true,
        Bool.true_eq_false] <;>
     try (cases h4 : (PQexec db (PQexec db (PQexec db (PQexec db
            (PQexec db g "start transaction".toList).2 _).2 _).2 _).2 _).1 <;>
      simp only [h1, h2, h3, h4, h, PQexec_conn, if_true, if_false, Bool.false_eq_true,
        Bool.true_eq_false]))))

theorem delete_account_eq (db : Oracle) (id : List Char) (g : Session) (h : g.G_conn = true) :
    delete_account db (some id) g = deprovision_flow db id g := by
  cases hd : isdigit (deref id) <;>
    simp only [delete_account, deprovision_flow, hd, h, start_tx, commit_tx, rollback_tx,
      new_savepoint, remove_savepoint, PQexec_conn, strbuf_add, strbuf_addc, strbuf_init,
      strbuf_clear, stmt_drop_schema, stmt_drop_owned, stmt_drop_user, drop_login_name,
      drop_schema_name, if_true, if_false, Bool.false_eq_true, List.nil_append,
      List.append_assoc, List.singleton_append, List.cons_append, stmt_start, stmt_commit,
      stmt_rollback, stmt_savepoint, stmt_rollback_to, stmt_release, dep_started, dep_schema,
      dep_saved, dep_owned, dep_undone, dep_released, dep_user] <;>
    (cases h3 : (PQexec db (PQexec db (PQexec db (PQexec db g "start transaction".toList).2 _).2
        "savepoint sv".toList).2 _).1 <;>
     cases h1 : (PQexec db (PQexec db g "start transaction".toList).2 _).1 <;>
      simp only [h1, h3, h, PQexec_conn, if_true, if_false, Bool.false_eq_true,
        Bool.true_eq_false, Bool.not_false, Bool.not_true] <;>
     (try (cases h6 : (PQexec db (PQexec db _ "release savepoint sv".toList).2 _).1 <;>
       simp only [h6, h, PQexec_conn, if_true, if_false, Bool.false_eq_true,
        Bool.true_eq_false] <;> (try split_ifs) <;> simp_all)))

/-! ## Provisioning: `create_account` -/

theorem issued_of_log {g g1 : Session} {es : List Exec} (h : g1.log = g.log ++ es) :
    issued g g1 = es := by
  simp [issued, h]

theorem stmt_start_ne_commit : stmt_start ≠ stmt_commit := by decide
theorem stmt_rollback_ne_commit : stmt_rollback ≠ stmt_commit := by decide

theorem exec_until_fail_spec (db : Oracle) (cs : List (List Char)) (g : Session) :
    ∃ es : List Exec,
      (exec_until_fail db cs g).2.log = g.log ++ es ∧
      (exec_until_fail db cs g).2.G_conn = g.G_conn ∧
      es.map Exec.stmt <+: cs ∧
      (∀ e ∈ es.dropLast, e.ok = true) ∧
      ((exec_until_fail db cs g).1 = true ↔ ∀ e ∈ es, e.ok = true) ∧
      ((exec_until_fail db cs g).1 = true → es.map Exec.stmt = cs) := by
  induction cs generalizing g with
  | nil => exact ⟨[], by simp [exec_until_fail]⟩
  | cons c cs ih =>
    by_cases h : (PQexec db g c).1 = false
    · refine ⟨[PQentry db g c], ?_⟩
      simp [exec_until_fail, h]
    · obtain ⟨es, h1, h2, h3, h4, h5, h6⟩ := ih (PQexec db g c).2
      have h' : (PQexec db g c).1 = true := by simpa using h
      refine ⟨PQentry db g c :: es, ?_, ?_, ?_, ?_, ?_, ?_⟩
      · simp [exec_until_fail, h, h1]
      · simp [exec_until_fail, h, h2]
      · simpa using h3
      · intro e he
        cases es with
        | nil => simp at he
        | cons e1 es1 =>
          rw [List.dropLast_cons₂] at he
          rcases List.mem_cons.1 he with rfl | he
          · simpa using h'
          · exact h4 e he
      · simp [exec_until_fail, h, h5, h']
      · intro hh
        simp only [exec_until_fail, h, if_false] at hh
        simp [h6 hh]

theorem provisioning_script_ne_commit (id pwd : List Char) (role : Option (List Char)) :
    ∀ c ∈ provisioning_script id pwd role, c ≠ stmt_commit := by
  intro c hc
  cases role <;>
    simp [provisioning_script, stmt_create_user, stmt_create_schema, stmt_alter_role,
      stmt_grant] at hc <;>
    rcases hc with rfl | rfl | rfl | rfl <;> simp [stmt_commit]

theorem provision_flow_log (db : Oracle) (id pwd : List Char) (role : Option (List Char))
    (g : Session) :
    ∃ es : List Exec,
      issued g (provision_flow db id pwd role g).2 =
        PQentry db g stmt_start :: (es ++
          [PQentry db (exec_until_fail db (provisioning_script id pwd role)
              (PQexec db g stmt_start).2).2
            (if (provision_flow db id pwd role g).1 = false then stmt_rollback
             else stmt_commit)]) ∧
      es.map Exec.stmt <+: provisioning_script id pwd role ∧
      (∀ e ∈ es.dropLast, e.ok = true) ∧
      ((provision_flow db id pwd role g).1 = true ↔ ∀ e ∈ es, e.ok = true) ∧
      ((provision_flow db id pwd role g).1 = true →
        es.map Exec.stmt = provisioning_script id pwd role) := by
  obtain ⟨es, h1, -, h3, h4, h5, h6⟩ :=
    exec_until_fail_spec db (provisioning_script id pwd role) (PQexec db g stmt_start).2
  refine ⟨es, ?_, h3, h4, h5, h6⟩
  simp [issued, provision_flow, h1]

/-- **C2** (provision success path). On a live connection, when every
statement executed by `create_account` succeeds, the statements it executes
are exactly, in this order, `start transaction`, `create user L with password
'pwd'`, `create schema S authorization L`, `alter role L set search_path to
S,public`, then `grant role to L` if and only if a role was supplied, then
`commit`; and the call returns success. `L` and `S` are the identifier
prefixed with `u`, respectively `s`, when its first character is a digit, and
the identifier itself otherwise. -/
theorem create_account_success_path (db : Oracle) (id pwd : List Char)
    (role : Option (List Char)) (g : Session) (hconn : g.G_conn = true)
    (hok : ∀ e ∈ issued g (create_account db (some id) (some pwd) role g).2, e.ok = true) :
    (create_account db (some id) (some pwd) role g).1 = true ∧
    (issued g (create_account db (some id) (some pwd) role g).2).map Exec.stmt =
      [stmt_start] ++ provisioning_script id pwd role ++ [stmt_commit] := by
  rw [create_account_eq db id pwd role g hconn] at hok ⊢
  obtain ⟨es, h1, -, -, h4, h5⟩ := provision_flow_log db id pwd role g
  have hall : ∀ e ∈ es, e.ok = true := by
    intro e he
    apply hok
    rw [h1]
    simp [he]
  have hr : (provision_flow db id pwd role g).1 = true := h4.2 hall
  refine ⟨hr, ?_⟩
  rw [h1]
  simp [hr, h5 hr]

/-- Witness of **C2**: the identifier `7alice` with a role, every statement succeeding. -/
theorem create_account_success_path_witness :
    connected.G_conn = true ∧
    (∀ e ∈ issued connected
      (create_account okDb (some "7alice".toList) (some "pw".toList) (some "students".toList) connected).2,
      e.ok = true) ∧
    (create_account okDb (some "7alice".toList) (some "pw".toList) (some "students".toList) connected).1 = true ∧
    (issued connected (create_account okDb (some "7alice".toList) (some "pw".toList) (some "students".toList) connected).2).map Exec.stmt =
      ["start transaction".toList, "create user u7alice with password 'pw'".toList,
       "create schema s7alice authorization u7alice".toList,
       "alter role u7alice set search_path to s7alice,public".toList,
       "grant students to u7alice".toList, "commit".toList] :=
  ⟨rfl, by decide,
   (create_account_success_path okDb "7alice".toList "pw".toList (some "students".toList) connected rfl
      (by decide)).1,
   (create_account_success_path okDb "7alice".toList "pw".toList (some "students".toList) connected rfl
      (by decide)).2.trans (by decide)⟩

/-- **C3** (provision failure path). On a live connection the statements
executed by `create_account` are `start transaction`, then a prefix `mid` of
the provisioning statements, then one final statement. Every statement of
`mid` but its last succeeded, so a provisioning statement that fails is
followed by no other provisioning statement. The call returns success if and
only if every statement of `mid` succeeded; in that case `mid` is the whole
script and the final statement is `commit`; otherwise the final statement is
`rollback` and no `commit` is executed. -/
theorem create_account_failure_path (db : Oracle) (id pwd : List Char)
    (role : Option (List Char)) (g : Session) (hconn : g.G_conn = true) :
    ∃ (s f : Exec) (mid : List Exec),
      issued g (create_account db (some id) (some pwd) role g).2 = s :: (mid ++ [f]) ∧
      s.stmt = stmt_start ∧
      mid.map Exec.stmt <+: provisioning_script id pwd role ∧
      (∀ e ∈ mid.dropLast, e.ok = true) ∧
      ((create_account db (some id) (some pwd) role g).1 = true ↔ ∀ e ∈ mid, e.ok = true) ∧
      ((create_account db (some id) (some pwd) role g).1 = true →
        mid.map Exec.stmt = provisioning_script id pwd role ∧ f.stmt = stmt_commit) ∧
      ((create_account db (some id) (some pwd) role g).1 = false →
        f.stmt = stmt_rollback ∧
        ∀ e ∈ issued g (create_account db (some id) (some pwd) role g).2,
          e.stmt ≠ stmt_commit) := by
  rw [create_account_eq db id pwd role g hconn]
  obtain ⟨es, h1, h2, h3, h4, h5⟩ := provision_flow_log db id pwd role g
  refine ⟨_, _, es, h1, rfl, h2, h3, h4, ?_, ?_⟩
  · intro hr
    exact ⟨h5 hr, by simp [hr]⟩
  · intro hr
    refine ⟨by simp [hr], ?_⟩
    intro e he
    rw [h1] at he
    simp only [List.mem_cons, List.mem_append, List.mem_singleton, List.not_mem_nil, or_false] at he
    rcases he with rfl | he | rfl
    · simpa using stmt_start_ne_commit
    · apply provisioning_script_ne_commit id pwd role
      exact h2.subset (List.mem_map_of_mem _ he)
    · simpa [hr] using stmt_rollback_ne_commit

/-- Witness of **C3**: the identifier `alice` on a database that rejects the
create-schema statement. -/
theorem create_account_failure_path_witness :
    connected.G_conn = true ∧
    ∃ (s f : Exec) (mid : List Exec),
      issued connected (create_account
        (rejecting "create schema alice authorization alice".toList)
        (some "alice".toList) (some "pw".toList) none connected).2 = s :: (mid ++ [f]) ∧
      s.stmt = stmt_start ∧
      mid.map Exec.stmt <+: provisioning_script "alice".toList "pw".toList none ∧
      (∀ e ∈ mid.dropLast, e.ok = true) ∧
      ((create_account (rejecting "create schema alice authorization alice".toList)
          (some "alice".toList) (some "pw".toList) none connected).1 = true ↔
        ∀ e ∈ mid, e.ok = true) ∧
      ((create_account (rejecting "create schema alice authorization alice".toList)
          (some "alice".toList) (some "pw".toList) none connected).1 = true →
        mid.map Exec.stmt = provisioning_script "alice".toList "pw".toList none ∧
        f.stmt = stmt_commit) ∧
      ((create_account (rejecting "create schema alice authorization alice".toList)
          (some "alice".toList) (some "pw".toList) none connected).1 = false →
        f.stmt = stmt_rollback ∧
        ∀ e ∈ issued connected (create_account
            (rejecting "create schema alice authorization alice".toList)
            (some "alice".toList) (some "pw".toList) none connected).2,
          e.stmt ≠ stmt_commit) :=
  ⟨rfl, create_account_failure_path (rejecting "create schema alice authorization alice".toList)
    "alice".toList "pw".toList none connected rfl⟩

/-! ## Deprovisioning: `delete_account` -/

theorem deprovision_flow_log (db : Oracle) (id : List Char) (g : Session) :
    issued g (deprovision_flow db id g).2 =
      [PQentry db g stmt_start,
       PQentry db (dep_started db g) (stmt_drop_schema (drop_schema_name id)),
       PQentry db (dep_schema db id g).2 stmt_savepoint,
       PQentry db (dep_saved db id g) (stmt_drop_owned (drop_login_name id))]
      ++ (if (dep_owned db id g).1 = false then
            [PQentry db (dep_owned db id g).2 stmt_rollback_to] else [])
      ++ [PQentry db (dep_undone db id g) stmt_release]
      ++ (if (dep_schema db id g).1 = false then []
          else [PQentry db (dep_released db id g) (stmt_drop_user (drop_login_name id))])
      ++ [PQentry db
            (if (dep_schema db id g).1 = false then dep_released db id g
             else (dep_user db id g).2)
            (if (deprovision_flow db id g).1 = false then stmt_rollback else stmt_commit)] := by
  have hrel : (dep_released db id g).log = g.log ++
      ([PQentry db g stmt_start,
       PQentry db (dep_started db g) (stmt_drop_schema (drop_schema_name id)),
       PQentry db (dep_schema db id g).2 stmt_savepoint,
       PQentry db (dep_saved db id g) (stmt_drop_owned (drop_login_name id))]
      ++ (if (dep_owned db id g).1 = false then
            [PQentry db (dep_owned db id g).2 stmt_rollback_to] else [])
      ++ [PQentry db (dep_undone db id g) stmt_release]) := by
    have h3 : (dep_owned db id g).2.log = g.log ++ [PQentry db g stmt_start,
       PQentry db (dep_started db g) (stmt_drop_schema (drop_schema_name id)),
       PQentry db (dep_schema db id g).2 stmt_savepoint,
       PQentry db (dep_saved db id g) (stmt_drop_owned (drop_login_name id))] := by
      simp [dep_owned, dep_saved, dep_schema, dep_started]
    unfold dep_released
    rw [PQexec_log]
    by_cases h : (dep_owned db id g).1 = false
    · simp [dep_undone, h, h3]
    · simp [dep_undone, h, h3]
  have huser : (dep_user db id g).2.log = (dep_released db id g).log ++
      [PQentry db (dep_released db id g) (stmt_drop_user (drop_login_name id))] := by
    simp [dep_user]
  by_cases h1 : (dep_schema db id g).1 = false
  · have hv : deprovision_flow db id g =
        (false, (PQexec db (dep_released db id g) stmt_rollback).2) := by
      simp [deprovision_flow, h1]
    rw [hv]
    simp [issued, hrel, h1]
  · by_cases h6 : (dep_user db id g).1 = false
    · have hv : deprovision_flow db id g =
          (false, (PQexec db (dep_user db id g).2 stmt_rollback).2) := by
        simp [deprovision_flow, h1, h6]
      rw [hv]
      simp [issued, hrel, huser, h1]
    · by_cases hw : (dep_user db id g).2.G_warnings > (dep_released db id g).G_warnings
      · have hv : deprovision_flow db id g =
            (false, (PQexec db (dep_user db id g).2 stmt_rollback).2) := by
          simp [deprovision_flow, h1, h6, hw]
        rw [hv]
        simp [issued, hrel, huser, h1]
      · have hv : deprovision_flow db id g =
            (true, (PQexec db (dep_user db id g).2 stmt_commit).2) := by
          simp [deprovision_flow, h1, h6, hw]
        rw [hv]
        simp [issued, hrel, huser, h1]

theorem deprovision_flow_ok (db : Oracle) (id : List Char) (g : Session) :
    (deprovision_flow db id g).1 = true ↔
      (dep_schema db id g).1 = true ∧ (dep_user db id g).1 = true ∧
      ¬ (dep_user db id g).2.G_warnings > (dep_released db id g).G_warnings := by
  unfold deprovision_flow
  split_ifs with h1 h6 hw <;> simp_all

theorem deprovision_flow_no_commit (db : Oracle) (id : List Char) (g : Session)
    (h : (deprovision_flow db id g).1 = false) :
    ∀ e ∈ issued g (deprovision_flow db id g).2, e.stmt ≠ stmt_commit := by
  intro e he
  rw [deprovision_flow_log, h] at he
  simp only [List.mem_append, List.mem_cons, List.mem_singleton, List.not_mem_nil, or_false,
    if_true] at he
  rcases he with (((((rfl | rfl | rfl | rfl) | he) | rfl) | he) | rfl)
  · simp [stmt_start, stmt_commit]
  · simp [stmt_drop_schema, stmt_commit]
  · simp [stmt_savepoint, stmt_commit]
  · simp [stmt_drop_owned, stmt_commit]
  · split_ifs at he
    · simp only [List.mem_singleton] at he
      subst he
      simp [stmt_rollback_to, stmt_commit]
    · simp at he
  · simp [stmt_release, stmt_commit]
  · split_ifs at he
    · simp at he
    · simp only [List.mem_singleton] at he
      subst he
      simp [stmt_drop_user, stmt_commit]
  · simp [stmt_rollback, stmt_commit]

theorem deprovision_flow_drop_user_entry (db : Oracle) (id : List Char) (g : Session)
    (e : Exec) (he : e ∈ issued g (deprovision_flow db id g).2)
    (hstmt : e.stmt = stmt_drop_user (drop_login_name id)) :
    (dep_schema db id g).1 = true ∧
    e = PQentry db (dep_released db id g) (stmt_drop_user (drop_login_name id)) := by
  rw [deprovision_flow_log] at he
  simp only [List.mem_append, List.mem_cons, List.mem_singleton, List.not_mem_nil, or_false]
    at he
  rcases he with (((((rfl | rfl | rfl | rfl) | he) | rfl) | he) | rfl)
  · simp [stmt_start, stmt_drop_user] at hstmt
  · simp [stmt_drop_schema, stmt_drop_user] at hstmt
  · simp [stmt_savepoint, stmt_drop_user] at hstmt
  · simp [stmt_drop_owned, stmt_drop_user] at hstmt
  · split_ifs at he
    · simp only [List.mem_singleton] at he
      subst he
      simp [stmt_rollback_to, stmt_drop_user] at hstmt
    · simp at he
  · simp [stmt_release, stmt_drop_user] at hstmt
  · split_ifs at he with h1
    · simp at he
    · simp only [List.mem_singleton] at he
      exact ⟨by simpa using h1, he⟩
  · exfalso
    simp only [PQentry_stmt] at hstmt
    split_ifs at hstmt
    · simp [stmt_rollback, stmt_drop_user] at hstmt
    · simp [stmt_commit, stmt_drop_user] at hstmt

theorem deprovision_flow_last (db : Oracle) (id : List Char) (g : Session) :
    ∃ (pre : List Exec) (f : Exec),
      issued g (deprovision_flow db id g).2 = pre ++ [f] ∧
      f.stmt = (if (deprovision_flow db id g).1 = false then stmt_rollback else stmt_commit) :=
  ⟨_, _, deprovision_flow_log db id g, rfl⟩

theorem iterate_notice_warnings (n : Nat) (g : Session) (hlo : -32768 ≤ g.G_warnings)
    (hhi : g.G_warnings + n ≤ 32767) :
    (Nat.iterate ignore_notice n g).G_warnings = g.G_warnings + n := by
  induction n generalizing g with
  | zero => simp
  | succ n ih =>
    rw [Function.iterate_succ, Function.comp_apply]
    have h1 : (ignore_notice g).G_warnings = g.G_warnings + 1 := by
      simp only [ignore_notice, wrap16]
      push_cast at hhi
      omega
    rw [ih (ignore_notice g) (by rw [h1]; omega) (by rw [h1]; push_cast at hhi ⊢; omega), h1]
    push_cast
    ring

theorem PQexec_warnings (db : Oracle) (g : Session) (cmd : List Char) :
    (PQexec db g cmd).2.G_warnings =
      (Nat.iterate ignore_notice (db g.log cmd).notices g).G_warnings := by
  simp [PQexec]

/-- Supplement to **C4**: as long as the 16-bit warning counter does not
overflow while the drop-user statement runs, `delete_account` returns success
exactly when the drop-schema statement succeeded, the drop-user statement
succeeded, and the drop-user statement raised no notice. -/
theorem delete_account_outcome_without_overflow (db : Oracle) (id : List Char) (g : Session)
    (hconn : g.G_conn = true)
    (hlo : -32768 ≤ (dep_released db id g).G_warnings)
    (hhi : (dep_released db id g).G_warnings +
      (db (dep_released db id g).log (stmt_drop_user (drop_login_name id))).notices ≤ 32767) :
    (delete_account db (some id) g).1 = true ↔
      (dep_schema db id g).1 = true ∧ (dep_user db id g).1 = true ∧
      (db (dep_released db id g).log (stmt_drop_user (drop_login_name id))).notices = 0 := by
  rw [delete_account_eq db id g hconn, deprovision_flow_ok]
  have hw : (dep_user db id g).2.G_warnings = (dep_released db id g).G_warnings +
      (db (dep_released db id g).log (stmt_drop_user (drop_login_name id))).notices := by
    unfold dep_user
    rw [PQexec_warnings, iterate_notice_warnings _ _ hlo hhi]
  rw [hw]
  constructor
  · rintro ⟨h1, h2, h3⟩
    exact ⟨h1, h2, by omega⟩
  · rintro ⟨h1, h2, h3⟩
    exact ⟨h1, h2, by omega⟩

/-- **C4** (deprovision outcome), the code at the failing input. The warning
counter `G_warnings` is a `short`; with `G_warnings = 32767` when
`delete_account` is called for `bob`, on a database where every statement
succeeds and the drop-user statement raises one notice, the counter wraps to
`-32768`, the test `G_warnings > warnings` is false, and the call commits and
returns success although a notice was raised while the drop-user statement
ran. -/
theorem delete_account_notice_overflow :
    (delete_account (noticing "drop user if exists bob".toList) (some "bob".toList)
      (Session.mk true 32767 [])).1 = true ∧
    (delete_account (noticing "drop user if exists bob".toList) (some "bob".toList)
      (Session.mk true 32767 [])).2.log =
      [Exec.mk "start transaction".toList true 0 32767 32767,
       Exec.mk "drop schema if exists bob cascade".toList true 0 32767 32767,
       Exec.mk "savepoint sv".toList true 0 32767 32767,
       Exec.mk "drop owned by bob restrict".toList true 0 32767 32767,
       Exec.mk "release savepoint sv".toList true 0 32767 32767,
       Exec.mk "drop user if exists bob".toList true 1 32767 (-32768),
       Exec.mk "commit".toList true 0 (-32768) (-32768)] := by
  decide

/-- **C5** (warning-as-failure rule). On a live connection, if the drop-user
statement executed by `delete_account` reports success while the warning
counter `G_warnings` is greater after it than before, then `delete_account`
returns failure, the last statement it executes is `rollback`, it executes no
`commit`, and the read loop, dispatching that record in delete mode, leaves
the tally `cnt` unchanged, prints nothing and records the call as failed. -/
theorem drop_user_warning_is_failure (db : Oracle) (id : List Char) (g : Session)
    (hconn : g.G_conn = true) (e : Exec)
    (he : e ∈ issued g (delete_account db (some id) g).2)
    (hstmt : e.stmt = stmt_drop_user (drop_login_name id))
    (hok : e.ok = true) (hw : e.wBefore < e.wAfter) :
    (delete_account db (some id) g).1 = false ∧
    (∃ (pre : List Exec) (f : Exec),
      issued g (delete_account db (some id) g).2 = pre ++ [f] ∧ f.stmt = stmt_rollback) ∧
    (∀ e1 ∈ issued g (delete_account db (some id) g).2, e1.stmt ≠ stmt_commit) ∧
    (∀ (cfg : Config) (st st1 : State) (acc : Buf),
      cfg.op ≠ CREATE → st.g = g → store st.account st.aidx NUL = some acc → cstr acc = id →
      dispatch cfg db st = some st1 →
      st1.cnt = st.cnt ∧ st1.out = st.out ∧
      st1.calls = st.calls ++ [Call.mk st.phys false id none false]) := by
  have hfalse : (delete_account db (some id) g).1 = false := by
    rw [delete_account_eq db id g hconn] at he ⊢
    obtain ⟨h1, rfl⟩ := deprovision_flow_drop_user_entry db id g e he hstmt
    have h6 : (dep_user db id g).1 = true := hok
    have hw2 : (dep_user db id g).2.G_warnings > (dep_released db id g).G_warnings := hw
    simp [deprovision_flow, h1, h6, hw2]
  refine ⟨hfalse, ?_, ?_, ?_⟩
  · rw [delete_account_eq db id g hconn] at hfalse ⊢
    obtain ⟨pre, f, h1, h2⟩ := deprovision_flow_last db id g
    exact ⟨pre, f, h1, by simpa [hfalse] using h2⟩
  · rw [delete_account_eq db id g hconn] at hfalse ⊢
    exact deprovision_flow_no_commit db id g hfalse
  · intro cfg st st1 acc hop hg hacc hid hd
    subst hg hid
    unfold dispatch at hd
    rw [hacc] at hd
    simp only [] at hd
    cases hdp : store st.defpass st.pidx NUL with
    | none => simp [hdp] at hd
    | some dp =>
      simp only [hdp, hop, if_false, hfalse, Bool.false_eq_true] at hd
      cases hd
      simp

/-- Witness of **C5**: a second deprovision of `bob`, whose drop-user
statement succeeds and raises one notice. -/
theorem drop_user_warning_is_failure_witness :
    connected.G_conn = true ∧
    Exec.mk "drop user if exists bob".toList true 1 0 1 ∈
      issued connected (delete_account (noticing "drop user if exists bob".toList)
        (some "bob".toList) connected).2 ∧
    (Exec.mk "drop user if exists bob".toList true 1 0 1).stmt =
      stmt_drop_user (drop_login_name "bob".toList) ∧
    (Exec.mk "drop user if exists bob".toList true 1 0 1).ok = true ∧
    (Exec.mk "drop user if exists bob".toList true 1 0 1).wBefore <
      (Exec.mk "drop user if exists bob".toList true 1 0 1).wAfter ∧
    (delete_account (noticing "drop user if exists bob".toList)
        (some "bob".toList) connected).1 = false :=
  ⟨rfl, by decide, by decide, rfl, by decide,
   (drop_user_warning_is_failure (noticing "drop user if exists bob".toList) "bob".toList
      connected rfl (Exec.mk "drop user if exists bob".toList true 1 0 1)
      (by decide) (by decide) rfl (by decide)).1⟩

/-! ## Names written by the two routines -/

/-- **C6** as stated fails: for the identifier `7alice`, `create_account`
writes the namespace `s7alice` and the login role `u7alice`, while the
statements of `delete_account` contain `S7alice` and `U7alice`; none of its
statements is `drop schema if exists s7alice cascade`, `drop owned by u7alice
restrict` or `drop user if exists u7alice`. -/
theorem delete_names_differ_from_create_names :
    (issued connected (create_account okDb (some "7alice".toList) (some "pw".toList) none
        connected).2).map Exec.stmt =
      ["start transaction".toList, "create user u7alice with password 'pw'".toList,
       "create schema s7alice authorization u7alice".toList,
       "alter role u7alice set search_path to s7alice,public".toList, "commit".toList] ∧
    (issued connected (delete_account okDb (some "7alice".toList) connected).2).map Exec.stmt =
      ["start transaction".toList, "drop schema if exists S7alice cascade".toList,
       "savepoint sv".toList, "drop owned by U7alice restrict".toList,
       "release savepoint sv".toList, "drop user if exists U7alice".toList,
       "commit".toList] ∧
    "drop schema if exists s7alice cascade".toList ∉
      (issued connected (delete_account okDb (some "7alice".toList) connected).2).map
        Exec.stmt ∧
    "drop owned by u7alice restrict".toList ∉
      (issued connected (delete_account okDb (some "7alice".toList) connected).2).map
        Exec.stmt ∧
    "drop user if exists u7alice".toList ∉
      (issued connected (delete_account okDb (some "7alice".toList) connected).2).map
        Exec.stmt := by
  decide

theorem exec_until_fail_head (db : Oracle) (c : List Char) (cs : List (List Char))
    (g : Session) :
    ∃ es : List Exec, (exec_until_fail db (c :: cs) g).2.log = g.log ++ PQentry db g c :: es := by
  by_cases h : (PQexec db g c).1 = false
  · exact ⟨[], by simp [exec_until_fail, h]⟩
  · obtain ⟨es, h1, -⟩ := exec_until_fail_spec db cs (PQexec db g c).2
    exact ⟨es, by simp [exec_until_fail, h, h1]⟩

theorem create_account_first_two (db : Oracle) (id pwd : List Char)
    (role : Option (List Char)) (g : Session) (hconn : g.G_conn = true) :
    ((issued g (create_account db (some id) (some pwd) role g).2).map Exec.stmt).take 2 =
      [stmt_start, stmt_create_user (login_name id) pwd] := by
  rw [create_account_eq db id pwd role g hconn]
  obtain ⟨rest, h2⟩ : ∃ rest, provisioning_script id pwd role =
      stmt_create_user (login_name id) pwd :: rest := ⟨_, rfl⟩
  obtain ⟨es, h1⟩ := exec_until_fail_head db (stmt_create_user (login_name id) pwd) rest
    (PQexec db g stmt_start).2
  simp [issued, provision_flow, h2, h1]

theorem delete_account_first_four (db : Oracle) (id : List Char) (g : Session)
    (hconn : g.G_conn = true) :
    ((issued g (delete_account db (some id) g).2).map Exec.stmt).take 4 =
      [stmt_start, stmt_drop_schema (drop_schema_name id), stmt_savepoint,
       stmt_drop_owned (drop_login_name id)] := by
  rw [delete_account_eq db id g hconn, deprovision_flow_log]
  simp

/-- **C6** (naming in create and delete), amended. On a live connection every
statement executed by `create_account` is one of the fixed transaction
statements or a provisioning statement written with `login_name id` and
`schema_name id`, the first two being `start transaction` and the create-user
statement; every statement executed by `delete_account` is one of the fixed
statements or a drop statement written with `drop_login_name id` and
`drop_schema_name id`, the first four being `start transaction`, the
drop-schema statement, `savepoint sv` and the drop-owned statement. For an
identifier whose first character is a digit the names are `u`+id and `s`+id
in `create_account` and `U`+id and `S`+id in `delete_account`: the same pair
up to the case of the prefix letter. For any other identifier all four names
are the identifier itself. -/
theorem create_delete_names (db : Oracle) (id pwd : List Char) (role : Option (List Char))
    (g : Session) (hconn : g.G_conn = true) :
    (∀ e ∈ issued g (create_account db (some id) (some pwd) role g).2,
      e.stmt ∈ [stmt_start, stmt_commit, stmt_rollback] ++ provisioning_script id pwd role) ∧
    ((issued g (create_account db (some id) (some pwd) role g).2).map Exec.stmt).take 2 =
      [stmt_start, stmt_create_user (login_name id) pwd] ∧
    (∀ e ∈ issued g (delete_account db (some id) g).2,
      e.stmt ∈ [stmt_start, stmt_commit, stmt_rollback, stmt_savepoint, stmt_rollback_to,
        stmt_release, stmt_drop_schema (drop_schema_name id),
        stmt_drop_owned (drop_login_name id), stmt_drop_user (drop_login_name id)]) ∧
    ((issued g (delete_account db (some id) g).2).map Exec.stmt).take 4 =
      [stmt_start, stmt_drop_schema (drop_schema_name id), stmt_savepoint,
       stmt_drop_owned (drop_login_name id)] ∧
    (isdigit (deref id) = true →
      login_name id = 'u' :: id ∧ schema_name id = 's' :: id ∧
      drop_login_name id = 'U' :: id ∧ drop_schema_name id = 'S' :: id) ∧
    (isdigit (deref id) = false →
      login_name id = id ∧ schema_name id = id ∧
      drop_login_name id = id ∧ drop_schema_name id = id) := by
  refine ⟨?_, ?_, ?_, ?_, ?_, ?_⟩
  · rw [create_account_eq db id pwd role g hconn]
    obtain ⟨es, h1, h2, -⟩ := provision_flow_log db id pwd role g
    intro e he
    rw [h1] at he
    simp only [List.mem_cons, List.mem_append, List.mem_singleton, List.not_mem_nil,
      or_false] at he
    rcases he with rfl | he | rfl
    · simp
    · exact List.mem_append_right _ (h2.subset (List.mem_map_of_mem _ he))
    · simp only [PQentry_stmt]
      split_ifs <;> simp
  · exact create_account_first_two db id pwd role g hconn
  · rw [delete_account_eq db id g hconn]
    intro e he
    rw [deprovision_flow_log] at he
    simp only [List.mem_append, List.mem_cons, List.mem_singleton, List.not_mem_nil, or_false]
      at he
    rcases he with (((((rfl | rfl | rfl | rfl) | he) | rfl) | he) | rfl)
    · simp
    · simp
    · simp
    · simp
    · split_ifs at he
      · simp only [List.mem_singleton] at he
        subst he
        simp
      · simp at he
    · simp
    · split_ifs at he
      · simp at he
      · simp only [List.mem_singleton] at he
        subst he
        simp
    · simp only [PQentry_stmt]
      split_ifs <;> simp
  · exact delete_account_first_four db id g hconn
  · intro h
    simp [login_name, schema_name, drop_login_name, drop_schema_name, h]
  · intro h
    simp [login_name, schema_name, drop_login_name, drop_schema_name, h]

/-- Witness of **C6** (amended): the identifier `7alice`. -/
theorem create_delete_names_witness :
    connected.G_conn = true ∧
    ((issued connected (create_account okDb (some "7alice".toList) (some "pw".toList) none
        connected).2).map Exec.stmt).take 2 =
      [stmt_start, stmt_create_user (login_name "7alice".toList) "pw".toList] ∧
    ((issued connected (delete_account okDb (some "7alice".toList) connected).2).map
        Exec.stmt).take 4 =
      [stmt_start, stmt_drop_schema (drop_schema_name "7alice".toList), stmt_savepoint,
       stmt_drop_owned (drop_login_name "7alice".toList)] ∧
    login_name "7alice".toList = "u7alice".toList ∧
    schema_name "7alice".toList = "s7alice".toList ∧
    drop_login_name "7alice".toList = "U7alice".toList ∧
    drop_schema_name "7alice".toList = "S7alice".toList :=
  ⟨rfl,
   (create_delete_names okDb "7alice".toList "pw".toList none connected rfl).2.1,
   (create_delete_names okDb "7alice".toList "pw".toList none connected rfl).2.2.2.1,
   ((create_delete_names okDb "7alice".toList "pw".toList none connected rfl).2.2.2.2.1
      (by decide)).1,
   ((create_delete_names okDb "7alice".toList "pw".toList none connected rfl).2.2.2.2.1
      (by decide)).2.1,
   ((create_delete_names okDb "7alice".toList "pw".toList none connected rfl).2.2.2.2.1
      (by decide)).2.2.1,
   ((create_delete_names okDb "7alice".toList "pw".toList none connected rfl).2.2.2.2.1
      (by decide)).2.2.2⟩

/-! ## The read loop: one byte at a time -/

theorem store_zero (buf : Buf) (c : Char) : store buf 0 c = some (set0 buf c) := by
  simp [store, ID_LEN]
  rfl

theorem dispatch_eq (cfg : Config) (db : Oracle) (st : State) :
    dispatch cfg db st =
      (store st.account st.aidx NUL).bind (fun acc =>
        (store st.defpass st.pidx NUL).bind (fun dp => some (dispatched cfg db st acc dp))) := by
  unfold dispatch
  cases h1 : store st.account st.aidx NUL with
  | none => simp
  | some acc =>
    cases h2 : store st.defpass st.pidx NUL with
    | none => simp
    | some dp =>
      simp only [Option.some_bind, dispatched, lifecycle]
      by_cases hop : cfg.op = CREATE
      · simp only [hop, if_true]
        cases hr : (create_account db (some (cstr acc)) (some (cstr dp)) cfg.role st.g).1 <;>
          simp [hr]
      · simp only [hop, if_false]
        cases hr : (delete_account db (some (cstr acc)) st.g).1 <;>
          simp [hr]

theorem case_newline_eq (cfg : Config) (db : Oracle) (st : State) :
    case_newline cfg db st =
      if cfg.skip < wrap16 (st.linecnt + 1) then
        (dispatch cfg db { st with linecnt := wrap16 (st.linecnt + 1), fieldnum := 1, blind := 0 }).map
          (fun s => { s with account := set0 s.account NUL, aidx := 0,
                             defpass := set0 s.defpass NUL, pidx := 0 })
      else
        some { st with linecnt := wrap16 (st.linecnt + 1), fieldnum := 1, blind := 0,
                       account := set0 st.account NUL, aidx := 0,
                       defpass := set0 st.defpass NUL, pidx := 0 } := by
  unfold case_newline
  simp only [gt_iff_lt]
  split_ifs with h
  · cases hd : dispatch cfg db { st with linecnt := wrap16 (st.linecnt + 1), fieldnum := 1, blind := 0 } with
    | none => simp
    | some s => simp [store_zero]
  · simp [store_zero]

theorem main_loop_nil (cfg : Config) (db : Oracle) (st : State) :
    main_loop cfg db [] st = some st := rfl

theorem main_loop_cons (cfg : Config) (db : Oracle) (ch : Char) (l : List Char) (st : State) :
    main_loop cfg db (ch :: l) st = (step cfg db st ch).bind (main_loop cfg db l) := by
  simp [main_loop, List.foldlM_cons]

theorem main_loop_append (cfg : Config) (db : Oracle) (l1 l2 : List Char) (st : State) :
    main_loop cfg db (l1 ++ l2) st = (main_loop cfg db l1 st).bind (main_loop cfg db l2) := by
  simp [main_loop, List.foldlM_append]

theorem step_esc (cfg : Config) (db : Oracle) (st : State) (ch : Char) (h : st.esc = true) :
    step cfg db st ch =
      some { st with phys := st.phys + (if ch = NEWLINE then 1 else 0), esc := false } := by
  unfold step
  by_cases hn : ch = NEWLINE <;> simp [h, hn]

theorem step_quote (cfg : Config) (db : Oracle) (st : State) (h : st.esc = false) :
    step cfg db st DQUOTE = some { st with blind := (st.blind + 1) % 2 } := by
  have hn : DQUOTE ≠ NEWLINE := by decide
  unfold step
  simp [h, hn]

theorem step_backslash (cfg : Config) (db : Oracle) (st : State) (h : st.esc = false) :
    step cfg db st BACKSLASH = some { st with esc := true } := by
  have hn : BACKSLASH ≠ NEWLINE := by decide
  have hq : BACKSLASH ≠ DQUOTE := by decide
  unfold step
  simp [h, hn, hq]

theorem step_newline (cfg : Config) (db : Oracle) (st : State) (h : st.esc = false) :
    step cfg db st NEWLINE = case_newline cfg db { st with phys := st.phys + 1 } := by
  have hq : NEWLINE ≠ DQUOTE := by decide
  have hb : NEWLINE ≠ BACKSLASH := by decide
  unfold step
  simp [h, hq, hb]

theorem step_sep (cfg : Config) (db : Oracle) (st : State) (ch : Char) (h : st.esc = false)
    (hq : ch ≠ DQUOTE) (hb : ch ≠ BACKSLASH) (hn : ch ≠ NEWLINE) (hs : ch = cfg.G_sep) :
    step cfg db st ch = case_sep cfg st := by
  subst hs
  cases st
  simp only at h
  subst h
  unfold step
  simp [hq, hb, hn]

theorem step_other (cfg : Config) (db : Oracle) (st : State) (ch : Char) (h : st.esc = false)
    (hq : ch ≠ DQUOTE) (hb : ch ≠ BACKSLASH) (hn : ch ≠ NEWLINE) (hs : ch ≠ cfg.G_sep) :
    step cfg db st ch = case_other cfg st ch := by
  cases st
  simp only at h
  subst h
  unfold step
  simp [hq, hb, hn, hs]

theorem case_sep_eq (cfg : Config) (st : State) :
    case_sep cfg st =
      if st.blind = 0 then
        (if st.fieldnum = cfg.G_id then store st.account st.aidx NUL
         else some st.account).bind (fun account =>
        (if st.fieldnum = cfg.G_pwd then store st.defpass st.pidx NUL
         else some st.defpass).bind (fun defpass =>
          some { st with
            account := account,
            defpass := defpass,
            fieldnum := wrap16 (st.fieldnum + 1),
            aidx := if wrap16 (st.fieldnum + 1) = cfg.G_id then 0 else st.aidx,
            pidx := if wrap16 (st.fieldnum + 1) = cfg.G_pwd then 0 else st.pidx }))
      else some st := by
  unfold case_sep
  by_cases hb : st.blind = 0
  · rw [if_pos hb, if_pos hb]
    generalize (if st.fieldnum = cfg.G_id then store st.account st.aidx NUL
      else some st.account) = oa
    generalize (if st.fieldnum = cfg.G_pwd then store st.defpass st.pidx NUL
      else some st.defpass) = op
    cases oa <;> cases op <;> rfl
  · rw [if_neg hb, if_neg hb]

theorem case_other_eq (cfg : Config) (st : State) (ch : Char) :
    case_other cfg st ch =
      (if st.fieldnum = cfg.G_id then
         (store st.account st.aidx ch).map (fun b => (b, wrap16 (st.aidx + 1)))
       else some (st.account, st.aidx)).bind (fun a =>
      (if st.fieldnum = cfg.G_pwd then
         (store st.defpass st.pidx ch).map (fun b => (b, wrap16 (st.pidx + 1)))
       else some (st.defpass, st.pidx)).bind (fun p =>
        some { st with account := a.1, aidx := a.2, defpass := p.1, pidx := p.2 })) := by
  unfold case_other
  generalize (if st.fieldnum = cfg.G_id then
      (store st.account st.aidx ch).map (fun b => (b, wrap16 (st.aidx + 1)))
    else some (st.account, st.aidx)) = oa
  generalize (if st.fieldnum = cfg.G_pwd then
      (store st.defpass st.pidx ch).map (fun b => (b, wrap16 (st.pidx + 1)))
    else some (st.defpass, st.pidx)) = op
  cases oa <;> cases op <;> rfl

theorem case_sep_frame (cfg : Config) (st st1 : State) (h : case_sep cfg st = some st1) :
    st1.linecnt = st.linecnt ∧ st1.calls = st.calls ∧ st1.g = st.g ∧ st1.cnt = st.cnt ∧
    st1.out = st.out ∧ st1.phys = st.phys ∧ st1.esc = st.esc ∧ st1.blind = st.blind ∧
    st1.exited = st.exited := by
  rw [case_sep_eq] at h
  by_cases hb : st.blind = 0
  · rw [if_pos hb] at h
    simp only [Option.bind_eq_some] at h
    obtain ⟨a, -, p, -, h⟩ := h
    cases h
    simp
  · rw [if_neg hb] at h
    cases h
    simp

theorem case_other_frame (cfg : Config) (st st1 : State) (ch : Char)
    (h : case_other cfg st ch = some st1) :
    st1.linecnt = st.linecnt ∧ st1.calls = st.calls ∧ st1.g = st.g ∧ st1.cnt = st.cnt ∧
    st1.out = st.out ∧ st1.phys = st.phys ∧ st1.esc = st.esc ∧ st1.blind = st.blind ∧
    st1.exited = st.exited ∧ st1.fieldnum = st.fieldnum := by
  rw [case_other_eq] at h
  simp only [Option.bind_eq_some] at h
  obtain ⟨a, -, p, -, h⟩ := h
  cases h
  simp

/-- What one byte does to the counters and to the record of the run: either
nothing is dispatched, or the byte is an unescaped newline ending a line whose
counter exceeds `skip`, and exactly one call is recorded for it. -/
theorem step_effect (cfg : Config) (db : Oracle) (st st1 : State) (ch : Char)
    (h : step cfg db st ch = some st1) :
    st1.phys = st.phys + (if ch = NEWLINE then 1 else 0) ∧
    ((st1.linecnt = st.linecnt ∧ st1.calls = st.calls ∧ st1.g = st.g ∧ st1.cnt = st.cnt ∧
        st1.out = st.out) ∨
     (ch = NEWLINE ∧ st.esc = false ∧ st1.linecnt = wrap16 (st.linecnt + 1) ∧
        ¬ cfg.skip < st1.linecnt ∧
        st1.calls = st.calls ∧ st1.g = st.g ∧ st1.cnt = st.cnt ∧ st1.out = st.out) ∨
     (ch = NEWLINE ∧ st.esc = false ∧ st1.linecnt = wrap16 (st.linecnt + 1) ∧
        cfg.skip < st1.linecnt ∧
        ∃ c : Call, st1.calls = st.calls ++ [c] ∧ c.line = st1.phys ∧
          (c.ok, st1.g) = lifecycle cfg db c.id (c.pwd.getD []) st.g)) := by
  by_cases hesc : st.esc = true
  · rw [step_esc cfg db st ch hesc] at h
    cases h
    exact ⟨rfl, Or.inl ⟨rfl, rfl, rfl, rfl, rfl⟩⟩
  have hesc : st.esc = false := by simpa using hesc
  by_cases hq : ch = DQUOTE
  · subst hq
    rw [step_quote cfg db st hesc] at h
    cases h
    have hn : DQUOTE ≠ NEWLINE := by decide
    exact ⟨by simp [hn], Or.inl ⟨rfl, rfl, rfl, rfl, rfl⟩⟩
  by_cases hb : ch = BACKSLASH
  · subst hb
    rw [step_backslash cfg db st hesc] at h
    cases h
    have hn : BACKSLASH ≠ NEWLINE := by decide
    exact ⟨by simp [hn], Or.inl ⟨rfl, rfl, rfl, rfl, rfl⟩⟩
  by_cases hn : ch = NEWLINE
  · subst hn
    rw [step_newline cfg db st hesc, case_newline_eq] at h
    simp only [if_true]
    split_ifs at h with hs
    · rw [dispatch_eq] at h
      simp only [Option.map_eq_some', Option.bind_eq_some] at h
      obtain ⟨s, ⟨acc, hacc, dp, hdp, hs2⟩, rfl⟩ := h
      cases hs2
      refine ⟨by simp [dispatched], Or.inr (Or.inr ⟨trivial, hesc, by simp [dispatched],
        by simpa [dispatched] using hs, ?_⟩)⟩
      refine ⟨_, rfl, by simp [dispatched], ?_⟩
      simp only [dispatched, lifecycle]
      by_cases hop : cfg.op = CREATE <;> simp [hop]
    · cases h
      exact ⟨rfl, Or.inr (Or.inl ⟨trivial, hesc, rfl, by simpa using hs, rfl, rfl, rfl, rfl⟩)⟩
  simp only [hn, if_false, add_zero]
  by_cases hs : ch = cfg.G_sep
  · rw [step_sep cfg db st ch hesc hq hb hn hs] at h
    obtain ⟨h1, h2, h3, h4, h5, h6, -⟩ := case_sep_frame cfg st st1 h
    exact ⟨h6, Or.inl ⟨h1, h2, h3, h4, h5⟩⟩
  · rw [step_other cfg db st ch hesc hq hb hn hs] at h
    obtain ⟨h1, h2, h3, h4, h5, h6, -⟩ := case_other_frame cfg st st1 ch h
    exact ⟨h6, Or.inl ⟨h1, h2, h3, h4, h5⟩⟩

/-! ## The read loop: header skipping -/

theorem wrap16_ge (x : Int) : -32768 ≤ wrap16 x := by
  unfold wrap16
  omega

theorem wrap16_succ_le_of_ge (x : Int) (h : -32768 ≤ x) : wrap16 (x + 1) ≤ x + 1 := by
  unfold wrap16
  omega

theorem main_loop_skip_inv (cfg : Config) (db : Oracle) (roster : List Char) (st0 st : State)
    (h : main_loop cfg db roster st0 = some st)
    (hlo : -32768 ≤ st0.linecnt) (hle : st0.linecnt ≤ (st0.phys : Int)) :
    st.phys = st0.phys + roster.count NEWLINE ∧
    -32768 ≤ st.linecnt ∧ st.linecnt ≤ (st.phys : Int) ∧
    (∀ c ∈ st.calls, c ∈ st0.calls ∨
      (cfg.skip < (c.line : Int) ∧ st0.phys < c.line ∧ c.line ≤ st.phys)) ∧
    (((st.phys : Int) ≤ cfg.skip) →
      st.calls = st0.calls ∧ st.g = st0.g ∧ st.cnt = st0.cnt ∧ st.out = st0.out) := by
  induction roster generalizing st0 with
  | nil =>
    rw [main_loop_nil] at h
    cases h
    exact ⟨by simp, hlo, hle, fun c hc => Or.inl hc, fun _ => ⟨rfl, rfl, rfl, rfl⟩⟩
  | cons ch l ih =>
    rw [main_loop_cons] at h
    simp only [Option.bind_eq_some] at h
    obtain ⟨st1, h1, h2⟩ := h
    obtain ⟨hp, hcase⟩ := step_effect cfg db st0 st1 ch h1
    have hlo1 : -32768 ≤ st1.linecnt := by
      rcases hcase with ⟨hl, -⟩ | ⟨-, -, hl, -⟩ | ⟨-, -, hl, -⟩
      · rw [hl]; exact hlo
      · rw [hl]; exact wrap16_ge _
      · rw [hl]; exact wrap16_ge _
    have hle1 : st1.linecnt ≤ (st1.phys : Int) := by
      rcases hcase with ⟨hl, -⟩ | ⟨hn, -, hl, -⟩ | ⟨hn, -, hl, -⟩
      · rw [hl, hp]; push_cast; split_ifs <;> omega
      · have := wrap16_succ_le_of_ge _ hlo
        rw [hl, hp, if_pos hn]; push_cast; omega
      · have := wrap16_succ_le_of_ge _ hlo
        rw [hl, hp, if_pos hn]; push_cast; omega
    obtain ⟨i1, i2, i3, i4, i5⟩ := ih st1 h2 hlo1 hle1
    have hphys : st.phys = st0.phys + (ch :: l).count NEWLINE := by
      rw [i1, hp, List.count_cons]
      by_cases hn : ch = NEWLINE
      · simp [hn]; omega
      · have hn2 : ¬ (ch == NEWLINE) = true := by simpa using hn
        simp [hn, hn2]
    have hmono : st0.phys ≤ st1.phys := by rw [hp]; omega
    have hmono1 : st1.phys ≤ st.phys := by rw [i1]; omega
    refine ⟨hphys, i2, i3, ?_, ?_⟩
    · intro c hc
      rcases i4 c hc with hc1 | ⟨a, b, d⟩
      · rcases hcase with ⟨-, hcalls, -⟩ | ⟨-, -, -, -, hcalls, -⟩ | ⟨hn, -, hl, hs, c1, hcalls, hline, -⟩
        · rw [hcalls] at hc1; exact Or.inl hc1
        · rw [hcalls] at hc1; exact Or.inl hc1
        · rw [hcalls, List.mem_append, List.mem_singleton] at hc1
          rcases hc1 with hc1 | rfl
          · exact Or.inl hc1
          · refine Or.inr ⟨?_, ?_, ?_⟩
            · rw [hline]; omega
            · rw [hline, hp, if_pos hn]; omega
            · rw [hline]; exact hmono1
      · exact Or.inr ⟨a, by omega, d⟩
    · intro hsk
      have hsk1 : (st1.phys : Int) ≤ cfg.skip := by
        have : (st1.phys : Int) ≤ (st.phys : Int) := by exact_mod_cast hmono1
        omega
      obtain ⟨j1, j2, j3, j4⟩ := i5 hsk
      rcases hcase with ⟨-, k1, k2, k3, k4⟩ | ⟨-, -, -, -, k1, k2, k3, k4⟩ | ⟨-, -, -, hs, -⟩
      · exact ⟨j1.trans k1, j2.trans k2, j3.trans k3, j4.trans k4⟩
      · exact ⟨j1.trans k1, j2.trans k2, j3.trans k3, j4.trans k4⟩
      · omega

/-- **C7** (header skipping). Whatever the roster, the skip count and the
mode, when the read loop has consumed the roster: every call of
`create_account` or `delete_account` it made was triggered by the newline of
a physical line whose 1-based index is greater than `skip` (the index of a
line is the number of newline bytes read up to and including its own); and if
the roster has no more than `skip` newline bytes, no call is made and no
statement is sent to the database at all. -/
theorem header_lines_never_dispatched (cfg : Config) (db : Oracle) (roster : List Char)
    (a0 p0 : Buf) (g : Session) (st : State)
    (h : main_loop cfg db roster (init a0 p0 g) = some st) :
    st.phys = roster.count NEWLINE ∧
    (∀ c ∈ st.calls, cfg.skip < (c.line : Int) ∧ 1 ≤ c.line ∧ c.line ≤ roster.count NEWLINE) ∧
    (((roster.count NEWLINE : Nat) : Int) ≤ cfg.skip →
      st.calls = [] ∧ st.g = g ∧ st.g.log = g.log ∧ st.cnt = 0) := by
  obtain ⟨h1, -, -, h4, h5⟩ := main_loop_skip_inv cfg db roster (init a0 p0 g) st h
    (by simp [init]) (by simp [init])
  have hp : st.phys = roster.count NEWLINE := by simpa [init] using h1
  refine ⟨hp, ?_, ?_⟩
  · intro c hc
    rcases h4 c hc with hc0 | ⟨a, b, d⟩
    · simp [init] at hc0
    · exact ⟨a, by omega, by omega⟩
  · intro hsk
    obtain ⟨j1, j2, j3, -⟩ := h5 (by rw [hp]; exact hsk)
    exact ⟨by simpa [init] using j1, by simpa [init] using j2, by rw [j2]; rfl,
      by simpa [init] using j3⟩

/-- Witness of **C7**: a header line and one record, with `skip = 1`; the
only call is for line 2. -/
theorem header_lines_never_dispatched_witness :
    (main_loop (Config.mk ',' 1 2 1 CREATE none) okDb "id,pw\nalice,secret\n".toList
      (init blank blank connected)).map State.calls =
      some [Call.mk 2 true "alice".toList (some "secret".toList) true] ∧
    ∃ st, main_loop (Config.mk ',' 1 2 1 CREATE none) okDb "id,pw\nalice,secret\n".toList
        (init blank blank connected) = some st ∧
      ∀ c ∈ st.calls, (Config.mk ',' 1 2 1 CREATE none).skip < (c.line : Int) ∧ 1 ≤ c.line ∧
        c.line ≤ "id,pw\nalice,secret\n".toList.count NEWLINE := by
  refine ⟨by decide, ?_⟩
  obtain ⟨st, hst⟩ := Option.isSome_iff_exists.1
    (by decide : (main_loop (Config.mk ',' 1 2 1 CREATE none) okDb
      "id,pw\nalice,secret\n".toList (init blank blank connected)).isSome = true)
  exact ⟨st, hst, (header_lines_never_dispatched (Config.mk ',' 1 2 1 CREATE none) okDb
    "id,pw\nalice,secret\n".toList blank blank connected st hst).2.1⟩

/-! ## The read loop: quoting and escaping -/

theorem step_quote_scan (cfg : Config) (db : Oracle) (st st1 : State) (ch : Char)
    (s : Bool × Nat) (h : step cfg db st ch = some st1)
    (hesc : st.esc = s.1) (hblind : st.blind = s.2 % 2) :
    st1.esc = (quote_scan s ch).1 ∧ st1.blind = (quote_scan s ch).2 % 2 := by
  unfold quote_scan
  by_cases he : st.esc = true
  · rw [step_esc cfg db st ch he] at h
    cases h
    have : s.1 = true := by rw [← hesc]; exact he
    simp [this, hblind]
  have he : st.esc = false := by simpa using he
  have hs1 : s.1 = false := by rw [← hesc]; exact he
  simp only [hs1, Bool.false_eq_true, if_false]
  by_cases hb : ch = BACKSLASH
  · subst hb
    rw [step_backslash cfg db st he] at h
    cases h
    simp [hblind]
  by_cases hn : ch = NEWLINE
  · subst hn
    rw [step_newline cfg db st he, case_newline_eq] at h
    simp only [hb, if_false, if_true]
    split_ifs at h with hs
    · rw [dispatch_eq] at h
      simp only [Option.map_eq_some', Option.bind_eq_some] at h
      obtain ⟨s2, ⟨acc, -, dp, -, hs2⟩, rfl⟩ := h
      cases hs2
      simp [dispatched, he]
    · cases h
      simp [he]
  by_cases hq : ch = DQUOTE
  · subst hq
    rw [step_quote cfg db st he] at h
    cases h
    simp only [hb, hn, if_false, if_true]
    refine ⟨he, ?_⟩
    show (st.blind + 1) % 2 = (s.2 + 1) % 2
    omega
  simp only [hb, hn, hq, if_false]
  by_cases hs : ch = cfg.G_sep
  · rw [step_sep cfg db st ch he hq hb hn hs] at h
    obtain ⟨-, -, -, -, -, -, h7, h8, -⟩ := case_sep_frame cfg st st1 h
    exact ⟨h7.trans he, h8.trans hblind⟩
  · rw [step_other cfg db st ch he hq hb hn hs] at h
    obtain ⟨-, -, -, -, -, -, h7, h8, -⟩ := case_other_frame cfg st st1 ch h
    exact ⟨h7.trans he, h8.trans hblind⟩

theorem main_loop_quote_scan (cfg : Config) (db : Oracle) (l : List Char) (st0 st : State)
    (s : Bool × Nat) (h : main_loop cfg db l st0 = some st)
    (hesc : st0.esc = s.1) (hblind : st0.blind = s.2 % 2) :
    st.esc = (l.foldl quote_scan s).1 ∧ st.blind = (l.foldl quote_scan s).2 % 2 := by
  induction l generalizing st0 s with
  | nil =>
    rw [main_loop_nil] at h
    cases h
    exact ⟨hesc, hblind⟩
  | cons ch l ih =>
    rw [main_loop_cons] at h
    simp only [Option.bind_eq_some] at h
    obtain ⟨st1, h1, h2⟩ := h
    obtain ⟨a, b⟩ := step_quote_scan cfg db st0 st1 ch s h1 hesc hblind
    exact ih st1 (quote_scan s ch) h2 a b

/-- **C8** (quoting protects separators). Let the read loop have consumed the
bytes `pre` of a roster, and let the number of unescaped double quotes seen
so far on the current line be odd. Then reading a separator byte (a byte of
the line, hence not the newline) does not end the current field: the field
counter is not incremented, and the line counter, both buffers with their
indices and the record of calls are unchanged. -/
theorem quoted_separator_keeps_field (cfg : Config) (db : Oracle) (a0 p0 : Buf) (g : Session)
    (pre : List Char) (st : State)
    (h : main_loop cfg db pre (init a0 p0 g) = some st)
    (hodd : quotes_on_line pre % 2 = 1) (hsep : cfg.G_sep ≠ NEWLINE) :
    ∃ st1, step cfg db st cfg.G_sep = some st1 ∧
      st1.fieldnum = st.fieldnum ∧ st1.linecnt = st.linecnt ∧
      st1.account = st.account ∧ st1.aidx = st.aidx ∧
      st1.defpass = st.defpass ∧ st1.pidx = st.pidx ∧ st1.calls = st.calls := by
  obtain ⟨-, hb⟩ := main_loop_quote_scan cfg db pre (init a0 p0 g) st (false, 0) h rfl rfl
  have hblind : st.blind = 1 := by
    rw [hb]
    exact hodd
  by_cases he : st.esc = true
  · exact ⟨_, step_esc cfg db st _ he, rfl, rfl, rfl, rfl, rfl, rfl, rfl⟩
  have he : st.esc = false := by simpa using he
  by_cases hq : cfg.G_sep = DQUOTE
  · rw [hq]
    exact ⟨_, step_quote cfg db st he, rfl, rfl, rfl, rfl, rfl, rfl, rfl⟩
  by_cases hbs : cfg.G_sep = BACKSLASH
  · rw [hbs]
    exact ⟨_, step_backslash cfg db st he, rfl, rfl, rfl, rfl, rfl, rfl, rfl⟩
  refine ⟨st, ?_, rfl, rfl, rfl, rfl, rfl, rfl, rfl⟩
  rw [step_sep cfg db st _ he hq hbs hsep rfl, case_sep_eq]
  simp [hblind]

/-- Witness of **C8**: after the bytes `"Smith` the quote count is one, and
the comma that follows leaves the field counter at 1. -/
theorem quoted_separator_keeps_field_witness :
    quotes_on_line "\"Smith".toList % 2 = 1 ∧
    (main_loop (Config.mk ',' 1 2 0 CREATE none) okDb "\"Smith,".toList
      (init blank blank connected)).map State.fieldnum = some 1 ∧
    ∃ st st1,
      main_loop (Config.mk ',' 1 2 0 CREATE none) okDb "\"Smith".toList
        (init blank blank connected) = some st ∧
      step (Config.mk ',' 1 2 0 CREATE none) okDb st ',' = some st1 ∧
      st1.fieldnum = st.fieldnum := by
  refine ⟨by decide, by decide, ?_⟩
  obtain ⟨st, hst⟩ := Option.isSome_iff_exists.1
    (by decide : (main_loop (Config.mk ',' 1 2 0 CREATE none) okDb "\"Smith".toList
      (init blank blank connected)).isSome = true)
  obtain ⟨st1, h1, h2, -⟩ := quoted_separator_keeps_field (Config.mk ',' 1 2 0 CREATE none)
    okDb blank blank connected "\"Smith".toList st hst (by decide) (by decide)
  exact ⟨st, st1, hst, h1, h2⟩

/-- **C9** (escaping neutralises separator and quote). In every state of the
tokenizer at the head of the read loop, reading a backslash followed by the
separator character leaves the whole state as it was, but for the count of
newline bytes read when the separator is the newline: in particular the field
counter is unchanged; and reading a backslash followed by a double quote
leaves the state as it was: in particular the inside-quotes flag is
unchanged. -/
theorem escape_neutralises_separator_and_quote (cfg : Config) (db : Oracle) (st : State)
    (hesc : st.esc = false) :
    main_loop cfg db [BACKSLASH, cfg.G_sep] st =
      some { st with phys := st.phys + (if cfg.G_sep = NEWLINE then 1 else 0) } ∧
    main_loop cfg db [BACKSLASH, DQUOTE] st = some st ∧
    (∃ st1, main_loop cfg db [BACKSLASH, cfg.G_sep] st = some st1 ∧
      st1.fieldnum = st.fieldnum ∧ st1.blind = st.blind) ∧
    (∃ st2, main_loop cfg db [BACKSLASH, DQUOTE] st = some st2 ∧
      st2.blind = st.blind ∧ st2.fieldnum = st.fieldnum) := by
  have key : ∀ c : Char, main_loop cfg db [BACKSLASH, c] st =
      some { st with phys := st.phys + (if c = NEWLINE then 1 else 0) } := by
    intro c
    rw [main_loop_cons, step_backslash cfg db st hesc, Option.some_bind, main_loop_cons,
      step_esc cfg db _ c rfl, Option.some_bind, main_loop_nil]
    cases st
    simp only at hesc
    subst hesc
    rfl
  have hq : main_loop cfg db [BACKSLASH, DQUOTE] st = some st := by
    rw [key DQUOTE]
    have : DQUOTE ≠ NEWLINE := by decide
    simp [this]
  exact ⟨key _, hq, ⟨_, key _, rfl, rfl⟩, ⟨_, hq, rfl, rfl⟩⟩

/-- Witness of **C9**: the state at the beginning of a roster. -/
theorem escape_neutralises_separator_and_quote_witness :
    (init blank blank connected).esc = false ∧
    (main_loop (Config.mk ',' 1 2 0 CREATE none) okDb [BACKSLASH, ','] (init blank blank connected)).map
      State.fieldnum = some 1 ∧
    main_loop (Config.mk ',' 1 2 0 CREATE none) okDb [BACKSLASH, DQUOTE]
      (init blank blank connected) = some (init blank blank connected) :=
  ⟨rfl, by decide,
   (escape_neutralises_separator_and_quote (Config.mk ',' 1 2 0 CREATE none) okDb
      (init blank blank connected) rfl).2.1⟩

/-! ## The read loop: empty identifiers -/

theorem store_some (buf : Buf) (i : Int) (c : Char) (h0 : 0 ≤ i) (h1 : i < ID_LEN) :
    store buf i c = some (fun j => if j = i.toNat then c else buf j) := by
  simp [store, h0, h1]

theorem step_newline_dispatch (cfg : Config) (db : Oracle) (st : State) (acc dp : Buf)
    (hesc : st.esc = false) (hskip : cfg.skip < wrap16 (st.linecnt + 1))
    (hacc : store st.account st.aidx NUL = some acc)
    (hdp : store st.defpass st.pidx NUL = some dp) :
    step cfg db st NEWLINE =
      some { dispatched cfg db
              { st with phys := st.phys + 1, linecnt := wrap16 (st.linecnt + 1),
                        fieldnum := 1, blind := 0 } acc dp with
             account := set0 acc NUL, aidx := 0, defpass := set0 dp NUL, pidx := 0 } := by
  rw [step_newline cfg db st hesc, case_newline_eq]
  simp only [hskip, if_true, dispatch_eq, hacc, hdp, Option.some_bind, Option.map_some']
  rfl

/-- **C10** as stated fails: a blank line in create mode, and a line with
fewer fields than the id-field selector in delete mode, both with `skip = 0`,
are dispatched with the empty identifier, and the statements of the call are
sent to the database with an empty name. -/
theorem empty_identifier_is_dispatched :
    (main_loop (Config.mk ',' 1 2 0 CREATE none) okDb "\n".toList
      (init blank blank connected)).map (fun s => (s.calls, s.g.log.map Exec.stmt)) =
      some ([Call.mk 1 true [] (some []) true],
        ["start transaction".toList, "create user  with password ''".toList,
         "create schema  authorization ".toList,
         "alter role  set search_path to ,public".toList, "commit".toList]) ∧
    (main_loop (Config.mk ',' 2 2 0 DELETE none) okDb "alice\n".toList
      (init blank blank connected)).map (fun s => (s.calls, s.g.log.map Exec.stmt)) =
      some ([Call.mk 1 false [] none true],
        ["start transaction".toList, "drop schema if exists  cascade".toList,
         "savepoint sv".toList, "drop owned by  restrict".toList,
         "release savepoint sv".toList, "drop user if exists ".toList, "commit".toList]) := by
  decide

/-- **C10** (empty identifiers), amended. Empty identifiers are not filtered.
At the newline of every dispatched line (line counter above `skip`, both
buffer indices inside their arrays) exactly one call is made, of
`create_account` or `delete_account` according to the mode, with the
identifier found in the `account` array, whether it is empty or not. When
that identifier is empty and the connection is live, the call sends its
statements to the database: `start transaction` followed by the create-user
(respectively drop-schema) statement written with an empty name. -/
theorem empty_identifier_reaches_lifecycle (cfg : Config) (db : Oracle) (st : State)
    (hesc : st.esc = false)
    (ha : 0 ≤ st.aidx ∧ st.aidx < ID_LEN) (hp : 0 ≤ st.pidx ∧ st.pidx < ID_LEN)
    (hskip : cfg.skip < wrap16 (st.linecnt + 1)) :
    ∃ (st1 : State) (c : Call) (acc dp : Buf),
      store st.account st.aidx NUL = some acc ∧ store st.defpass st.pidx NUL = some dp ∧
      step cfg db st NEWLINE = some st1 ∧
      st1.calls = st.calls ++ [c] ∧ c.line = st.phys + 1 ∧ c.id = cstr acc ∧
      (c.create = true ↔ cfg.op = CREATE) ∧
      (c.ok, st1.g) = lifecycle cfg db (cstr acc) (cstr dp) st.g ∧
      (cstr acc = [] → st.g.G_conn = true →
        ((issued st.g st1.g).map Exec.stmt).take 2 =
          [stmt_start,
           if cfg.op = CREATE then stmt_create_user [] (cstr dp) else stmt_drop_schema []]) := by
  have hacc := store_some st.account st.aidx NUL ha.1 ha.2
  have hdp := store_some st.defpass st.pidx NUL hp.1 hp.2
  refine ⟨_, Call.mk (st.phys + 1) (decide (cfg.op = CREATE))
      (cstr (fun j => if j = st.aidx.toNat then NUL else st.account j))
      (if cfg.op = CREATE then
        some (cstr (fun j => if j = st.pidx.toNat then NUL else st.defpass j)) else none)
      (lifecycle cfg db (cstr (fun j => if j = st.aidx.toNat then NUL else st.account j))
        (cstr (fun j => if j = st.pidx.toNat then NUL else st.defpass j)) st.g).1,
    _, _, hacc, hdp, step_newline_dispatch cfg db st _ _ hesc hskip hacc hdp, ?_⟩
  refine ⟨rfl, rfl, rfl, by simp, rfl, ?_⟩
  intro hempty hconn
  simp only [dispatched, lifecycle]
  by_cases hop : cfg.op = CREATE
  · simp only [hop, if_true]
    rw [create_account_first_two db _ _ _ _ hconn, hempty]
    rfl
  · simp only [hop, if_false]
    rw [hempty]
    have h4 := delete_account_first_four db [] st.g hconn
    have h2 := congrArg (List.take 2) h4
    rw [List.take_take] at h2
    have hn : drop_schema_name [] = [] := by decide
    rw [hn] at h2
    simpa using h2

/-- Witness of **C10** (amended): a newline read at the very beginning of a
roster, with `skip = 0`. -/
theorem empty_identifier_reaches_lifecycle_witness :
    (init blank blank connected).esc = false ∧
    (0 ≤ (init blank blank connected).aidx ∧ (init blank blank connected).aidx < ID_LEN) ∧
    (0 ≤ (init blank blank connected).pidx ∧ (init blank blank connected).pidx < ID_LEN) ∧
    (Config.mk ',' 1 2 0 CREATE none).skip < wrap16 ((init blank blank connected).linecnt + 1) ∧
    ∃ (st1 : State) (c : Call),
      step (Config.mk ',' 1 2 0 CREATE none) okDb (init blank blank connected) NEWLINE =
        some st1 ∧
      st1.calls = [c] ∧ c.line = 1 := by
  refine ⟨rfl, by decide, by decide, by decide, ?_⟩
  obtain ⟨st1, c, acc, dp, -, -, h3, h4, h5, -⟩ :=
    empty_identifier_reaches_lifecycle (Config.mk ',' 1 2 0 CREATE none) okDb
      (init blank blank connected) rfl (by decide) (by decide) (by decide)
  exact ⟨st1, c, h3, h4, h5⟩

/-! ## The read loop: fields of a plain line -/

/-- The function `field_at` picks the elements of `List.splitOn`. -/
theorem field_at_eq_splitOn (sep : Char) (n : Nat) (l : List Char) :
    field_at sep n l = (l.splitOn sep).getD n [] := by
  induction l generalizing n with
  | nil => cases n <;> simp [field_at, List.splitOn]
  | cons c l ih =>
    have hne : List.splitOnP (fun x => x == sep) l ≠ [] := List.splitOnP_ne_nil _ _
    obtain ⟨hd, tl, hsp⟩ := List.exists_cons_of_ne_nil hne
    cases n with
    | zero =>
      simp only [field_at, List.splitOn, List.splitOnP_cons]
      by_cases h : c = sep
      · simp [h]
      · have ih0 := ih 0
        simp only [List.splitOn, hsp] at ih0
        simp [h, hsp, List.modifyHead, ih0]
    | succ n =>
      simp only [field_at, List.splitOn, List.splitOnP_cons]
      by_cases h : c = sep
      · simp [h, ih n, List.splitOn]
      · have ih1 := ih (n + 1)
        simp only [List.splitOn, hsp] at ih1
        simp [h, hsp, List.modifyHead, ih1]

theorem cstrAux_of_holds (buf : Buf) (a : List Char) (n i : Nat)
    (h : ∀ j : Nat, j < a.length → buf (i + j) = a.getD j NUL)
    (hend : buf (i + a.length) = NUL) (hnul : NUL ∉ a) (hlen : a.length < n) :
    cstrAux buf n i = a := by
  induction a generalizing n i with
  | nil =>
    cases n with
    | zero => simp at hlen
    | succ n => simpa [cstrAux] using hend
  | cons c a ih =>
    cases n with
    | zero => simp at hlen
    | succ n =>
      have hc : buf i = c := by simpa using h 0 (by simp)
      have hcn : c ≠ NUL := fun hh => hnul (by simp [hh])
      simp only [cstrAux, hc, hcn, if_false]
      congr 1
      apply ih
      · intro j hj
        have := h (j + 1) (by simpa using hj)
        simpa [Nat.add_assoc, Nat.add_comm 1 j] using this
      · simpa [Nat.add_assoc, Nat.add_comm 1] using hend
      · exact fun hh => hnul (List.mem_cons_of_mem _ hh)
      · simpa using hlen

theorem cstr_of_holds (buf : Buf) (a : List Char) (h : holds buf a)
    (hend : buf a.length = NUL) (hnul : NUL ∉ a) (hlen : a.length ≤ 249) :
    cstr buf = a := by
  unfold cstr
  apply cstrAux_of_holds
  · intro j hj
    simpa using h j hj
  · simpa using hend
  · exact hnul
  · have : ID_LEN.toNat = 250 := by decide
    omega

theorem wrap16_field_eq (k n : Nat) (hk : k < 65536) (hn : n < 32767) :
    wrap16 (1 + (k : Int)) = (n : Int) + 1 ↔ k = n := by
  unfold wrap16
  omega

theorem wrap16_wrap16_succ (x : Int) : wrap16 (wrap16 x + 1) = wrap16 (x + 1) := by
  unfold wrap16
  omega

theorem wrap16_small (x : Int) (h0 : 0 ≤ x) (h1 : x < 32767) : wrap16 (x + 1) = x + 1 := by
  unfold wrap16
  omega

theorem final_content_nil (sep : Char) (n k : Nat) (a : List Char) (h : k < n → a = []) :
    final_content sep n k a [] = a := by
  unfold final_content
  split_ifs with h1 h2
  · rw [h h1]; cases (n - k) <;> rfl
  · simp [field_at]
  · rfl

theorem final_content_sep (sep : Char) (n k : Nat) (a l : List Char) :
    final_content sep n k a (sep :: l) =
      final_content sep n (k + 1) (if k + 1 = n then [] else a) l := by
  unfold final_content
  by_cases h1 : k < n
  · by_cases h2 : k + 1 = n
    · have h3 : n - k = 1 := by omega
      have h4 : ¬ (k + 1 < n) := by omega
      simp [h1, h2, h3, h4, field_at]
    · have h3 : k + 1 < n := by omega
      obtain ⟨m, hm⟩ : ∃ m, n - k = m + 1 := ⟨n - k - 1, by omega⟩
      have h5 : n - (k + 1) = m := by omega
      simp [h1, h3, hm, h5, field_at]
  · by_cases h2 : k = n
    · have h3 : ¬ (k + 1 < n) := by omega
      have h4 : ¬ (k + 1 = n) := by omega
      simp [h1, h2, h3, h4, field_at]
    · have h3 : ¬ (k + 1 < n) := by omega
      have h4 : ¬ (k + 1 = n) := by omega
      simp [h1, h2, h3, h4]

theorem final_content_other (sep : Char) (n k : Nat) (a l : List Char) (ch : Char)
    (hch : ch ≠ sep) :
    final_content sep n k a (ch :: l) =
      final_content sep n k (if k = n then a ++ [ch] else a) l := by
  unfold final_content
  by_cases h1 : k < n
  · have h2 : ¬ k = n := by omega
    obtain ⟨m, hm⟩ : ∃ m, n - k = m + 1 := ⟨n - k - 1, by omega⟩
    simp [h1, hm, field_at, hch]
  · by_cases h2 : k = n
    · simp [h1, h2, field_at, hch]
    · simp [h1, h2]

theorem holds_nil (buf : Buf) : holds buf [] := by
  intro i hi
  simp at hi

theorem holds_store_end (buf : Buf) (a : List Char) (c : Char) (h : holds buf a) :
    holds (fun j => if j = ((a.length : Nat) : Int).toNat then c else buf j) a := by
  intro i hi
  have : i ≠ ((a.length : Nat) : Int).toNat := by simp; omega
  simp only [this, if_false]
  exact h i hi

theorem holds_store_append (buf : Buf) (a : List Char) (c : Char) (h : holds buf a) :
    holds (fun j => if j = ((a.length : Nat) : Int).toNat then c else buf j) (a ++ [c]) := by
  intro i hi
  simp only [List.length_append, List.length_singleton] at hi
  by_cases hi2 : i = a.length
  · subst hi2
    simp [List.getD_eq_getElem?_getD]
  · have hlt : i < a.length := by omega
    have : i ≠ ((a.length : Nat) : Int).toNat := by simp; omega
    simp only [this, if_false]
    rw [h i hlt]
    simp [List.getD_eq_getElem?_getD, List.getElem?_append_left hlt]

theorem run_track_cons (sep : Char) (sel fn : Int) (t : Buf × Int) (ch : Char)
    (l : List Char) :
    run_track sep sel fn t (ch :: l) =
      (track_step sep sel fn t ch).bind
        (fun t1 => run_track sep sel (next_field sep fn ch) t1 l) := rfl

theorem run_track_content (sep : Char) (n : Nat) (hn : n < 32767) (l : List Char) :
    ∀ (k : Nat) (buf : Buf) (a : List Char),
      k + l.count sep < 65536 → holds buf a → (k < n → a = []) →
      (final_content sep n k a l).length ≤ 249 →
      ∃ buf1, run_track sep ((n : Int) + 1) (wrap16 (1 + (k : Int))) (buf, (a.length : Int)) l =
          some (buf1, ((final_content sep n k a l).length : Int)) ∧
        holds buf1 (final_content sep n k a l) := by
  induction l with
  | nil =>
    intro k buf a _ hh hk _
    rw [final_content_nil sep n k a hk]
    exact ⟨buf, rfl, hh⟩
  | cons ch l ih =>
    intro k buf a hcount hh hk hlen
    by_cases hch : ch = sep
    · subst hch
      rw [List.count_cons_self] at hcount
      rw [final_content_sep] at hlen ⊢
      have hkk : k < 65536 := by omega
      have e : (1 + (k : Int) + 1) = 1 + ((k + 1 : Nat) : Int) := by push_cast; ring
      have hnext : next_field ch (wrap16 (1 + (k : Int))) ch =
          wrap16 (1 + ((k + 1 : Nat) : Int)) := by
        simp only [next_field, if_true, wrap16_wrap16_succ, e]
      have hsel1 : (wrap16 (wrap16 (1 + (k : Int)) + 1) = (n : Int) + 1) ↔ k + 1 = n := by
        rw [wrap16_wrap16_succ, e]
        exact wrap16_field_eq (k + 1) n (by omega) hn
      rw [run_track_cons, hnext]
      by_cases h1 : k = n
      · subst h1
        have hne : ¬ (k + 1 = k) := by omega
        simp only [hne, if_false] at hlen ⊢
        have hfc : final_content ch k (k + 1) a l = a := by
          simp [final_content]
        have hsel : wrap16 (1 + (k : Int)) = (k : Int) + 1 := (wrap16_field_eq k k hkk hn).2 rfl
        have hst : store buf (a.length : Int) NUL =
            some (fun j => if j = ((a.length : Nat) : Int).toNat then NUL else buf j) :=
          store_some buf (a.length : Int) NUL (by omega) (by rw [hfc] at hlen; unfold ID_LEN; omega)
        have hidx : ¬ (wrap16 (wrap16 (1 + (k : Int)) + 1) = (k : Int) + 1) := by
          rw [hsel1]; omega
        obtain ⟨buf1, hr, hh1⟩ := ih (k + 1) _ a (by omega) (holds_store_end buf a NUL hh)
          (by omega) hlen
        refine ⟨buf1, ?_, hh1⟩
        have hts : track_step ch ((k : Int) + 1) (wrap16 (1 + (k : Int))) (buf, (a.length : Int)) ch
            = some (fun j => if j = ((a.length : Nat) : Int).toNat then NUL else buf j,
                (a.length : Int)) := by
          unfold track_step
          rw [if_pos rfl, if_pos hsel, hst, Option.some_bind, if_neg hidx]
        rw [hts, Option.some_bind]
        exact hr
      · have hsel : ¬ (wrap16 (1 + (k : Int)) = (n : Int) + 1) := by
          rw [wrap16_field_eq k n hkk hn]; exact h1
        by_cases h2 : k + 1 = n
        · have ha : a = [] := hk (by omega)
          subst ha
          simp only [h2, if_true] at hlen ⊢
          obtain ⟨buf1, hr, hh1⟩ := ih (k + 1) buf [] (by omega) (holds_nil buf)
            (fun _ => rfl) (by rw [h2]; exact hlen)
          rw [h2] at hr hh1
          refine ⟨buf1, ?_, hh1⟩
          have hts : track_step ch ((n : Int) + 1) (wrap16 (1 + (k : Int)))
              (buf, (([] : List Char).length : Int)) ch = some (buf, 0) := by
            unfold track_step
            rw [if_pos rfl, if_neg hsel, Option.some_bind, if_pos (hsel1.2 h2)]
          rw [hts, Option.some_bind]
          simpa using hr
        · simp only [h2, if_false] at hlen ⊢
          obtain ⟨buf1, hr, hh1⟩ := ih (k + 1) buf a (by omega) hh
            (fun hlt => hk (by omega)) hlen
          refine ⟨buf1, ?_, hh1⟩
          have hts : track_step ch ((n : Int) + 1) (wrap16 (1 + (k : Int)))
              (buf, (a.length : Int)) ch = some (buf, (a.length : Int)) := by
            unfold track_step
            rw [if_pos rfl, if_neg hsel, Option.some_bind,
              if_neg (fun hh2 => h2 (hsel1.1 hh2))]
          rw [hts, Option.some_bind]
          exact hr
    · have hc2 : ¬ (ch == sep) = true := by simpa using hch
      rw [List.count_cons, if_neg hc2, Nat.add_zero] at hcount
      rw [final_content_other sep n k a l ch hch] at hlen ⊢
      have hkk : k < 65536 := by omega
      have hnext : next_field sep (wrap16 (1 + (k : Int))) ch = wrap16 (1 + (k : Int)) := by
        simp [next_field, hch]
      rw [run_track_cons, hnext]
      by_cases h1 : k = n
      · subst h1
        simp only [if_true] at hlen ⊢
        have hsel : wrap16 (1 + (k : Int)) = (k : Int) + 1 := (wrap16_field_eq k k hkk hn).2 rfl
        have hlen2 : a.length + 1 ≤ 249 := by
          have : (final_content sep k k (a ++ [ch]) l).length =
              a.length + 1 + (field_at sep 0 l).length := by
            simp [final_content]
            omega
          omega
        have hst : store buf (a.length : Int) ch =
            some (fun j => if j = ((a.length : Nat) : Int).toNat then ch else buf j) :=
          store_some buf (a.length : Int) ch (by omega) (by unfold ID_LEN; omega)
        obtain ⟨buf1, hr, hh1⟩ := ih k _ (a ++ [ch]) (by omega)
          (holds_store_append buf a ch hh) (by omega) hlen
        refine ⟨buf1, ?_, hh1⟩
        have hts : track_step sep ((k : Int) + 1) (wrap16 (1 + (k : Int)))
            (buf, (a.length : Int)) ch
            = some (fun j => if j = ((a.length : Nat) : Int).toNat then ch else buf j,
                ((a ++ [ch]).length : Int)) := by
          unfold track_step
          rw [if_neg hch, if_pos hsel, hst, Option.map_some',
            wrap16_small _ (by omega) (by omega)]
          simp
        rw [hts, Option.some_bind]
        exact hr
      · have hsel : ¬ (wrap16 (1 + (k : Int)) = (n : Int) + 1) := by
          rw [wrap16_field_eq k n hkk hn]; exact h1
        simp only [h1, if_false] at hlen ⊢
        obtain ⟨buf1, hr, hh1⟩ := ih k buf a (by omega) hh hk hlen
        refine ⟨buf1, ?_, hh1⟩
        have hts : track_step sep ((n : Int) + 1) (wrap16 (1 + (k : Int)))
            (buf, (a.length : Int)) ch = some (buf, (a.length : Int)) := by
          unfold track_step
          rw [if_neg hch, if_neg hsel]
        rw [hts, Option.some_bind]
        exact hr

theorem step_plain (cfg : Config) (db : Oracle) (st : State) (ch : Char) (a p : Buf × Int)
    (hesc : st.esc = false) (hblind : st.blind = 0)
    (hq : ch ≠ DQUOTE) (hb : ch ≠ BACKSLASH) (hn : ch ≠ NEWLINE)
    (ha : track_step cfg.G_sep cfg.G_id st.fieldnum (st.account, st.aidx) ch = some a)
    (hp : track_step cfg.G_sep cfg.G_pwd st.fieldnum (st.defpass, st.pidx) ch = some p) :
    step cfg db st ch =
      some { st with fieldnum := next_field cfg.G_sep st.fieldnum ch,
                     account := a.1, aidx := a.2, defpass := p.1, pidx := p.2 } := by
  by_cases hs : ch = cfg.G_sep
  · rw [step_sep cfg db st ch hesc hq hb hn hs, case_sep_eq, if_pos hblind]
    unfold track_step at ha hp
    rw [if_pos hs] at ha hp
    simp only [Option.bind_eq_some] at ha hp
    obtain ⟨b1, hb1, h1⟩ := ha
    obtain ⟨b2, hb2, h2⟩ := hp
    cases h1
    cases h2
    simp only [hb1, hb2, Option.some_bind, next_field, if_pos hs]
  · rw [step_other cfg db st ch hesc hq hb hn hs, case_other_eq]
    unfold track_step at ha hp
    rw [if_neg hs] at ha hp
    simp only [ha, hp, Option.some_bind, next_field, if_neg hs]

theorem main_loop_plain (cfg : Config) (db : Oracle) (l : List Char) :
    ∀ (st : State) (a p : Buf × Int),
      st.esc = false → st.blind = 0 → DQUOTE ∉ l → BACKSLASH ∉ l → NEWLINE ∉ l →
      run_track cfg.G_sep cfg.G_id st.fieldnum (st.account, st.aidx) l = some a →
      run_track cfg.G_sep cfg.G_pwd st.fieldnum (st.defpass, st.pidx) l = some p →
      main_loop cfg db l st =
        some { st with fieldnum := l.foldl (next_field cfg.G_sep) st.fieldnum,
                       account := a.1, aidx := a.2, defpass := p.1, pidx := p.2 } := by
  induction l with
  | nil =>
    intro st a p _ _ _ _ _ ha hp
    simp only [run_track, Option.some.injEq] at ha hp
    subst ha hp
    cases st
    rfl
  | cons ch l ih =>
    intro st a p hesc hblind hq hb hn ha hp
    rw [run_track_cons] at ha hp
    simp only [Option.bind_eq_some] at ha hp
    obtain ⟨a1, ha1, ha2⟩ := ha
    obtain ⟨p1, hp1, hp2⟩ := hp
    have hq1 : ch ≠ DQUOTE := fun h => hq (by simp [h])
    have hb1 : ch ≠ BACKSLASH := fun h => hb (by simp [h])
    have hn1 : ch ≠ NEWLINE := fun h => hn (by simp [h])
    rw [main_loop_cons, step_plain cfg db st ch a1 p1 hesc hblind hq1 hb1 hn1 ha1 hp1,
      Option.some_bind]
    rw [ih { st with fieldnum := next_field cfg.G_sep st.fieldnum ch,
                     account := a1.1, aidx := a1.2, defpass := p1.1, pidx := p1.2 }
      a p hesc hblind (fun h => hq (List.mem_cons_of_mem _ h))
      (fun h => hb (List.mem_cons_of_mem _ h)) (fun h => hn (List.mem_cons_of_mem _ h))
      ha2 hp2]
    rfl

theorem final_content_zero (sep : Char) (n : Nat) (l : List Char) :
    final_content sep n 0 [] l = field_at sep n l := by
  unfold final_content
  by_cases h : 0 < n
  · simp [h]
  · have : n = 0 := by omega
    subst this
    simp

theorem cstr_store_end (buf : Buf) (a : List Char) (h : holds buf a) (hnul : NUL ∉ a)
    (hlen : a.length ≤ 249) :
    ∃ acc, store buf (a.length : Int) NUL = some acc ∧ cstr acc = a := by
  refine ⟨_, store_some buf (a.length : Int) NUL (by omega) (by unfold ID_LEN; omega), ?_⟩
  apply cstr_of_holds _ a (holds_store_end buf a NUL h) _ hnul hlen
  simp

/-- Reading a plain line and its newline from the beginning of a line: the
complete description of the state reached. The line is dispatched with the
fields of index `n` and `m` as identifier and secret. -/
theorem plain_line_run (cfg : Config) (db : Oracle) (st : State) (line : List Char)
    (n m : Nat)
    (hstart : line_start st)
    (hid : cfg.G_id = (n : Int) + 1) (hn : n < 32767)
    (hpwd : cfg.G_pwd = (m : Int) + 1) (hm : m < 32767)
    (hq : DQUOTE ∉ line) (hb : BACKSLASH ∉ line) (hnl : NEWLINE ∉ line)
    (hseps : line.count cfg.G_sep < 65536)
    (hnulA : NUL ∉ field_at cfg.G_sep n line)
    (hlenA : (field_at cfg.G_sep n line).length ≤ 249)
    (hnulP : NUL ∉ field_at cfg.G_sep m line)
    (hlenP : (field_at cfg.G_sep m line).length ≤ 249)
    (hskip : cfg.skip < wrap16 (st.linecnt + 1)) :
    ∃ st1 : State,
      main_loop cfg db (line ++ [NEWLINE]) st = some st1 ∧
      st1.calls = st.calls ++
        [Call.mk (st.phys + 1) (decide (cfg.op = CREATE)) (field_at cfg.G_sep n line)
          (if cfg.op = CREATE then some (field_at cfg.G_sep m line) else none)
          (lifecycle cfg db (field_at cfg.G_sep n line) (field_at cfg.G_sep m line) st.g).1] ∧
      st1.g =
        (lifecycle cfg db (field_at cfg.G_sep n line) (field_at cfg.G_sep m line) st.g).2 ∧
      st1.cnt =
        (if (lifecycle cfg db (field_at cfg.G_sep n line) (field_at cfg.G_sep m line) st.g).1
            = true then wrap16 (st.cnt + 1) else st.cnt) ∧
      st1.out =
        (if (lifecycle cfg db (field_at cfg.G_sep n line) (field_at cfg.G_sep m line) st.g).1
            = true then
          st.out ++ [account_line (field_at cfg.G_sep n line)
            (if cfg.op = CREATE then "created".toList else "deleted".toList)]
         else st.out) ∧
      st1.linecnt = wrap16 (st.linecnt + 1) ∧ st1.phys = st.phys + 1 ∧
      st1.exited = st.exited ∧ line_start st1 := by
  obtain ⟨h1, h2, h3, h4, h5⟩ := hstart
  obtain ⟨bufA, hrA, hhA⟩ := run_track_content cfg.G_sep n hn line 0 st.account []
    (by simpa using hseps) (holds_nil _) (fun _ => rfl)
    (by rw [final_content_zero]; exact hlenA)
  obtain ⟨bufP, hrP, hhP⟩ := run_track_content cfg.G_sep m hm line 0 st.defpass []
    (by simpa using hseps) (holds_nil _) (fun _ => rfl)
    (by rw [final_content_zero]; exact hlenP)
  rw [final_content_zero] at hrA hhA hrP hhP
  have hw : wrap16 (1 + ((0 : Nat) : Int)) = 1 := by decide
  rw [hw] at hrA hrP
  have hpl := main_loop_plain cfg db line st _ _ h5 h2 hq hb hnl
    (by rw [h1, h3, hid]; exact hrA) (by rw [h1, h4, hpwd]; exact hrP)
  obtain ⟨st2, hst2, e1, e2, e3, e4, e5, e6, e7, e8, e9, e10, e11, e12⟩ :
      ∃ st2, main_loop cfg db line st = some st2 ∧ st2.esc = false ∧
        st2.account = bufA ∧ st2.aidx = ((field_at cfg.G_sep n line).length : Int) ∧
        st2.defpass = bufP ∧ st2.pidx = ((field_at cfg.G_sep m line).length : Int) ∧
        st2.linecnt = st.linecnt ∧ st2.calls = st.calls ∧ st2.g = st.g ∧
        st2.phys = st.phys ∧ st2.cnt = st.cnt ∧ st2.out = st.out ∧
        st2.exited = st.exited :=
    ⟨_, hpl, h5, rfl, rfl, rfl, rfl, rfl, rfl, rfl, rfl, rfl, rfl, rfl⟩
  obtain ⟨acc, hacc, hcA⟩ := cstr_store_end bufA _ hhA hnulA hlenA
  obtain ⟨dp, hdp, hcP⟩ := cstr_store_end bufP _ hhP hnulP hlenP
  have hstep := step_newline_dispatch cfg db st2 acc dp e1 (by rw [e6]; exact hskip)
    (by rw [e2, e3]; exact hacc) (by rw [e4, e5]; exact hdp)
  rw [main_loop_append, hst2, Option.some_bind, main_loop_cons, hstep, Option.some_bind,
    main_loop_nil]
  refine ⟨_, rfl, ?_, ?_, ?_, ?_, ?_, ?_, ?_, ?_⟩
  · simp [dispatched, hcA, hcP, e7, e8, e9]
  · simp [dispatched, hcA, hcP, e8]
  · simp [dispatched, hcA, hcP, e8, e10]
  · simp [dispatched, hcA, hcP, e8, e11]
  · simp [dispatched, e6]
  · simp [dispatched, e9]
  · simp [dispatched, e12]
  · exact ⟨rfl, rfl, rfl, rfl, e1⟩

/-- **C1** (field extraction on plain lines), amended. Let the separator be
any character and the selectors be `G_id = n + 1` and `G_pwd = m + 1`, both
in the range of a `short`. Let the read loop be at the beginning of a line
(`line_start`), and let the line contain no double quote, no backslash, no
newline and fewer than 65536 separators, its fields of index `n` and `m`
containing no NUL and holding at most 249 bytes. If the line is not skipped,
reading the line and its newline makes exactly one call of the lifecycle
manager, with the identifier equal to the field of index `n` of the line and,
in create mode, the secret equal to the field of index `m`; and the loop is
again at the beginning of a line. -/
theorem plain_line_fields (cfg : Config) (db : Oracle) (st : State) (line : List Char)
    (n m : Nat)
    (hstart : line_start st)
    (hid : cfg.G_id = (n : Int) + 1) (hn : n < 32767)
    (hpwd : cfg.G_pwd = (m : Int) + 1) (hm : m < 32767)
    (hq : DQUOTE ∉ line) (hb : BACKSLASH ∉ line) (hnl : NEWLINE ∉ line)
    (hseps : line.count cfg.G_sep < 65536)
    (hnulA : NUL ∉ field_at cfg.G_sep n line)
    (hlenA : (field_at cfg.G_sep n line).length ≤ 249)
    (hnulP : NUL ∉ field_at cfg.G_sep m line)
    (hlenP : (field_at cfg.G_sep m line).length ≤ 249)
    (hskip : cfg.skip < wrap16 (st.linecnt + 1)) :
    ∃ (st1 : State) (ok : Bool),
      main_loop cfg db (line ++ [NEWLINE]) st = some st1 ∧
      st1.calls = st.calls ++
        [Call.mk (st.phys + 1) (decide (cfg.op = CREATE)) (field_at cfg.G_sep n line)
          (if cfg.op = CREATE then some (field_at cfg.G_sep m line) else none) ok] ∧
      (ok, st1.g) =
        lifecycle cfg db (field_at cfg.G_sep n line) (field_at cfg.G_sep m line) st.g ∧
      line_start st1 := by
  obtain ⟨st1, h1, h2, h3, -, -, -, -, -, h9⟩ := plain_line_run cfg db st line n m hstart hid
    hn hpwd hm hq hb hnl hseps hnulA hlenA hnulP hlenP hskip
  exact ⟨st1, _, h1, h2, by rw [h3], h9⟩

/-- Witness of **C1** (amended): the first line of the roster
`1,alice,secretpw`, with id-field 2 and secret-field 3. -/
theorem plain_line_fields_witness :
    line_start (init blank blank connected) ∧
    DQUOTE ∉ "1,alice,secretpw".toList ∧ BACKSLASH ∉ "1,alice,secretpw".toList ∧
    NEWLINE ∉ "1,alice,secretpw".toList ∧
    "1,alice,secretpw".toList.count ',' < 65536 ∧
    NUL ∉ field_at ',' 1 "1,alice,secretpw".toList ∧
    (field_at ',' 1 "1,alice,secretpw".toList).length ≤ 249 ∧
    NUL ∉ field_at ',' 2 "1,alice,secretpw".toList ∧
    (field_at ',' 2 "1,alice,secretpw".toList).length ≤ 249 ∧
    field_at ',' 1 "1,alice,secretpw".toList = "alice".toList ∧
    field_at ',' 2 "1,alice,secretpw".toList = "secretpw".toList ∧
    ∃ (st1 : State) (ok : Bool),
      main_loop (Config.mk ',' 2 3 0 CREATE none) okDb ("1,alice,secretpw".toList ++ [NEWLINE])
        (init blank blank connected) = some st1 ∧
      st1.calls = (init blank blank connected).calls ++
        [Call.mk ((init blank blank connected).phys + 1) true
          (field_at ',' 1 "1,alice,secretpw".toList)
          (some (field_at ',' 2 "1,alice,secretpw".toList)) ok] := by
  refine ⟨⟨rfl, rfl, rfl, rfl, rfl⟩, by decide, by decide, by decide, by decide, by decide,
    by decide, by decide, by decide, by decide, by decide, ?_⟩
  obtain ⟨st1, ok, h1, h2, -⟩ := plain_line_fields (Config.mk ',' 2 3 0 CREATE none) okDb
    (init blank blank connected) "1,alice,secretpw".toList 1 2 ⟨rfl, rfl, rfl, rfl, rfl⟩
    rfl (by decide) rfl (by decide) (by decide) (by decide) (by decide) (by decide)
    (by decide) (by decide) (by decide) (by decide) (by decide)
  exact ⟨st1, ok, h1, h2⟩

/-- **C1** as stated fails: the line `a<NUL>b,pw` contains no double quote and
no backslash and its fields are short, its first field is the three bytes
`a<NUL>b`, but the identifier handed to `create_account` (id-field 1) is the
C string held by the `account` array, which ends at the NUL: `a`. -/
theorem plain_line_with_nul_is_truncated :
    DQUOTE ∉ "a\x00b,pw".toList ∧ BACKSLASH ∉ "a\x00b,pw".toList ∧
    NEWLINE ∉ "a\x00b,pw".toList ∧
    (field_at ',' 0 "a\x00b,pw".toList).length ≤ 249 ∧
    (field_at ',' 1 "a\x00b,pw".toList).length ≤ 249 ∧
    field_at ',' 0 "a\x00b,pw".toList = ['a', NUL, 'b'] ∧
    (main_loop (Config.mk ',' 1 2 0 CREATE none) okDb ("a\x00b,pw".toList ++ [NEWLINE])
      (init blank blank connected)).map State.calls =
      some [Call.mk 1 true "a".toList (some "pw".toList) true] ∧
    "a".toList ≠ field_at ',' 0 "a\x00b,pw".toList := by
  decide

/-- The declarations of `main` leave the read loop at the beginning of a
line. -/
theorem line_start_init (a0 p0 : Buf) (g : Session) : line_start (init a0 p0 g) :=
  ⟨rfl, rfl, rfl, rfl, rfl⟩

/-- Every newline that goes through the switch leaves the read loop at the
beginning of a line. -/
theorem line_start_after_newline (cfg : Config) (db : Oracle) (st st1 : State)
    (hesc : st.esc = false) (h : step cfg db st NEWLINE = some st1) : line_start st1 := by
  rw [step_newline cfg db st hesc, case_newline_eq] at h
  split_ifs at h with hs
  · rw [dispatch_eq] at h
    simp only [Option.map_eq_some', Option.bind_eq_some] at h
    obtain ⟨s, ⟨acc, -, dp, -, hs2⟩, rfl⟩ := h
    cases hs2
    exact ⟨rfl, rfl, rfl, rfl, hesc⟩
  · cases h
    exact ⟨rfl, rfl, rfl, rfl, hesc⟩

/-! ## A run that overflows the warning counter -/

theorem delete_missing (g : Session) (hconn : g.G_conn = true) :
    (delete_account missingDb (some ['x']) g).1 =
      decide (¬ (wrap16 (wrap16 (g.G_warnings + 1) + 1) > wrap16 (g.G_warnings + 1))) ∧
    (delete_account missingDb (some ['x']) g).2.G_warnings =
      wrap16 (wrap16 (g.G_warnings + 1) + 1) ∧
    (delete_account missingDb (some ['x']) g).2.G_conn = true := by
  rw [delete_account_eq missingDb ['x'] g hconn]
  have hn : drop_login_name ['x'] = ['x'] := by decide
  have hs : drop_schema_name ['x'] = ['x'] := by decide
  have r1 : ∀ l, missingDb l (stmt_drop_schema ['x']) = Resp.mk true 1 := fun _ => rfl
  have r2 : ∀ l, missingDb l (stmt_drop_owned ['x']) = Resp.mk false 0 := fun _ => rfl
  have r3 : ∀ l, missingDb l (stmt_drop_user ['x']) = Resp.mk true 1 := fun _ => rfl
  have r4 : ∀ l, missingDb l stmt_start = Resp.mk true 0 := fun _ => rfl
  have r5 : ∀ l, missingDb l stmt_savepoint = Resp.mk true 0 := fun _ => rfl
  have r6 : ∀ l, missingDb l stmt_rollback_to = Resp.mk true 0 := fun _ => rfl
  have r7 : ∀ l, missingDb l stmt_release = Resp.mk true 0 := fun _ => rfl
  have r8 : ∀ l, missingDb l stmt_rollback = Resp.mk true 0 := fun _ => rfl
  have r9 : ∀ l, missingDb l stmt_commit = Resp.mk true 0 := fun _ => rfl
  simp only [deprovision_flow, dep_user, dep_released, dep_undone, dep_owned, dep_saved,
    dep_schema, dep_started, hn, hs, PQexec, r1, r2, r3, r4, r5, r6, r7, r8, r9,
    Function.iterate_zero, Function.iterate_one, id_eq, ignore_notice]
  by_cases h : wrap16 (wrap16 (g.G_warnings + 1) + 1) > wrap16 (g.G_warnings + 1)
  · simp [h, hconn]
  · simp [h, hconn]

theorem line_of_x_run (st : State) (hstart : line_start st) (hconn : st.g.G_conn = true)
    (hskip : 0 < wrap16 (st.linecnt + 1)) :
    ∃ st1 : State,
      main_loop (default_config DELETE) missingDb (['x'] ++ [NEWLINE]) st = some st1 ∧
      st1.calls = st.calls ++ [Call.mk (st.phys + 1) false ['x'] none
        (decide (¬ (wrap16 (wrap16 (st.g.G_warnings + 1) + 1) >
          wrap16 (st.g.G_warnings + 1))))] ∧
      st1.g.G_warnings = wrap16 (wrap16 (st.g.G_warnings + 1) + 1) ∧
      st1.g.G_conn = true ∧
      st1.cnt = (if ¬ (wrap16 (wrap16 (st.g.G_warnings + 1) + 1) >
          wrap16 (st.g.G_warnings + 1)) then wrap16 (st.cnt + 1) else st.cnt) ∧
      st1.out = (if ¬ (wrap16 (wrap16 (st.g.G_warnings + 1) + 1) >
          wrap16 (st.g.G_warnings + 1)) then
            st.out ++ [account_line ['x'] "deleted".toList] else st.out) ∧
      st1.linecnt = wrap16 (st.linecnt + 1) ∧ st1.phys = st.phys + 1 ∧
      st1.exited = st.exited ∧ line_start st1 := by
  obtain ⟨st1, h1, h2, h3, h4, h5, h6, h7, h8, h9⟩ :=
    plain_line_run (default_config DELETE) missingDb st ['x'] 0 0 hstart rfl (by decide) rfl
      (by decide) (by decide) (by decide) (by decide) (by decide) (by decide) (by decide)
      (by decide) (by decide) hskip
  have hf : field_at (default_config DELETE).G_sep 0 ['x'] = ['x'] := by decide
  have hop : ¬ ((default_config DELETE).op = CREATE) := by decide
  have hl : lifecycle (default_config DELETE) missingDb ['x'] ['x'] st.g =
      delete_account missingDb (some ['x']) st.g := by
    simp only [lifecycle, hop, if_false]
  rw [hf, hl] at h2 h3 h4 h5
  obtain ⟨d1, d2, d3⟩ := delete_missing st.g hconn
  refine ⟨st1, h1, ?_, ?_, ?_, ?_, ?_, h6, h7, h8, h9⟩
  · rw [h2, d1]
    simp [hop]
  · rw [h3, d2]
  · rw [h3, d3]
  · rw [h4, d1]
    simp
  · rw [h5, d1]
    simp [hop]

theorem roster_of_x_run (k : Nat) (hk : k ≤ 16383) :
    ∃ st : State,
      main_loop (default_config DELETE) missingDb (roster_of_x k) (init blank blank connected)
        = some st ∧
      line_start st ∧ st.g.G_conn = true ∧ st.g.G_warnings = 2 * (k : Int) ∧
      st.linecnt = (k : Int) ∧ st.phys = k ∧ st.cnt = 0 ∧ st.out = [] ∧
      st.calls.length = k ∧ (∀ c ∈ st.calls, c.ok = false) ∧ st.exited = false := by
  induction k with
  | zero =>
    exact ⟨_, rfl, line_start_init _ _ _, rfl, rfl, rfl, rfl, rfl, rfl, rfl, by simp [init], rfl⟩
  | succ k ih =>
    obtain ⟨st, h0, h1, h2, h3, h4, h5, h6, h7, h8, h9, h10⟩ := ih (by omega)
    have hskip : 0 < wrap16 (st.linecnt + 1) := by
      rw [h4]; unfold wrap16; omega
    obtain ⟨st1, g1, g2, g3, g4, g5, g6, g7, g8, g9, g10⟩ := line_of_x_run st h1 h2 hskip
    have hnot : wrap16 (wrap16 (st.g.G_warnings + 1) + 1) > wrap16 (st.g.G_warnings + 1) := by
      rw [h3]; unfold wrap16; omega
    refine ⟨st1, ?_, g10, g4, ?_, ?_, ?_, ?_, ?_, ?_, ?_, ?_⟩
    · show main_loop _ _ (roster_of_x k ++ ['x', NEWLINE]) _ = _
      rw [main_loop_append, h0, Option.some_bind]
      exact g1
    · rw [g3, h3]; unfold wrap16; push_cast; omega
    · rw [g7, h4]; unfold wrap16; push_cast; omega
    · rw [g8, h5]
    · rw [g5, h6]; simp [hnot]
    · rw [g6, h7]; simp [hnot]
    · rw [g2]; simp [h8]
    · intro c hc
      rw [g2, List.mem_append, List.mem_singleton] at hc
      rcases hc with hc | rfl
      · exact h9 c hc
      · simp [hnot]
    · rw [g9, h10]

/-- Supplement to **C4**: the overflow met by a run of the program. In delete
mode with the default configuration, on a server where none of the accounts
exists, the roster of 16384 lines `x` is read to its end; the first 16383
records are counted as failures, since their drop-user statement raises a
notice; at the last one the warning counter goes from 32767 to -32768 during
the drop-user statement, the call returns success, the account is printed as
deleted and the summary counts one deleted account. -/
theorem notice_overflow_in_a_run :
    ∃ st : State,
      main_read (default_config DELETE) missingDb (roster_of_x 16384) blank blank = some st ∧
      st.calls.length = 16384 ∧
      (∀ c ∈ st.calls.dropLast, c.ok = false) ∧
      st.calls.getLast? = some (Call.mk 16384 false ['x'] none true) ∧
      st.g.G_warnings = -32768 ∧ st.cnt = 1 ∧
      st.out = [" -- account x deleted\n".toList, "*** 1 account deleted ***\n".toList] := by
  obtain ⟨st, h0, h1, h2, h3, h4, h5, h6, h7, h8, h9, h10⟩ := roster_of_x_run 16383 (by omega)
  have hskip : 0 < wrap16 (st.linecnt + 1) := by
    rw [h4]; decide
  obtain ⟨st1, g1, g2, g3, g4, g5, g6, g7, g8, g9, g10⟩ := line_of_x_run st h1 h2 hskip
  have hnot : ¬ (wrap16 (wrap16 (st.g.G_warnings + 1) + 1) > wrap16 (st.g.G_warnings + 1)) := by
    rw [h3]; decide
  have hrun : main_loop (default_config DELETE) missingDb (roster_of_x 16384)
      (init blank blank connected) = some st1 := by
    show main_loop _ _ (roster_of_x 16383 ++ ['x', NEWLINE]) _ = _
    rw [main_loop_append, h0, Option.some_bind]
    exact g1
  have hesc : st1.esc = false := g10.2.2.2.2
  refine ⟨at_eof (default_config DELETE) st1, ?_, ?_, ?_, ?_, ?_, ?_, ?_⟩
  · simp [main_read, hrun]
  · simp [at_eof, hesc, g2, h8]
  · simp only [at_eof, hesc, Bool.false_eq_true, if_false, g2, List.dropLast_concat]
    exact h9
  · simp only [at_eof, hesc, Bool.false_eq_true, if_false, g2]
    simp [hnot, h5]
  · simp only [at_eof, hesc, Bool.false_eq_true, if_false, g3, h3]
    decide
  · simp only [at_eof, hesc, Bool.false_eq_true, if_false, g5, h6, hnot, not_false_eq_true,
      if_true]
    decide
  · simp only [at_eof, hesc, Bool.false_eq_true, if_false, g5, g6, h6, h7, hnot,
      not_false_eq_true, if_true]
    decide

/-! ## A line that overflows the field counter -/

theorem comma_step (db : Oracle) (st : State) (h1 : st.esc = false) (h2 : st.blind = 0)
    (h3 : st.aidx = 0) (h4 : st.pidx = 0) :
    ∃ st1 : State,
      step (Config.mk ',' 1 2 0 CREATE none) db st ',' = some st1 ∧
      st1.esc = false ∧ st1.blind = 0 ∧ st1.aidx = 0 ∧ st1.pidx = 0 ∧
      st1.fieldnum = wrap16 (st.fieldnum + 1) ∧
      st1.linecnt = st.linecnt ∧ st1.calls = st.calls ∧ st1.phys = st.phys := by
  rw [step_sep _ db st ',' h1 (by decide) (by decide) (by decide) rfl, case_sep_eq, if_pos h2,
    h3, h4]
  simp only [store_zero]
  by_cases ha : st.fieldnum = 1 <;> by_cases hp : st.fieldnum = 2 <;>
    simp [ha, hp, h1, h2]

theorem commas_run (db : Oracle) (k : Nat) :
    ∀ st : State, st.esc = false → st.blind = 0 → st.aidx = 0 → st.pidx = 0 →
      -32768 ≤ st.fieldnum → st.fieldnum ≤ 32767 →
      ∃ st1 : State,
        main_loop (Config.mk ',' 1 2 0 CREATE none) db (List.replicate k ',') st = some st1 ∧
        st1.esc = false ∧ st1.blind = 0 ∧ st1.aidx = 0 ∧ st1.pidx = 0 ∧
        st1.fieldnum = wrap16 (st.fieldnum + (k : Int)) ∧
        st1.linecnt = st.linecnt ∧ st1.calls = st.calls ∧ st1.phys = st.phys := by
  induction k with
  | zero =>
    intro st h1 h2 h3 h4 h5 h6
    refine ⟨st, rfl, h1, h2, h3, h4, ?_, rfl, rfl, rfl⟩
    unfold wrap16
    push_cast
    omega
  | succ k ih =>
    intro st h1 h2 h3 h4 h5 h6
    obtain ⟨st1, s0, s1, s2, s3, s4, s5, s6, s7, s8⟩ := comma_step db st h1 h2 h3 h4
    obtain ⟨st2, t0, t1, t2, t3, t4, t5, t6, t7, t8⟩ := ih st1 s1 s2 s3 s4
      (by rw [s5]; exact wrap16_ge _) (by rw [s5]; unfold wrap16; omega)
    refine ⟨st2, ?_, t1, t2, t3, t4, ?_, t6.trans s6, t7.trans s7, t8.trans s8⟩
    · rw [List.replicate_succ, main_loop_cons, s0, Option.some_bind]
      exact t0
    · rw [t5, s5]
      unfold wrap16
      push_cast
      omega

/-- Supplement to **C1**: the bound on the number of separators. The field
counter is a `short`; on the line made of 65536 commas followed by `x`, with
id-field 1, the counter is back at 1 after the last comma, so the `x` of
field 65537 is stored in `account`: the identifier handed over is `x`, while
the first field of the line is empty. -/
theorem field_counter_wraps_on_long_line :
    field_at ',' 0 (List.replicate 65536 ',' ++ ['x']) = [] ∧
    ∃ st : State,
      main_loop (Config.mk ',' 1 2 0 CREATE none) okDb
        ((List.replicate 65536 ',' ++ ['x']) ++ [NEWLINE]) (init blank blank connected)
        = some st ∧
      st.calls.map Call.id = [['x']] := by
  constructor
  · rw [show (65536 : Nat) = 65535 + 1 from rfl, List.replicate_succ]
    simp [field_at]
  · obtain ⟨st1, s0, s1, s2, s3, s4, s5, s6, s7, s8⟩ := commas_run okDb 65536
      (init blank blank connected) rfl rfl rfl rfl (by decide) (by decide)
    have hf : st1.fieldnum = 1 := by
      rw [s5]; decide
    obtain ⟨st2, r1, r2, -⟩ := plain_line_run (Config.mk ',' 1 2 0 CREATE none) okDb st1 ['x']
      0 1 ⟨hf, s2, s3, s4, s1⟩ rfl (by decide) rfl (by decide) (by decide) (by decide)
      (by decide) (by decide) (by decide) (by decide) (by decide) (by decide)
      (by rw [s6]; decide)
    refine ⟨st2, ?_, ?_⟩
    · rw [List.append_assoc, main_loop_append, s0, Option.some_bind]
      exact r1
    · rw [r2, s7]
      simp [init]
      decide

/-! ## The read loop: what one byte records -/

/-- What one byte adds to the record of the run: nothing, or, for an unescaped
newline ending a line whose counter exceeds `skip`, the dispatch of the record
held by the two arrays. -/
theorem step_cases (cfg : Config) (db : Oracle) (st st1 : State) (ch : Char)
    (h : step cfg db st ch = some st1) :
    (st1.calls = st.calls ∧ st1.g = st.g ∧ st1.cnt = st.cnt ∧ st1.out = st.out ∧
      st1.exited = st.exited ∧
      (ch = NEWLINE → st.esc = false → ¬ cfg.skip < wrap16 (st.linecnt + 1))) ∨
    (ch = NEWLINE ∧ st.esc = false ∧ cfg.skip < wrap16 (st.linecnt + 1) ∧
      ∃ acc dp : Buf,
        store st.account st.aidx NUL = some acc ∧ store st.defpass st.pidx NUL = some dp ∧
        st1 = { dispatched cfg db
                  { st with phys := st.phys + 1, linecnt := wrap16 (st.linecnt + 1),
                            fieldnum := 1, blind := 0 } acc dp with
                account := set0 acc NUL, aidx := 0, defpass := set0 dp NUL, pidx := 0 }) := by
  by_cases hesc : st.esc = true
  · rw [step_esc cfg db st ch hesc] at h
    cases h
    exact Or.inl ⟨rfl, rfl, rfl, rfl, rfl, fun _ h2 => by simp [hesc] at h2⟩
  have hesc : st.esc = false := by simpa using hesc
  by_cases hq : ch = DQUOTE
  · subst hq
    rw [step_quote cfg db st hesc] at h
    cases h
    exact Or.inl ⟨rfl, rfl, rfl, rfl, rfl, fun h1 _ => absurd h1 (by decide)⟩
  by_cases hb : ch = BACKSLASH
  · subst hb
    rw [step_backslash cfg db st hesc] at h
    cases h
    exact Or.inl ⟨rfl, rfl, rfl, rfl, rfl, fun h1 _ => absurd h1 (by decide)⟩
  by_cases hn : ch = NEWLINE
  · subst hn
    by_cases hs : cfg.skip < wrap16 (st.linecnt + 1)
    · right
      rw [step_newline cfg db st hesc, case_newline_eq] at h
      simp only [hs, if_true, dispatch_eq, Option.map_eq_some', Option.bind_eq_some] at h
      obtain ⟨s, ⟨acc, hacc, dp, hdp, hs2⟩, rfl⟩ := h
      cases hs2
      exact ⟨rfl, hesc, hs, acc, dp, hacc, hdp, rfl⟩
    · left
      rw [step_newline cfg db st hesc, case_newline_eq] at h
      simp only [hs, if_false] at h
      cases h
      exact ⟨rfl, rfl, rfl, rfl, rfl, fun _ _ => hs⟩
  by_cases hs : ch = cfg.G_sep
  · rw [step_sep cfg db st ch hesc hq hb hn hs] at h
    obtain ⟨-, h2, h3, h4, h5, -, -, -, h9⟩ := case_sep_frame cfg st st1 h
    exact Or.inl ⟨h2, h3, h4, h5, h9, fun h1 _ => absurd h1 hn⟩
  · rw [step_other cfg db st ch hesc hq hb hn hs] at h
    obtain ⟨-, h2, h3, h4, h5, -, -, -, h9, -⟩ := case_other_frame cfg st st1 ch h
    exact Or.inl ⟨h2, h3, h4, h5, h9, fun h1 _ => absurd h1 hn⟩

/-! ## The success tally -/

theorem tally_append (l : List Call) (c : Call) :
    tally (l ++ [c]) = tally l + (if c.ok = true then 1 else 0) := by
  unfold tally
  by_cases h : c.ok = true <;> simp [List.filter_append, h]

theorem step_tally (cfg : Config) (db : Oracle) (st st1 : State) (ch : Char)
    (h : step cfg db st ch = some st1) (hinv : st.cnt = wrap16 (tally st.calls)) :
    st1.cnt = wrap16 (tally st1.calls) := by
  rcases step_cases cfg db st st1 ch h with ⟨h1, -, h3, -⟩ | ⟨-, -, -, acc, dp, -, -, rfl⟩
  · rw [h1, h3, hinv]
  · simp only [dispatched, tally_append]
    by_cases hok : (lifecycle cfg db (cstr acc) (cstr dp) st.g).1 = true
    · simp only [hok, if_true, hinv, wrap16_wrap16_succ]
      push_cast
      rfl
    · simp only [hok, if_false, hinv]
      simp

theorem main_loop_tally (cfg : Config) (db : Oracle) (roster : List Char) (st0 st : State)
    (h : main_loop cfg db roster st0 = some st) (hinv : st0.cnt = wrap16 (tally st0.calls)) :
    st.cnt = wrap16 (tally st.calls) := by
  induction roster generalizing st0 with
  | nil =>
    rw [main_loop_nil] at h
    cases h
    exact hinv
  | cons ch l ih =>
    rw [main_loop_cons] at h
    simp only [Option.bind_eq_some] at h
    obtain ⟨st1, h1, h2⟩ := h
    exact ih st1 h2 (step_tally cfg db st0 st1 ch h1 hinv)

theorem wrap16_of_short (x : Int) (h0 : -32768 ≤ x) (h1 : x ≤ 32767) : wrap16 x = x := by
  unfold wrap16
  omega

theorem summary_line_eq_text (cfg : Config) (n : Nat) :
    summary_line cfg (n : Int) =
      summary_text n (decide (cfg.op = CREATE)) ++ [NEWLINE] := by
  have ht : toString (n : Int) = toString n := rfl
  by_cases h1 : n = 1
  · subst h1
    by_cases hop : cfg.op = CREATE <;> simp [summary_line, summary_text, fmt_d, hop] <;> rfl
  · have h2 : ¬ ((n : Int) = 1) := by exact_mod_cast h1
    by_cases hop : cfg.op = CREATE <;>
      simp [summary_line, summary_text, fmt_d, ht, h1, h2, hop]

/-- Supplement to **C11**: as long as the 16-bit tally `cnt` does not overflow,
that is for a run with at most 32767 successful calls, a run that reaches the
end of the roster prints as its last line the summary line for the number of
calls of the lifecycle manager that returned success. -/
theorem summary_counts_successes_without_overflow (cfg : Config) (db : Oracle)
    (roster : List Char) (a0 p0 : Buf) (st : State)
    (h : main_read cfg db roster a0 p0 = some st) (hend : st.exited = false)
    (hsmall : tally st.calls ≤ 32767) :
    st.cnt = (tally st.calls : Int) ∧
    st.out.getLast? =
      some (summary_text (tally st.calls) (decide (cfg.op = CREATE)) ++ [NEWLINE]) := by
  unfold main_read at h
  simp only [Option.map_eq_some'] at h
  obtain ⟨s, hs, rfl⟩ := h
  have hcnt := main_loop_tally cfg db roster _ s hs (by simp [init, tally, wrap16])
  have hinit : (init a0 p0 connected).exited = false := rfl
  by_cases hesc : s.esc = true
  · simp [at_eof, hesc] at hend
  have hesc : s.esc = false := by simpa using hesc
  simp only [at_eof, hesc, Bool.false_eq_true, if_false] at hsmall ⊢
  have hc : s.cnt = (tally s.calls : Int) := by
    rw [hcnt, wrap16_of_short _ (by omega) (by omega)]
  refine ⟨hc, ?_⟩
  rw [hc, summary_line_eq_text]
  simp

/-! ## Long rosters: the 16-bit line counter and tally -/

/-- Reading a plain line and its newline from the beginning of a line when the
line counter does not exceed `skip`: nothing is dispatched. -/
theorem plain_line_skipped (cfg : Config) (db : Oracle) (st : State) (line : List Char)
    (n m : Nat)
    (hstart : line_start st)
    (hid : cfg.G_id = (n : Int) + 1) (hn : n < 32767)
    (hpwd : cfg.G_pwd = (m : Int) + 1) (hm : m < 32767)
    (hq : DQUOTE ∉ line) (hb : BACKSLASH ∉ line) (hnl : NEWLINE ∉ line)
    (hseps : line.count cfg.G_sep < 65536)
    (hlenA : (field_at cfg.G_sep n line).length ≤ 249)
    (hlenP : (field_at cfg.G_sep m line).length ≤ 249)
    (hskip : ¬ cfg.skip < wrap16 (st.linecnt + 1)) :
    ∃ st1 : State,
      main_loop cfg db (line ++ [NEWLINE]) st = some st1 ∧
      st1.calls = st.calls ∧ st1.g = st.g ∧ st1.cnt = st.cnt ∧ st1.out = st.out ∧
      st1.linecnt = wrap16 (st.linecnt + 1) ∧ st1.phys = st.phys + 1 ∧
      st1.exited = st.exited ∧ line_start st1 := by
  obtain ⟨h1, h2, h3, h4, h5⟩ := hstart
  obtain ⟨bufA, hrA, -⟩ := run_track_content cfg.G_sep n hn line 0 st.account []
    (by simpa using hseps) (holds_nil _) (fun _ => rfl)
    (by rw [final_content_zero]; exact hlenA)
  obtain ⟨bufP, hrP, -⟩ := run_track_content cfg.G_sep m hm line 0 st.defpass []
    (by simpa using hseps) (holds_nil _) (fun _ => rfl)
    (by rw [final_content_zero]; exact hlenP)
  rw [final_content_zero] at hrA hrP
  have hw : wrap16 (1 + ((0 : Nat) : Int)) = 1 := by decide
  rw [hw] at hrA hrP
  have hpl := main_loop_plain cfg db line st _ _ h5 h2 hq hb hnl
    (by rw [h1, h3, hid]; exact hrA) (by rw [h1, h4, hpwd]; exact hrP)
  obtain ⟨st2, hst2, e1, e6, e7, e8, e9, e10, e11, e12⟩ :
      ∃ st2, main_loop cfg db line st = some st2 ∧ st2.esc = false ∧
        st2.linecnt = st.linecnt ∧ st2.calls = st.calls ∧ st2.g = st.g ∧
        st2.phys = st.phys ∧ st2.cnt = st.cnt ∧ st2.out = st.out ∧
        st2.exited = st.exited :=
    ⟨_, hpl, h5, rfl, rfl, rfl, rfl, rfl, rfl, rfl⟩
  have hstep : step cfg db st2 NEWLINE =
      some { st2 with phys := st2.phys + 1, linecnt := wrap16 (st2.linecnt + 1), fieldnum := 1,
                      blind := 0, account := set0 st2.account NUL, aidx := 0,
                      defpass := set0 st2.defpass NUL, pidx := 0 } := by
    rw [step_newline cfg db st2 e1, case_newline_eq]
    simp only [e6, hskip, if_false]
  rw [main_loop_append, hst2, Option.some_bind, main_loop_cons, hstep, Option.some_bind,
    main_loop_nil]
  exact ⟨_, rfl, e7, e8, e10, e11, by simp [e6], by simp [e9], e12, ⟨rfl, rfl, rfl, rfl, e1⟩⟩

theorem roster_of_x_add (a b : Nat) : roster_of_x (a + b) = roster_of_x a ++ roster_of_x b := by
  induction b with
  | zero => simp [roster_of_x]
  | succ b ih =>
    show roster_of_x (a + b) ++ ['x', NEWLINE] = roster_of_x a ++ (roster_of_x b ++ ['x', NEWLINE])
    rw [ih, List.append_assoc]

theorem roster_of_x_count (k : Nat) : (roster_of_x k).count NEWLINE = k := by
  induction k with
  | zero => rfl
  | succ k ih =>
    show (roster_of_x k ++ ['x', NEWLINE]).count NEWLINE = k + 1
    rw [List.count_append, ih]
    rfl

theorem roster_of_x_no_backslash (k : Nat) : BACKSLASH ∉ roster_of_x k := by
  induction k with
  | zero => simp [roster_of_x]
  | succ k ih =>
    show BACKSLASH ∉ roster_of_x k ++ ['x', NEWLINE]
    rw [List.mem_append]
    rintro (h | h)
    · exact ih h
    · revert h
      decide

theorem create_x (g : Session) (hconn : g.G_conn = true) :
    (create_account okDb (some ['x']) (some ['x']) none g).1 = true ∧
    (create_account okDb (some ['x']) (some ['x']) none g).2.G_conn = true := by
  rw [create_account_eq okDb ['x'] ['x'] none g hconn]
  simp [provision_flow, provisioning_script, exec_until_fail, PQexec, okDb, hconn]

/-- One line `x` read in create mode on a server that accepts everything, when
the line counter exceeds `skip = 0`: the account `x` is created and counted. -/
theorem line_of_x_created (st : State) (hstart : line_start st) (hconn : st.g.G_conn = true)
    (hskip : 0 < wrap16 (st.linecnt + 1)) :
    ∃ st1 : State,
      main_loop (default_config CREATE) okDb (['x'] ++ [NEWLINE]) st = some st1 ∧
      st1.calls = st.calls ++ [Call.mk (st.phys + 1) true ['x'] (some ['x']) true] ∧
      st1.g.G_conn = true ∧ st1.cnt = wrap16 (st.cnt + 1) ∧
      st1.linecnt = wrap16 (st.linecnt + 1) ∧ st1.phys = st.phys + 1 ∧
      st1.exited = st.exited ∧ line_start st1 := by
  obtain ⟨st1, h1, h2, h3, h4, -, h6, h7, h8, h9⟩ :=
    plain_line_run (default_config CREATE) okDb st ['x'] 0 0 hstart rfl (by decide) rfl
      (by decide) (by decide) (by decide) (by decide) (by decide) (by decide) (by decide)
      (by decide) (by decide) hskip
  have hf : field_at (default_config CREATE).G_sep 0 ['x'] = ['x'] := by decide
  have hl : lifecycle (default_config CREATE) okDb ['x'] ['x'] st.g =
      create_account okDb (some ['x']) (some ['x']) none st.g := by
    simp [lifecycle, default_config]
  rw [hf, hl] at h2 h3 h4
  obtain ⟨d1, d2⟩ := create_x st.g hconn
  refine ⟨st1, h1, ?_, ?_, ?_, h6, h7, h8, h9⟩
  · rw [h2, d1]
    simp [default_config]
  · rw [h3, d2]
  · rw [h4, d1]
    simp

/-- One line `x` read with `skip = 0` when the line counter does not exceed
0: nothing is dispatched. -/
theorem line_of_x_skipped (db : Oracle) (st : State) (hstart : line_start st)
    (hskip : ¬ 0 < wrap16 (st.linecnt + 1)) :
    ∃ st1 : State,
      main_loop (default_config CREATE) db (['x'] ++ [NEWLINE]) st = some st1 ∧
      st1.calls = st.calls ∧ st1.g = st.g ∧ st1.cnt = st.cnt ∧ st1.out = st.out ∧
      st1.linecnt = wrap16 (st.linecnt + 1) ∧ st1.phys = st.phys + 1 ∧
      st1.exited = st.exited ∧ line_start st1 :=
  plain_line_skipped (default_config CREATE) db st ['x'] 0 0 hstart rfl (by decide) rfl
    (by decide) (by decide) (by decide) (by decide) (by decide) (by decide) (by decide) hskip

/-- The first 32767 lines of a roster of lines `x`, in create mode with the
default configuration on a server that accepts everything: every line is
dispatched and counted. -/
theorem created_run (k : Nat) (hk : k ≤ 32767) :
    ∃ st : State,
      main_loop (default_config CREATE) okDb (roster_of_x k) (init blank blank connected)
        = some st ∧
      line_start st ∧ st.g.G_conn = true ∧ st.linecnt = (k : Int) ∧ st.phys = k ∧
      st.cnt = (k : Int) ∧
      st.calls = (List.range k).map (fun i => Call.mk (i + 1) true ['x'] (some ['x']) true) ∧
      st.exited = false := by
  induction k with
  | zero =>
    exact ⟨_, rfl, line_start_init _ _ _, rfl, rfl, rfl, rfl, rfl, rfl⟩
  | succ k ih =>
    obtain ⟨st, h0, h1, h2, h4, h5, h6, h8, h10⟩ := ih (by omega)
    have hskip : 0 < wrap16 (st.linecnt + 1) := by
      rw [h4]; unfold wrap16; omega
    obtain ⟨st1, g1, g2, g3, g4, g5, g6, g7, g8⟩ := line_of_x_created st h1 h2 hskip
    refine ⟨st1, ?_, g8, g3, ?_, ?_, ?_, ?_, ?_⟩
    · show main_loop _ _ (roster_of_x k ++ ['x', NEWLINE]) _ = _
      rw [main_loop_append, h0, Option.some_bind]
      exact g1
    · rw [g5, h4]; unfold wrap16; push_cast; omega
    · rw [g6, h5]
    · rw [g4, h6]; unfold wrap16; push_cast; omega
    · rw [g2, h8, h5, List.range_succ, List.map_append]
      rfl
    · rw [g7, h10]

/-- Lines `x` read with `skip = 0` while the line counter stays at or below 0:
none of them is dispatched. -/
theorem skipped_run (db : Oracle) (j : Nat) :
    ∀ st : State, line_start st → -32768 ≤ st.linecnt → st.linecnt + (j : Int) ≤ 0 →
      ∃ st1 : State,
        main_loop (default_config CREATE) db (roster_of_x j) st = some st1 ∧
        st1.calls = st.calls ∧ st1.g = st.g ∧ st1.cnt = st.cnt ∧ st1.out = st.out ∧
        st1.linecnt = st.linecnt + (j : Int) ∧ st1.phys = st.phys + j ∧
        st1.exited = st.exited ∧ line_start st1 := by
  induction j with
  | zero =>
    intro st hs _ _
    exact ⟨st, rfl, rfl, rfl, rfl, rfl, by simp, rfl, rfl, hs⟩
  | succ j ih =>
    intro st hs hlo hhi
    obtain ⟨st1, h0, h1, h2, h3, h4, h5, h6, h7, h8⟩ := ih st hs hlo (by push_cast at hhi; omega)
    have hskip : ¬ 0 < wrap16 (st1.linecnt + 1) := by
      rw [h5]; unfold wrap16; push_cast at hhi; omega
    obtain ⟨st2, g0, g1, g2, g3, g4, g5, g6, g7, g8⟩ := line_of_x_skipped db st1 h8 hskip
    refine ⟨st2, ?_, g1.trans h1, g2.trans h2, g3.trans h3, g4.trans h4, ?_, ?_, g7.trans h7, g8⟩
    · show main_loop _ _ (roster_of_x j ++ ['x', NEWLINE]) _ = _
      rw [main_loop_append, h0, Option.some_bind]
      exact g0
    · rw [g5, h5]; unfold wrap16; push_cast at hhi ⊢; omega
    · rw [g6, h6]; omega
theorem roster_of_x_one : roster_of_x 1 = ['x'] ++ [NEWLINE] := rfl

/-- The state of the read loop after the roster of `32767 + 1 + j` lines `x`
with `j ≤ 32768`, in create mode with the default configuration on a server
that accepts everything: the first 32767 lines have been dispatched, the line
counter has wrapped at line 32768 and none of the later lines has been
dispatched. -/
theorem wrapped_run (j : Nat) (hj : j ≤ 32768) :
    ∃ st : State,
      main_loop (default_config CREATE) okDb (roster_of_x (32767 + 1 + j))
        (init blank blank connected) = some st ∧
      line_start st ∧ st.g.G_conn = true ∧ st.linecnt = -32768 + (j : Int) ∧
      st.phys = 32768 + j ∧ st.cnt = 32767 ∧
      st.calls = (List.range 32767).map
        (fun i => Call.mk (i + 1) true ['x'] (some ['x']) true) ∧
      st.exited = false := by
  obtain ⟨s1, a0, a1, a2, a3, a4, a5, a6, a7⟩ := created_run 32767 (le_refl _)
  have hskip : ¬ 0 < wrap16 (s1.linecnt + 1) := by
    rw [a3]; decide
  obtain ⟨s2, b0, b1, b2, b3, -, b5, b6, b7, b8⟩ := line_of_x_skipped okDb s1 a1 hskip
  have hl2 : s2.linecnt = -32768 := by
    rw [b5, a3]; decide
  obtain ⟨s3, c0, c1, c2, c3, -, c5, c6, c7, c8⟩ := skipped_run okDb j s2 b8
    (by rw [hl2]) (by rw [hl2]; omega)
  refine ⟨s3, ?_, c8, ?_, ?_, ?_, ?_, ?_, ?_⟩
  · rw [roster_of_x_add, roster_of_x_add, roster_of_x_one, main_loop_append, main_loop_append,
      a0, Option.some_bind, b0, Option.some_bind]
    exact c0
  · rw [c2, b2]; exact a2
  · rw [c5, hl2]
  · rw [c6, b6, a4]
  · rw [c3, b3, a5]; rfl
  · rw [c1, b1, a6]
  · rw [c7, b7, a7]

/-- **C11** (success tally), the code at the failing input. The tally `cnt` is
a `short`. In create mode with the default configuration, on a server that
accepts every statement, the roster of 65537 lines `x` is read to its end:
32768 calls of `create_account` are made (for the lines 1 to 32767 and for the
line 65537, the line counter having wrapped in between) and all of them return
success, but the tally wraps from 32767 to -32768 at the last one and the
summary line reads `*** -32768 accounts created ***`. -/
theorem tally_overflow_in_a_run :
    ∃ st : State,
      main_read (default_config CREATE) okDb (roster_of_x 65537) blank blank = some st ∧
      st.exited = false ∧
      st.calls.length = 32768 ∧ (∀ c ∈ st.calls, c.ok = true) ∧ tally st.calls = 32768 ∧
      st.cnt = -32768 ∧
      st.out.getLast? = some "*** -32768 accounts created ***\n".toList := by
  obtain ⟨s1, a0, a1, a2, a3, a4, a5, a6, a7⟩ := wrapped_run 32768 (le_refl _)
  have hskip : 0 < wrap16 (s1.linecnt + 1) := by
    rw [a3]; decide
  obtain ⟨s2, b0, b1, b2, b3, b4, b5, b6, b7⟩ := line_of_x_created s1 a1 a2 hskip
  have hrun : main_loop (default_config CREATE) okDb (roster_of_x 65537)
      (init blank blank connected) = some s2 := by
    show main_loop _ _ (roster_of_x (32767 + 1 + 32768) ++ ['x', NEWLINE]) _ = _
    rw [main_loop_append, a0, Option.some_bind]
    exact b0
  have hesc : s2.esc = false := b7.2.2.2.2
  have hall : ∀ c ∈ s2.calls, c.ok = true := by
    intro c hc
    rw [b1, a6, List.mem_append, List.mem_map, List.mem_singleton] at hc
    rcases hc with ⟨i, -, rfl⟩ | rfl <;> rfl
  have hlen : s2.calls.length = 32768 := by
    rw [b1, a6]
    simp
  have htally : tally s2.calls = 32768 := by
    unfold tally
    rw [List.filter_eq_self.2 (fun c hc => hall c hc), hlen]
  have hcnt : s2.cnt = -32768 := by
    rw [b3, a5]; decide
  refine ⟨at_eof (default_config CREATE) s2, ?_, ?_, ?_, ?_, ?_, ?_, ?_⟩
  · simp [main_read, hrun]
  · simp [at_eof, hesc, b6, a7]
  · simpa [at_eof, hesc] using hlen
  · simpa [at_eof, hesc] using hall
  · simpa [at_eof, hesc] using htally
  · simpa [at_eof, hesc] using hcnt
  · simp only [at_eof, hesc, Bool.false_eq_true, if_false, hcnt, List.getLast?_concat]
    decide

/-- The scenario of the description for **C11**: the roster of two records
`alice` and `bob` with id-field 2 and secret-field 3, every statement
succeeding, ends with `*** 2 accounts created ***`. -/
theorem two_accounts_created :
    (main_read (Config.mk ',' 2 3 0 CREATE none) okDb
        "1,alice,secretpw\n2,bob,hunter2\n".toList blank blank).map
        (fun s => (s.calls, s.out, s.exited)) =
      some ([Call.mk 1 true "alice".toList (some "secretpw".toList) true,
             Call.mk 2 true "bob".toList (some "hunter2".toList) true],
            [" -- account alice created\n".toList, " -- account bob created\n".toList,
             "*** 2 accounts created ***\n".toList], false) := by
  decide

/-! ## The read loop: a backslash at the end of the roster -/

theorem main_loop_no_newline (cfg : Config) (db : Oracle) (l : List Char) (st0 st : State)
    (h : main_loop cfg db l st0 = some st) (hnl : NEWLINE ∉ l) :
    st.calls = st0.calls ∧ st.g = st0.g ∧ st.cnt = st0.cnt ∧ st.out = st0.out ∧
    st.exited = st0.exited := by
  induction l generalizing st0 with
  | nil =>
    rw [main_loop_nil] at h
    cases h
    exact ⟨rfl, rfl, rfl, rfl, rfl⟩
  | cons ch l ih =>
    rw [main_loop_cons] at h
    simp only [Option.bind_eq_some] at h
    obtain ⟨st1, h1, h2⟩ := h
    obtain ⟨i1, i2, i3, i4, i5⟩ := ih st1 h2 (fun hh => hnl (List.mem_cons_of_mem _ hh))
    rcases step_cases cfg db st0 st1 ch h1 with ⟨k1, k2, k3, k4, k5, -⟩ | ⟨hn, -⟩
    · exact ⟨i1.trans k1, i2.trans k2, i3.trans k3, i4.trans k4, i5.trans k5⟩
    · exact absurd (by simp [hn]) hnl

/-- **C12** (truncated escape at end of stream). Let the read loop, started by
`main`, consume the roster `R` and end with no escape pending. Then the run on
`R` followed by one final backslash is defined (no access outside the arrays)
and ends in `exit(0)` from the escape case: the calls of the lifecycle
manager, the session with its log of statements, the tally and the lines
printed are exactly those of the run on `R`, and no summary line is printed.
These calls are those made for the complete lines of `R`: if `R` is `A ++ B`
where `B`, the unterminated last line, holds no newline, they are the calls of
the run on `A`. -/
theorem trailing_backslash_stops_cleanly (cfg : Config) (db : Oracle) (R : List Char)
    (a0 p0 : Buf) (st : State)
    (h : main_loop cfg db R (init a0 p0 connected) = some st) (hesc : st.esc = false) :
    main_read cfg db (R ++ [BACKSLASH]) a0 p0 =
      some { st with esc := true, exited := true } ∧
    (∃ st1, main_read cfg db (R ++ [BACKSLASH]) a0 p0 = some st1 ∧
      st1.exited = true ∧ st1.calls = st.calls ∧ st1.g = st.g ∧ st1.cnt = st.cnt ∧
      st1.out = st.out) ∧
    (∀ A B : List Char, R = A ++ B → NEWLINE ∉ B →
      ∃ stA, main_loop cfg db A (init a0 p0 connected) = some stA ∧
        st.calls = stA.calls ∧ st.g = stA.g ∧ st.cnt = stA.cnt ∧ st.out = stA.out) := by
  have hrun : main_read cfg db (R ++ [BACKSLASH]) a0 p0 =
      some { st with esc := true, exited := true } := by
    unfold main_read
    rw [main_loop_append, h, Option.some_bind, main_loop_cons, step_backslash cfg db st hesc,
      Option.some_bind, main_loop_nil]
    simp [at_eof]
  refine ⟨hrun, ⟨_, hrun, rfl, rfl, rfl, rfl, rfl⟩, ?_⟩
  intro A B hR hB
  subst hR
  rw [main_loop_append] at h
  simp only [Option.bind_eq_some] at h
  obtain ⟨stA, hA, hB2⟩ := h
  obtain ⟨k1, k2, k3, k4, -⟩ := main_loop_no_newline cfg db B stA st hB2 hB
  exact ⟨stA, hA, k1, k2, k3, k4⟩

/-- Witness of **C12**: a complete record followed by a line cut by a final
backslash; the only call is the one for `alice`, and the run ends in
`exit(0)` without a summary line. -/
theorem trailing_backslash_stops_cleanly_witness :
    (main_read (Config.mk ',' 1 2 0 CREATE none) okDb "alice,pw\nbob,pw2\\".toList blank
        blank).map (fun s => (s.calls, s.out, s.exited)) =
      some ([Call.mk 1 true "alice".toList (some "pw".toList) true],
            [" -- account alice created\n".toList], true) ∧
    ∃ st st1,
      main_loop (Config.mk ',' 1 2 0 CREATE none) okDb "alice,pw\nbob,pw2".toList
        (init blank blank connected) = some st ∧ st.esc = false ∧
      main_read (Config.mk ',' 1 2 0 CREATE none) okDb ("alice,pw\nbob,pw2".toList ++ [BACKSLASH])
        blank blank = some st1 ∧
      st1.exited = true ∧ st1.calls = st.calls := by
  refine ⟨by decide, ?_⟩
  obtain ⟨st, hst⟩ := Option.isSome_iff_exists.1
    (by decide : (main_loop (Config.mk ',' 1 2 0 CREATE none) okDb "alice,pw\nbob,pw2".toList
      (init blank blank connected)).isSome = true)
  have hesc : st.esc = false := by
    have := congrArg (Option.map State.esc) hst
    have h2 : (main_loop (Config.mk ',' 1 2 0 CREATE none) okDb "alice,pw\nbob,pw2".toList
      (init blank blank connected)).map State.esc = some false := by decide
    rw [h2] at this
    simpa using this.symm
  obtain ⟨-, ⟨st1, h1, h2, h3, -⟩, -⟩ := trailing_backslash_stops_cleanly
    (Config.mk ',' 1 2 0 CREATE none) okDb "alice,pw\nbob,pw2".toList blank blank st hst hesc
  exact ⟨st, st1, hst, hesc, h1, h2, h3⟩

/-! ## Transaction bracketing -/

theorem provisioning_script_plain (id pwd : List Char) (role : Option (List Char)) :
    ∀ c ∈ provisioning_script id pwd role,
      c ≠ stmt_start ∧ c ≠ stmt_commit ∧ c ≠ stmt_rollback ∧ c ≠ stmt_savepoint := by
  intro c hc
  cases role <;>
    simp [provisioning_script, stmt_create_user, stmt_create_schema, stmt_alter_role,
      stmt_grant] at hc <;>
    rcases hc with rfl | rfl | rfl | rfl <;>
    simp [stmt_commit, stmt_start, stmt_rollback, stmt_savepoint]

theorem savepoints_released_of_none (l : List (List Char)) (h : ∀ s ∈ l, s ≠ stmt_savepoint) :
    savepoints_released l = true := by
  induction l with
  | nil => rfl
  | cons s l ih =>
    have h1 : s ≠ stmt_savepoint := h s (by simp)
    simp only [savepoints_released, h1, if_false, Bool.true_and]
    exact ih (fun t ht => h t (List.mem_cons_of_mem _ ht))

theorem provision_flow_bracketed (db : Oracle) (id pwd : List Char)
    (role : Option (List Char)) (g : Session) :
    bracketed ((issued g (provision_flow db id pwd role g).2).map Exec.stmt) := by
  obtain ⟨es, h1, h2, -⟩ := provision_flow_log db id pwd role g
  have hmem : ∀ s ∈ es.map Exec.stmt, s ∈ provisioning_script id pwd role :=
    fun s hs => h2.subset hs
  refine ⟨es.map Exec.stmt,
    (if (provision_flow db id pwd role g).1 = false then stmt_rollback else stmt_commit),
    ?_, ?_, ?_, ?_⟩
  · rw [h1]
    simp
  · split_ifs
    · exact Or.inr rfl
    · exact Or.inl rfl
  · intro s hs
    obtain ⟨a, b, c, -⟩ := provisioning_script_plain id pwd role s (hmem s hs)
    exact ⟨a, b, c⟩
  · exact savepoints_released_of_none _
      (fun s hs => (provisioning_script_plain id pwd role s (hmem s hs)).2.2.2)

theorem deprovision_flow_stmts (db : Oracle) (id : List Char) (g : Session) :
    (issued g (deprovision_flow db id g).2).map Exec.stmt =
      stmt_start ::
        (([stmt_drop_schema (drop_schema_name id), stmt_savepoint,
           stmt_drop_owned (drop_login_name id)]
          ++ (if (dep_owned db id g).1 = false then [stmt_rollback_to] else [])
          ++ [stmt_release]
          ++ (if (dep_schema db id g).1 = false then []
              else [stmt_drop_user (drop_login_name id)]))
         ++ [if (deprovision_flow db id g).1 = false then stmt_rollback else stmt_commit]) := by
  rw [deprovision_flow_log]
  by_cases h1 : (dep_owned db id g).1 = false <;>
    by_cases h2 : (dep_schema db id g).1 = false <;>
    simp [h1, h2]

theorem deprovision_flow_bracketed (db : Oracle) (id : List Char) (g : Session) :
    bracketed ((issued g (deprovision_flow db id g).2).map Exec.stmt) := by
  rw [deprovision_flow_stmts]
  refine ⟨_, _, rfl, ?_, ?_, ?_⟩
  · split_ifs
    · exact Or.inr rfl
    · exact Or.inl rfl
  · intro s hs
    have hcases : s = stmt_drop_schema (drop_schema_name id) ∨ s = stmt_savepoint ∨
        s = stmt_drop_owned (drop_login_name id) ∨ s = stmt_rollback_to ∨ s = stmt_release ∨
        s = stmt_drop_user (drop_login_name id) := by
      by_cases h1 : (dep_owned db id g).1 = false <;>
        by_cases h2 : (dep_schema db id g).1 = false <;>
        simp [h1, h2] at hs <;> tauto
    rcases hcases with rfl | rfl | rfl | rfl | rfl | rfl <;>
      simp [stmt_drop_schema, stmt_savepoint, stmt_drop_owned, stmt_rollback_to, stmt_release,
        stmt_drop_user, stmt_start, stmt_commit, stmt_rollback]
  · by_cases h1 : (dep_owned db id g).1 = false <;>
      by_cases h2 : (dep_schema db id g).1 = false <;>
      simp [h1, h2, savepoints_released, stmt_drop_schema, stmt_savepoint, stmt_drop_owned,
        stmt_rollback_to, stmt_release, stmt_drop_user]

/-- **C13** (transaction bracketing). On a live connection, whatever the
identifier and the behaviour of the database, the texts of the statements
executed by one call of `create_account`, and by one call of `delete_account`,
form a bracketed list: the first is `start transaction`, the last is `commit`
or `rollback`, none of these three occurs in between, and every `savepoint sv`
in between is followed by a `release savepoint sv` before the last
statement. -/
theorem transaction_bracketing (db : Oracle) (id pwd : List Char) (role : Option (List Char))
    (g : Session) (hconn : g.G_conn = true) :
    bracketed ((issued g (create_account db (some id) (some pwd) role g).2).map Exec.stmt) ∧
    bracketed ((issued g (delete_account db (some id) g).2).map Exec.stmt) := by
  rw [create_account_eq db id pwd role g hconn, delete_account_eq db id g hconn]
  exact ⟨provision_flow_bracketed db id pwd role g, deprovision_flow_bracketed db id g⟩

/-- Witness of **C13**: the account `bob` on a server where no account
exists, so that the drop-owned statement fails inside its savepoint. -/
theorem transaction_bracketing_witness :
    connected.G_conn = true ∧
    (issued connected (delete_account missingDb (some "bob".toList) connected).2).map Exec.stmt =
      ["start transaction".toList, "drop schema if exists bob cascade".toList,
       "savepoint sv".toList, "drop owned by bob restrict".toList,
       "rollback to savepoint sv".toList, "release savepoint sv".toList,
       "drop user if exists bob".toList, "rollback".toList] ∧
    bracketed ((issued connected
      (create_account missingDb (some "bob".toList) (some "pw".toList) none connected).2).map
        Exec.stmt) ∧
    bracketed ((issued connected
      (delete_account missingDb (some "bob".toList) connected).2).map Exec.stmt) :=
  ⟨rfl, by decide,
   transaction_bracketing missingDb "bob".toList "pw".toList none connected rfl⟩

/-! ## The read loop: newlines -/

theorem cstr_set0_nul (buf : Buf) : cstr (set0 buf NUL) = [] := by
  show cstrAux (set0 buf NUL) (249 + 1) 0 = []
  simp [cstrAux, set0]

/-- **C14** as stated fails: a newline that follows a backslash is read by the
escape case and does not end the line. After the bytes `a`, backslash,
newline, one newline byte has been read but the line counter is still 0, the
`a` is still in the buffer and no record has been dispatched; the roster
`a\<newline>b,pw<newline>` holds two newline bytes and gives one record, with
the identifier `ab`. -/
theorem escaped_newline_does_not_end_line :
    (main_loop (Config.mk ',' 1 2 0 CREATE none) okDb ['a', BACKSLASH, NEWLINE]
        (init blank blank connected)).map
        (fun s => (s.phys, s.linecnt, s.aidx, s.account 0, s.calls)) =
      some (1, 0, 1, 'a', []) ∧
    (main_loop (Config.mk ',' 1 2 0 CREATE none) okDb
        (['a', BACKSLASH, NEWLINE] ++ "b,pw\n".toList) (init blank blank connected)).map
        (fun s => (s.phys, s.linecnt, s.calls)) =
      some (2, 1, [Call.mk 2 true "ab".toList (some "pw".toList) true]) := by
  decide

/-- **C14** (newline as terminator), amended. In every state of the read loop
with both buffer indices inside their arrays: a newline byte read when no
escape is pending ends the line whatever the quote flag and the field counter
are: the line counter is incremented, the field counter is reset to 1, the
quote flag to false, both indices to 0 and both buffers to the empty string;
if the line counter now exceeds `skip` the identifier and the secret are
terminated where they stand and handed to the lifecycle manager, otherwise no
call is made. A newline byte read as the byte that follows a backslash is
consumed by the escape: it only ends the escape, and the line counter, the
field counter, the quote flag, the buffers and the record of calls are
unchanged. -/
theorem newline_ends_line_unless_escaped (cfg : Config) (db : Oracle) (st : State)
    (ha : 0 ≤ st.aidx ∧ st.aidx < ID_LEN) (hp : 0 ≤ st.pidx ∧ st.pidx < ID_LEN) :
    (st.esc = false →
      ∃ st1 : State, step cfg db st NEWLINE = some st1 ∧
        st1.linecnt = wrap16 (st.linecnt + 1) ∧ st1.fieldnum = 1 ∧ st1.blind = 0 ∧
        st1.aidx = 0 ∧ st1.pidx = 0 ∧ cstr st1.account = [] ∧ cstr st1.defpass = [] ∧
        st1.phys = st.phys + 1 ∧ st1.esc = false ∧
        (cfg.skip < wrap16 (st.linecnt + 1) →
          ∃ acc dp : Buf,
            store st.account st.aidx NUL = some acc ∧ store st.defpass st.pidx NUL = some dp ∧
            st1.calls = st.calls ++
              [Call.mk (st.phys + 1) (decide (cfg.op = CREATE)) (cstr acc)
                (if cfg.op = CREATE then some (cstr dp) else none)
                (lifecycle cfg db (cstr acc) (cstr dp) st.g).1]) ∧
        (¬ cfg.skip < wrap16 (st.linecnt + 1) → st1.calls = st.calls ∧ st1.g = st.g)) ∧
    (st.esc = true →
      step cfg db st NEWLINE = some { st with esc := false, phys := st.phys + 1 }) := by
  constructor
  · intro hesc
    have hacc := store_some st.account st.aidx NUL ha.1 ha.2
    have hdp := store_some st.defpass st.pidx NUL hp.1 hp.2
    by_cases hs : cfg.skip < wrap16 (st.linecnt + 1)
    · refine ⟨_, step_newline_dispatch cfg db st _ _ hesc hs hacc hdp, rfl, rfl, rfl, rfl, rfl,
        cstr_set0_nul _, cstr_set0_nul _, rfl, hesc, ?_, fun h => absurd hs h⟩
      intro _
      exact ⟨_, _, hacc, hdp, rfl⟩
    · have hstep : step cfg db st NEWLINE =
          some { st with phys := st.phys + 1, linecnt := wrap16 (st.linecnt + 1), fieldnum := 1,
                         blind := 0, account := set0 st.account NUL, aidx := 0,
                         defpass := set0 st.defpass NUL, pidx := 0 } := by
        rw [step_newline cfg db st hesc, case_newline_eq]
        simp only [hs, if_false]
      exact ⟨_, hstep, rfl, rfl, rfl, rfl, rfl, cstr_set0_nul _, cstr_set0_nul _, rfl, hesc,
        fun h => absurd h hs, fun _ => ⟨rfl, rfl⟩⟩
  · intro hesc
    rw [step_esc cfg db st NEWLINE hesc]
    simp

/-- Witness of **C14** (amended): the newline read inside an open quote at the
start of a roster ends line 1 and resets the quote flag. -/
theorem newline_ends_line_unless_escaped_witness :
    (main_loop (Config.mk ',' 1 2 0 CREATE none) okDb [DQUOTE, 'a', NEWLINE]
        (init blank blank connected)).map
        (fun s => (s.linecnt, s.fieldnum, s.blind, s.calls)) =
      some (1, 1, 0, [Call.mk 1 true "a".toList (some []) true]) ∧
    (0 ≤ (init blank blank connected).aidx ∧ (init blank blank connected).aidx < ID_LEN) ∧
    (0 ≤ (init blank blank connected).pidx ∧ (init blank blank connected).pidx < ID_LEN) ∧
    ∃ st1 : State,
      step (Config.mk ',' 1 2 0 CREATE none) okDb (init blank blank connected) NEWLINE =
        some st1 ∧
      st1.linecnt = wrap16 ((init blank blank connected).linecnt + 1) ∧ st1.fieldnum = 1 ∧
      st1.blind = 0 := by
  refine ⟨by decide, by decide, by decide, ?_⟩
  obtain ⟨st1, h1, h2, h3, h4, -⟩ :=
    (newline_ends_line_unless_escaped (Config.mk ',' 1 2 0 CREATE none) okDb
      (init blank blank connected) (by decide) (by decide)).1 rfl
  exact ⟨st1, h1, h2, h3, h4⟩

/-! ## The read loop: bytes that are dropped -/

/-- A separator read inside quotes changes nothing at all: the state after it
is the state before it, so the byte ends no field and is stored nowhere. -/
theorem quoted_separator_leaves_state (cfg : Config) (db : Oracle) (st : State)
    (hesc : st.esc = false) (hblind : st.blind ≠ 0)
    (hq : cfg.G_sep ≠ DQUOTE) (hb : cfg.G_sep ≠ BACKSLASH) (hn : cfg.G_sep ≠ NEWLINE) :
    step cfg db st cfg.G_sep = some st := by
  rw [step_sep cfg db st _ hesc hq hb hn rfl, case_sep_eq, if_neg hblind]

/-- A backslash and the byte that follows it change nothing in the state but
the count of newline bytes read: the escaped byte is stored nowhere. -/
theorem escaped_byte_leaves_state (cfg : Config) (db : Oracle) (st : State) (c : Char)
    (hesc : st.esc = false) :
    main_loop cfg db [BACKSLASH, c] st =
      some { st with phys := st.phys + (if c = NEWLINE then 1 else 0) } := by
  rw [main_loop_cons, step_backslash cfg db st hesc, Option.some_bind, main_loop_cons,
    step_esc cfg db _ c rfl, Option.some_bind, main_loop_nil]
  cases st
  simp only at hesc
  subst hesc
  rfl

/-- **C15** (quoted separators as field content), the code at the failing
input. With separator `,`, id-field 1 and secret-field 2, the line
`"Smith,John",pw` followed by a newline is dispatched with the identifier
`SmithJohn`: the separator read inside the quotes is not appended to the
field, while every other byte between the quotes is. -/
theorem quoted_separator_is_dropped :
    (main_loop (Config.mk ',' 1 2 0 CREATE none) okDb "\"Smith,John\",pw\n".toList
        (init blank blank connected)).map State.calls =
      some [Call.mk 1 true "SmithJohn".toList (some "pw".toList) true] ∧
    (main_loop (Config.mk ',' 1 2 0 CREATE none) okDb "\"Smith,John\",pw\n".toList
        (init blank blank connected)).map (fun s => s.g.log.map Exec.stmt) =
      some ["start transaction".toList, "create user SmithJohn with password 'pw'".toList,
        "create schema SmithJohn authorization SmithJohn".toList,
        "alter role SmithJohn set search_path to SmithJohn,public".toList,
        "commit".toList] ∧
    "SmithJohn".toList ≠ "Smith,John".toList := by
  decide

/-- **C16** (escaped characters taken verbatim), the code at the failing
input. With separator `,`, id-field 1 and secret-field 2, the line `a\,b,pw`
followed by a newline is dispatched with the identifier `ab`: the byte that
follows the backslash is read and discarded, it does not become part of the
field. The same happens to an escaped letter: `a\xb,pw` also gives `ab`. -/
theorem escaped_byte_is_dropped :
    (main_loop (Config.mk ',' 1 2 0 CREATE none) okDb
        (['a', BACKSLASH] ++ ",b,pw\n".toList) (init blank blank connected)).map State.calls =
      some [Call.mk 1 true "ab".toList (some "pw".toList) true] ∧
    (main_loop (Config.mk ',' 1 2 0 CREATE none) okDb
        (['a', BACKSLASH] ++ "xb,pw\n".toList) (init blank blank connected)).map State.calls =
      some [Call.mk 1 true "ab".toList (some "pw".toList) true] ∧
    "ab".toList ≠ "a,b".toList := by
  decide

/-! ## The number of dispatched lines -/

/-- What a byte read by the loop condition (no escape pending) does to the
counters and to the list of calls. -/
theorem step_line (cfg : Config) (db : Oracle) (st st1 : State) (ch : Char)
    (h : step cfg db st ch = some st1) (hesc : st.esc = false) :
    st1.esc = decide (ch = BACKSLASH) ∧
    ((ch ≠ NEWLINE ∧ st1.phys = st.phys ∧ st1.linecnt = st.linecnt ∧ st1.calls = st.calls) ∨
     (ch = NEWLINE ∧ st1.phys = st.phys + 1 ∧ st1.linecnt = wrap16 (st.linecnt + 1) ∧
       ((¬ cfg.skip < wrap16 (st.linecnt + 1) ∧ st1.calls = st.calls) ∨
        (cfg.skip < wrap16 (st.linecnt + 1) ∧
          ∃ c : Call, st1.calls = st.calls ++ [c] ∧ c.line = st.phys + 1)))) := by
  by_cases hq : ch = DQUOTE
  · subst hq
    rw [step_quote cfg db st hesc] at h
    cases h
    exact ⟨by simp [hesc]; decide, Or.inl ⟨by decide, rfl, rfl, rfl⟩⟩
  by_cases hb : ch = BACKSLASH
  · subst hb
    rw [step_backslash cfg db st hesc] at h
    cases h
    exact ⟨by simp, Or.inl ⟨by decide, rfl, rfl, rfl⟩⟩
  have hd : decide (ch = BACKSLASH) = false := by simpa using hb
  rw [hd]
  by_cases hn : ch = NEWLINE
  · subst hn
    by_cases hs : cfg.skip < wrap16 (st.linecnt + 1)
    · rw [step_newline cfg db st hesc, case_newline_eq] at h
      simp only [hs, if_true, dispatch_eq, Option.map_eq_some', Option.bind_eq_some] at h
      obtain ⟨s, ⟨acc, -, dp, -, hs2⟩, rfl⟩ := h
      cases hs2
      exact ⟨hesc, Or.inr ⟨rfl, rfl, rfl, Or.inr ⟨hs, _, rfl, rfl⟩⟩⟩
    · rw [step_newline cfg db st hesc, case_newline_eq] at h
      simp only [hs, if_false] at h
      cases h
      exact ⟨hesc, Or.inr ⟨rfl, rfl, rfl, Or.inl ⟨hs, rfl⟩⟩⟩
  by_cases hs : ch = cfg.G_sep
  · rw [step_sep cfg db st ch hesc hq hb hn hs] at h
    obtain ⟨h1, h2, -, -, -, h6, h7, -⟩ := case_sep_frame cfg st st1 h
    exact ⟨h7.trans hesc, Or.inl ⟨hn, h6, h1, h2⟩⟩
  · rw [step_other cfg db st ch hesc hq hb hn hs] at h
    obtain ⟨h1, h2, -, -, -, h6, h7, -⟩ := case_other_frame cfg st st1 ch h
    exact ⟨h7.trans hesc, Or.inl ⟨hn, h6, h1, h2⟩⟩

theorem count_newline_cons (ch : Char) (l : List Char) :
    (ch :: l).count NEWLINE = l.count NEWLINE + (if ch = NEWLINE then 1 else 0) := by
  by_cases hn : ch = NEWLINE
  · simp [hn]
  · have hn2 : ¬ (ch == NEWLINE) = true := by simpa using hn
    simp [List.count_cons, hn, hn2]

/-- On a roster without backslash, while the line counter has not reached
32767, the line counter is the number of newline bytes read, and the calls
made are, in file order, one for each line whose index exceeds `skip`. -/
theorem main_loop_lines (cfg : Config) (db : Oracle) (l : List Char) (st0 st : State)
    (h : main_loop cfg db l st0 = some st) (hb : BACKSLASH ∉ l) (hesc : st0.esc = false)
    (hl : st0.linecnt = (st0.phys : Int)) (hbound : st0.phys + l.count NEWLINE ≤ 32767) :
    st.esc = false ∧ st.linecnt = (st.phys : Int) ∧ st.phys = st0.phys + l.count NEWLINE ∧
    st.calls.map Call.line = st0.calls.map Call.line ++
      (List.range' (st0.phys + 1) (l.count NEWLINE)).filter
        (fun p : Nat => decide (cfg.skip < (p : Int))) := by
  induction l generalizing st0 with
  | nil =>
    rw [main_loop_nil] at h
    cases h
    simp [hesc, hl]
  | cons ch l ih =>
    rw [main_loop_cons] at h
    simp only [Option.bind_eq_some] at h
    obtain ⟨st1, h1, h2⟩ := h
    have hch : ch ≠ BACKSLASH := fun hh => hb (by simp [hh])
    have hb1 : BACKSLASH ∉ l := fun hh => hb (List.mem_cons_of_mem _ hh)
    rw [count_newline_cons] at hbound ⊢
    obtain ⟨e1, hcase⟩ := step_line cfg db st0 st1 ch h1 hesc
    have hesc1 : st1.esc = false := by simpa [hch] using e1
    rcases hcase with ⟨hn, k1, k2, k3⟩ | ⟨hn, k1, k2, hdisp⟩
    · simp only [hn, if_false, Nat.add_zero] at hbound ⊢
      obtain ⟨i1, i2, i3, i4⟩ := ih st1 h2 hb1 hesc1 (by rw [k2, k1]; exact hl)
        (by rw [k1]; exact hbound)
      rw [k1] at i3 i4
      rw [k3] at i4
      exact ⟨i1, i2, i3, i4⟩
    · simp only [hn, if_true] at hbound ⊢
      have hl1 : st1.linecnt = (st1.phys : Int) := by
        rw [k2, k1, hl]
        unfold wrap16
        push_cast
        omega
      have hw : wrap16 (st0.linecnt + 1) = ((st0.phys + 1 : Nat) : Int) := by
        rw [← k1, ← hl1, k2]
      obtain ⟨i1, i2, i3, i4⟩ := ih st1 h2 hb1 hesc1 hl1 (by rw [k1]; omega)
      rw [k1] at i3 i4
      refine ⟨i1, i2, by omega, ?_⟩
      rw [i4, List.range'_succ, List.filter_cons]
      rcases hdisp with ⟨hs, hc⟩ | ⟨hs, c, hc, hline⟩
      · rw [hw] at hs
        push_cast at hs
        simp [hs, hc]
      · rw [hw] at hs
        push_cast at hs
        simp [hs, hc, hline]

theorem range_filter_above (k s : Nat) :
    ((List.range' 1 k).filter (fun p : Nat => decide ((s : Int) < (p : Int)))).length = k - s := by
  induction k with
  | zero => simp
  | succ k ih =>
    rw [List.range'_concat, List.filter_append, List.length_append, ih]
    by_cases h : s < 1 + k
    · have h2 : (s : Int) < ((1 + 1 * k : Nat) : Int) := by push_cast; omega
      rw [List.filter_cons_of_pos (by simpa using h2)]
      simp only [List.filter_nil, List.length_singleton]
      omega
    · have h2 : ¬ (s : Int) < ((1 + 1 * k : Nat) : Int) := by push_cast; omega
      rw [List.filter_cons_of_neg (by simpa using h2)]
      simp only [List.filter_nil, List.length_nil]
      omega

/-- Supplement to **C17**: as long as the 16-bit line counter does not
overflow, that is for a roster of at most 32767 lines, the count of the claim
holds: on a roster without backslash read to its end, the lifecycle manager is
called exactly once, in file order, for each newline-terminated physical line
whose 1-based index exceeds `skip`; with `k` newline bytes and `skip = s ≥ 0`
that makes `k - s` calls (none when `k ≤ s`), whatever follows the last
newline. -/
theorem dispatch_count_without_overflow (cfg : Config) (db : Oracle) (roster : List Char)
    (a0 p0 : Buf) (g : Session) (st : State) (s : Nat)
    (h : main_loop cfg db roster (init a0 p0 g) = some st)
    (hb : BACKSLASH ∉ roster) (hskip : cfg.skip = (s : Int))
    (hk : roster.count NEWLINE ≤ 32767) :
    st.calls.map Call.line =
      (List.range' 1 (roster.count NEWLINE)).filter (fun p => decide (s < p)) ∧
    st.calls.length = roster.count NEWLINE - s := by
  obtain ⟨-, -, -, h4⟩ := main_loop_lines cfg db roster (init a0 p0 g) st h hb rfl rfl
    (by simpa [init] using hk)
  have h5 : st.calls.map Call.line =
      (List.range' 1 (roster.count NEWLINE)).filter
        (fun p : Nat => decide ((s : Int) < (p : Int))) := by
    simpa [init, hskip] using h4
  refine ⟨?_, ?_⟩
  · rw [h5]
    congr 1
    funext p
    simp
  · have := congrArg List.length h5
    rw [List.length_map, range_filter_above] at this
    exact this

/-- **C17** (dispatch count), the code at the failing input. The line counter
`linecnt` is a `short`. In create mode with the default configuration
(`skip = 0`), on a server that accepts every statement, the roster of 32768
lines `x`, which holds no backslash, is read to its end and only 32767 calls
of the lifecycle manager are made: at the newline of line 32768 the counter
wraps from 32767 to -32768, the test `linecnt > skip` fails and the line is not
dispatched. The lines that follow are not dispatched either while the counter
is negative or zero: the roster of 65536 lines also gives 32767 calls. -/
theorem line_counter_overflow_in_a_run :
    BACKSLASH ∉ roster_of_x 32768 ∧ (roster_of_x 32768).count NEWLINE = 32768 ∧
    (∃ st : State,
      main_read (default_config CREATE) okDb (roster_of_x 32768) blank blank = some st ∧
      st.exited = false ∧ st.linecnt = -32768 ∧ st.calls.length = 32767 ∧
      (∀ c ∈ st.calls, c.line ≤ 32767)) ∧
    (roster_of_x 65536).count NEWLINE = 65536 ∧
    (∃ st : State,
      main_read (default_config CREATE) okDb (roster_of_x 65536) blank blank = some st ∧
      st.exited = false ∧ st.linecnt = 0 ∧ st.calls.length = 32767) := by
  have key : ∀ j : Nat, j ≤ 32768 →
      ∃ st : State,
        main_read (default_config CREATE) okDb (roster_of_x (32767 + 1 + j)) blank blank
          = some st ∧
        st.exited = false ∧ st.linecnt = -32768 + (j : Int) ∧ st.calls.length = 32767 ∧
        (∀ c ∈ st.calls, c.line ≤ 32767) := by
    intro j hj
    obtain ⟨s1, a0, a1, a2, a3, a4, a5, a6, a7⟩ := wrapped_run j hj
    have hesc : s1.esc = false := a1.2.2.2.2
    refine ⟨at_eof (default_config CREATE) s1, by simp [main_read, a0], ?_, ?_, ?_, ?_⟩
    · simp [at_eof, hesc, a7]
    · simp [at_eof, hesc, a3]
    · simp [at_eof, hesc, a6]
    · simp only [at_eof, hesc, Bool.false_eq_true, if_false, a6]
      intro c hc
      rw [List.mem_map] at hc
      obtain ⟨i, hi, rfl⟩ := hc
      rw [List.mem_range] at hi
      show i + 1 ≤ 32767
      omega
  refine ⟨roster_of_x_no_backslash _, roster_of_x_count _, ?_, roster_of_x_count _, ?_⟩
  · obtain ⟨st, h1, h2, h3, h4, h5⟩ := key 0 (by omega)
    exact ⟨st, h1, h2, by simpa using h3, h4, h5⟩
  · obtain ⟨st, h1, h2, h3, h4, -⟩ := key 32768 (le_refl _)
    exact ⟨st, h1, h2, by rw [h3]; decide, h4⟩

/-! ## The statements of `delete_account` -/

/-- **C18** (deprovision statement sequence). On a live connection, whatever
the identifier and the behaviour of the database, `delete_account` executes
`start transaction`, the drop-schema statement, `savepoint sv` and the
drop-owned statement, whether or not the drop-schema statement succeeded; then
`rollback to savepoint sv` if and only if the drop-owned statement failed;
then `release savepoint sv`; then the drop-user statement if and only if the
drop-schema statement succeeded; and last `commit` when it returns success,
`rollback` when it returns failure. -/
theorem delete_account_statement_sequence (db : Oracle) (id : List Char) (g : Session)
    (hconn : g.G_conn = true) :
    ∃ (s0 e1 s2 e3 : Exec) (rest : List Exec),
      issued g (delete_account db (some id) g).2 = s0 :: e1 :: s2 :: e3 :: rest ∧
      s0.stmt = stmt_start ∧
      e1.stmt = stmt_drop_schema (drop_schema_name id) ∧
      s2.stmt = stmt_savepoint ∧
      e3.stmt = stmt_drop_owned (drop_login_name id) ∧
      rest.map Exec.stmt =
        (if e3.ok = false then [stmt_rollback_to] else []) ++ [stmt_release] ++
        (if e1.ok = true then [stmt_drop_user (drop_login_name id)] else []) ++
        [if (delete_account db (some id) g).1 = true then stmt_commit else stmt_rollback] := by
  rw [delete_account_eq db id g hconn, deprovision_flow_log]
  refine ⟨_, _, _, _, _, rfl, rfl, rfl, rfl, rfl, ?_⟩
  have e1 : (PQentry db (dep_started db g) (stmt_drop_schema (drop_schema_name id))).ok =
      (dep_schema db id g).1 := rfl
  have e3 : (PQentry db (dep_saved db id g) (stmt_drop_owned (drop_login_name id))).ok =
      (dep_owned db id g).1 := rfl
  rw [e1, e3]
  cases h1 : (dep_owned db id g).1 <;> cases h2 : (dep_schema db id g).1 <;>
    cases h3 : (deprovision_flow db id g).1 <;> simp

/-- Witness of **C18**: the account `bob` on a server where no account
exists: the drop-owned statement fails and is rolled back to the savepoint,
the drop-schema statement succeeds so that the drop-user statement is
executed, and its notice makes the call end with `rollback`. -/
theorem delete_account_statement_sequence_witness :
    connected.G_conn = true ∧
    (issued connected (delete_account missingDb (some "bob".toList) connected).2).map
        (fun e => (e.stmt, e.ok)) =
      [("start transaction".toList, true), ("drop schema if exists bob cascade".toList, true),
       ("savepoint sv".toList, true), ("drop owned by bob restrict".toList, false),
       ("rollback to savepoint sv".toList, true), ("release savepoint sv".toList, true),
       ("drop user if exists bob".toList, true), ("rollback".toList, true)] ∧
    ∃ (s0 e1 s2 e3 : Exec) (rest : List Exec),
      issued connected (delete_account missingDb (some "bob".toList) connected).2 =
        s0 :: e1 :: s2 :: e3 :: rest ∧
      rest.map Exec.stmt =
        (if e3.ok = false then [stmt_rollback_to] else []) ++ [stmt_release] ++
        (if e1.ok = true then [stmt_drop_user (drop_login_name "bob".toList)] else []) ++
        [if (delete_account missingDb (some "bob".toList) connected).1 = true then stmt_commit
         else stmt_rollback] := by
  refine ⟨rfl, by decide, ?_⟩
  obtain ⟨s0, e1, s2, e3, rest, h1, -, -, -, -, h2⟩ :=
    delete_account_statement_sequence missingDb "bob".toList connected rfl
  exact ⟨s0, e1, s2, e3, rest, h1, h2⟩

/-! ## Auxiliary statements and control flow -/

theorem iterate_notice_warnings_congr (n : Nat) (g1 g2 : Session)
    (h : g1.G_warnings = g2.G_warnings) :
    (Nat.iterate ignore_notice n g1).G_warnings = (Nat.iterate ignore_notice n g2).G_warnings := by
  induction n generalizing g1 g2 with
  | zero => exact h
  | succ n ih =>
    simp only [Function.iterate_succ, Function.comp_apply]
    exact ih _ _ (by simp [ignore_notice, h])

theorem aux_equiv_refl (l : List Exec) : aux_equiv l l := by
  induction l with
  | nil => exact List.Forall₂.nil
  | cons e l ih => exact List.Forall₂.cons ⟨rfl, rfl, rfl, rfl, fun _ => rfl⟩ ih

theorem aux_equiv_stmts {l1 l2 : List Exec} (h : aux_equiv l1 l2) :
    l1.map Exec.stmt = l2.map Exec.stmt := by
  induction h with
  | nil => rfl
  | cons he _ ih => simp [he.1, ih]

theorem aux_equiv_length {l1 l2 : List Exec} (h : aux_equiv l1 l2) : l1.length = l2.length :=
  List.Forall₂.length_eq h

theorem PQexec_aux (db1 db2 : Oracle) (hagree : agree_but_auxiliary db1 db2)
    (g1 g2 : Session) (cmd : List Char) (hs : aux_sessions g1 g2) :
    aux_sessions (PQexec db1 g1 cmd).2 (PQexec db2 g2 cmd).2 ∧
    (auxiliary cmd = false → (PQexec db1 g1 cmd).1 = (PQexec db2 g2 cmd).1) := by
  obtain ⟨h1, h2, h3⟩ := hs
  obtain ⟨hn, hok⟩ := hagree g1.log g2.log cmd h3
  have hw : (Nat.iterate ignore_notice (db1 g1.log cmd).notices g1).G_warnings =
      (Nat.iterate ignore_notice (db2 g2.log cmd).notices g2).G_warnings := by
    rw [hn]
    exact iterate_notice_warnings_congr _ g1 g2 h2
  refine ⟨⟨?_, ?_, ?_⟩, ?_⟩
  · simp [h1]
  · rw [PQexec_warnings, PQexec_warnings]
    exact hw
  · rw [PQexec_log, PQexec_log]
    exact List.rel_append h3 (List.Forall₂.cons ⟨rfl, hn, h2, hw, hok⟩ List.Forall₂.nil)
  · exact hok

theorem exec_until_fail_aux (db1 db2 : Oracle) (hagree : agree_but_auxiliary db1 db2)
    (cs : List (List Char)) (hcs : ∀ c ∈ cs, auxiliary c = false) (g1 g2 : Session)
    (hs : aux_sessions g1 g2) :
    (exec_until_fail db1 cs g1).1 = (exec_until_fail db2 cs g2).1 ∧
    aux_sessions (exec_until_fail db1 cs g1).2 (exec_until_fail db2 cs g2).2 := by
  induction cs generalizing g1 g2 with
  | nil => exact ⟨rfl, hs⟩
  | cons c cs ih =>
    obtain ⟨h1, h2⟩ := PQexec_aux db1 db2 hagree g1 g2 c hs
    have h3 := h2 (hcs c (by simp))
    by_cases hf : (PQexec db1 g1 c).1 = false
    · have hf2 : (PQexec db2 g2 c).1 = false := by rw [← h3]; exact hf
      simp only [exec_until_fail, hf, hf2, if_true]
      exact ⟨trivial, h1⟩
    · have hf2 : ¬ (PQexec db2 g2 c).1 = false := by rw [← h3]; exact hf
      simp only [exec_until_fail, hf, hf2, if_false]
      exact ih (fun d hd => hcs d (List.mem_cons_of_mem _ hd)) _ _ h1

theorem provisioning_script_not_auxiliary (id pwd : List Char) (role : Option (List Char)) :
    ∀ c ∈ provisioning_script id pwd role, auxiliary c = false := by
  intro c hc
  cases role <;>
    simp [provisioning_script, stmt_create_user, stmt_create_schema, stmt_alter_role,
      stmt_grant] at hc <;>
    rcases hc with rfl | rfl | rfl | rfl <;>
    simp [auxiliary, stmt_commit, stmt_start, stmt_rollback, stmt_savepoint, stmt_rollback_to,
      stmt_release]

theorem drop_statements_not_auxiliary (n : List Char) :
    auxiliary (stmt_drop_schema n) = false ∧ auxiliary (stmt_drop_owned n) = false ∧
    auxiliary (stmt_drop_user n) = false := by
  refine ⟨?_, ?_, ?_⟩ <;>
    simp [auxiliary, stmt_drop_schema, stmt_drop_owned, stmt_drop_user, stmt_commit, stmt_start,
      stmt_rollback, stmt_savepoint, stmt_rollback_to, stmt_release]

theorem provision_flow_aux (db1 db2 : Oracle) (hagree : agree_but_auxiliary db1 db2)
    (id pwd : List Char) (role : Option (List Char)) (g1 g2 : Session)
    (hs : aux_sessions g1 g2) :
    (provision_flow db1 id pwd role g1).1 = (provision_flow db2 id pwd role g2).1 ∧
    aux_sessions (provision_flow db1 id pwd role g1).2 (provision_flow db2 id pwd role g2).2 := by
  have h0 := (PQexec_aux db1 db2 hagree g1 g2 stmt_start hs).1
  obtain ⟨h1, h2⟩ := exec_until_fail_aux db1 db2 hagree (provisioning_script id pwd role)
    (provisioning_script_not_auxiliary id pwd role) _ _ h0
  unfold provision_flow
  simp only []
  rw [h1]
  exact ⟨rfl, (PQexec_aux db1 db2 hagree _ _ _ h2).1⟩

theorem deprovision_flow_aux (db1 db2 : Oracle) (hagree : agree_but_auxiliary db1 db2)
    (id : List Char) (g1 g2 : Session) (hs : aux_sessions g1 g2) :
    (deprovision_flow db1 id g1).1 = (deprovision_flow db2 id g2).1 ∧
    aux_sessions (deprovision_flow db1 id g1).2 (deprovision_flow db2 id g2).2 := by
  obtain ⟨n1, n2, n3⟩ := drop_statements_not_auxiliary (drop_schema_name id)
  obtain ⟨m1, m2, m3⟩ := drop_statements_not_auxiliary (drop_login_name id)
  have a0 : aux_sessions (dep_started db1 g1) (dep_started db2 g2) :=
    (PQexec_aux db1 db2 hagree g1 g2 stmt_start hs).1
  obtain ⟨a1, b1⟩ := PQexec_aux db1 db2 hagree _ _ (stmt_drop_schema (drop_schema_name id)) a0
  have c1 : (dep_schema db1 id g1).1 = (dep_schema db2 id g2).1 := b1 n1
  have a2 : aux_sessions (dep_saved db1 id g1) (dep_saved db2 id g2) :=
    (PQexec_aux db1 db2 hagree _ _ stmt_savepoint a1).1
  obtain ⟨a3, b3⟩ := PQexec_aux db1 db2 hagree _ _ (stmt_drop_owned (drop_login_name id)) a2
  have c3 : (dep_owned db1 id g1).1 = (dep_owned db2 id g2).1 := b3 m2
  have a4 : aux_sessions (dep_undone db1 id g1) (dep_undone db2 id g2) := by
    unfold dep_undone
    rw [c3]
    by_cases hf : (dep_owned db2 id g2).1 = false
    · simp only [hf, if_true]
      exact (PQexec_aux db1 db2 hagree _ _ stmt_rollback_to a3).1
    · simp only [hf, if_false]
      exact a3
  have a5 : aux_sessions (dep_released db1 id g1) (dep_released db2 id g2) :=
    (PQexec_aux db1 db2 hagree _ _ stmt_release a4).1
  obtain ⟨a6, b6⟩ := PQexec_aux db1 db2 hagree _ _ (stmt_drop_user (drop_login_name id)) a5
  have c6 : (dep_user db1 id g1).1 = (dep_user db2 id g2).1 := b6 m3
  have w5 : (dep_released db1 id g1).G_warnings = (dep_released db2 id g2).G_warnings := a5.2.1
  have w6 : (dep_user db1 id g1).2.G_warnings = (dep_user db2 id g2).2.G_warnings := a6.2.1
  have a6' : aux_sessions (dep_user db1 id g1).2 (dep_user db2 id g2).2 := a6
  unfold deprovision_flow
  rw [c1, c6, w5, w6]
  by_cases h1 : (dep_schema db2 id g2).1 = false
  · simp only [h1, if_true]
    exact ⟨trivial, (PQexec_aux db1 db2 hagree _ _ stmt_rollback a5).1⟩
  · by_cases h6 : (dep_user db2 id g2).1 = false
    · simp only [h1, h6, if_true, if_false]
      exact ⟨rfl, (PQexec_aux db1 db2 hagree _ _ stmt_rollback a6').1⟩
    · by_cases hw : (dep_user db2 id g2).2.G_warnings > (dep_released db2 id g2).G_warnings
      · simp only [h1, h6, hw, if_true, if_false]
        exact ⟨rfl, (PQexec_aux db1 db2 hagree _ _ stmt_rollback a6').1⟩
      · simp only [h1, h6, hw, if_false]
        exact ⟨rfl, (PQexec_aux db1 db2 hagree _ _ stmt_commit a6').1⟩

theorem issued_stmts_of_aux (g g1 g2 : Session) (h : aux_sessions g1 g2) :
    (issued g g1).map Exec.stmt = (issued g g2).map Exec.stmt := by
  unfold issued
  rw [List.map_drop, List.map_drop, aux_equiv_stmts h.2.2]

theorem commit_only_on_success (db : Oracle) (id pwd : List Char) (role : Option (List Char))
    (g : Session) (e : Exec) (he : e ∈ issued g (provision_flow db id pwd role g).2)
    (hc : e.stmt = stmt_commit) : (provision_flow db id pwd role g).1 = true := by
  obtain ⟨es, h1, h2, -⟩ := provision_flow_log db id pwd role g
  rw [h1] at he
  simp only [List.mem_cons, List.mem_append, List.mem_singleton, List.not_mem_nil, or_false] at he
  rcases he with rfl | he | rfl
  · exact absurd hc (by simpa using stmt_start_ne_commit)
  · exact absurd hc (provisioning_script_ne_commit id pwd role _
      (h2.subset (List.mem_map_of_mem _ he)))
  · by_cases hr : (provision_flow db id pwd role g).1 = false
    · simp only [PQentry_stmt, hr, if_true] at hc
      exact absurd hc stmt_rollback_ne_commit
    · simpa using hr

/-- **C19** (auxiliary statements never alter control flow). Let two database
behaviours agree on the notices of every statement and on the outcome of every
provisioning and deprovisioning statement, and differ at most in whether
`start transaction`, `commit`, `rollback`, `savepoint sv`, `rollback to
savepoint sv` and `release savepoint sv` succeed. On a live connection, for
every identifier, `create_account` returns the same result and executes the
same sequence of statements on both, and so does `delete_account`. In
particular `commit` is executed only by a call that returns success, whether
the `commit` itself succeeds or fails, and the read loop counts that call in
the tally. -/
theorem auxiliary_outcomes_never_alter_control_flow (db1 db2 : Oracle) (id pwd : List Char)
    (role : Option (List Char)) (g : Session) (hconn : g.G_conn = true)
    (hagree : agree_but_auxiliary db1 db2) :
    (create_account db1 (some id) (some pwd) role g).1 =
      (create_account db2 (some id) (some pwd) role g).1 ∧
    (issued g (create_account db1 (some id) (some pwd) role g).2).map Exec.stmt =
      (issued g (create_account db2 (some id) (some pwd) role g).2).map Exec.stmt ∧
    (delete_account db1 (some id) g).1 = (delete_account db2 (some id) g).1 ∧
    (issued g (delete_account db1 (some id) g).2).map Exec.stmt =
      (issued g (delete_account db2 (some id) g).2).map Exec.stmt ∧
    (∀ e ∈ issued g (create_account db1 (some id) (some pwd) role g).2,
      e.stmt = stmt_commit → (create_account db1 (some id) (some pwd) role g).1 = true) ∧
    (∀ (cfg : Config) (st : State) (acc dp : Buf),
      (lifecycle cfg db1 (cstr acc) (cstr dp) st.g).1 = true →
      (dispatched cfg db1 st acc dp).cnt = wrap16 (st.cnt + 1)) := by
  have hs : aux_sessions g g := ⟨rfl, rfl, aux_equiv_refl _⟩
  rw [create_account_eq db1 id pwd role g hconn, create_account_eq db2 id pwd role g hconn,
    delete_account_eq db1 id g hconn, delete_account_eq db2 id g hconn]
  obtain ⟨c1, c2⟩ := provision_flow_aux db1 db2 hagree id pwd role g g hs
  obtain ⟨d1, d2⟩ := deprovision_flow_aux db1 db2 hagree id g g hs
  refine ⟨c1, issued_stmts_of_aux g _ _ c2, d1, issued_stmts_of_aux g _ _ d2, ?_, ?_⟩
  · intro e he hc
    exact commit_only_on_success db1 id pwd role g e he hc
  · intro cfg st acc dp hok
    simp [dispatched, hok]

/-- Witness of **C19**: the server that accepts everything and the server that
rejects every `commit`. The account `alice` is created with the same
statements on both; on the second the `commit` fails, the call still returns
success and the run prints `*** 1 account created ***`. -/
theorem auxiliary_outcomes_never_alter_control_flow_witness :
    connected.G_conn = true ∧
    agree_but_auxiliary okDb (rejecting stmt_commit) ∧
    (issued connected (create_account (rejecting stmt_commit) (some "alice".toList)
        (some "pw".toList) none connected).2).map (fun e => (e.stmt, e.ok)) =
      [("start transaction".toList, true),
       ("create user alice with password 'pw'".toList, true),
       ("create schema alice authorization alice".toList, true),
       ("alter role alice set search_path to alice,public".toList, true),
       ("commit".toList, false)] ∧
    (main_read (Config.mk ',' 1 2 0 CREATE none) (rejecting stmt_commit) "alice,pw\n".toList
        blank blank).map State.out =
      some [" -- account alice created\n".toList, "*** 1 account created ***\n".toList] ∧
    (create_account okDb (some "alice".toList) (some "pw".toList) none connected).1 =
      (create_account (rejecting stmt_commit) (some "alice".toList) (some "pw".toList) none
        connected).1 ∧
    (issued connected (create_account okDb (some "alice".toList) (some "pw".toList) none
        connected).2).map Exec.stmt =
      (issued connected (create_account (rejecting stmt_commit) (some "alice".toList)
        (some "pw".toList) none connected).2).map Exec.stmt := by
  have hagree : agree_but_auxiliary okDb (rejecting stmt_commit) := by
    intro l1 l2 cmd _
    refine ⟨rfl, ?_⟩
    intro haux
    have hne : cmd ≠ stmt_commit := by
      intro h
      rw [h] at haux
      revert haux
      decide
    simp [okDb, rejecting, hne]
  refine ⟨rfl, hagree, by decide, by decide, ?_, ?_⟩
  · exact (auxiliary_outcomes_never_alter_control_flow okDb (rejecting stmt_commit)
      "alice".toList "pw".toList none connected rfl hagree).1
  · exact (auxiliary_outcomes_never_alter_control_flow okDb (rejecting stmt_commit)
      "alice".toList "pw".toList none connected rfl hagree).2.1

/-! ## Lines after a long roster -/

theorem roster_of_x_getLast (k : Nat) (hk : 0 < k) :
    (roster_of_x k).getLast? = some NEWLINE := by
  obtain ⟨k, rfl⟩ : ∃ j, k = j + 1 := ⟨k - 1, by omega⟩
  show (roster_of_x k ++ ['x', NEWLINE]).getLast? = some NEWLINE
  rw [show roster_of_x k ++ ['x', NEWLINE] = (roster_of_x k ++ ['x']) ++ [NEWLINE] by simp]
  exact List.getLast?_concat _

/-- **C20** (per-line independence), the code at the failing input. Let `A`
be the roster of 32767 lines `x` and `B` the single line `x`; neither holds a
backslash, `A` ends with a newline, and `skip = 0`. Read alone from the
initial state, `B` gives one record. Read after `A`, it gives none: the
records of `A` followed by `B` are those of `A`, 32767 of them, because the
line counter carried over from `A` wraps to -32768 at the newline of `B` and
the line is not dispatched. -/
theorem line_after_long_roster_is_lost :
    BACKSLASH ∉ roster_of_x 32767 ∧ BACKSLASH ∉ roster_of_x 1 ∧
    (roster_of_x 32767).getLast? = some NEWLINE ∧
    (default_config CREATE).skip = 0 ∧
    (main_loop (default_config CREATE) okDb (roster_of_x 1) (init blank blank connected)).map
        (fun s => records s.calls) = some [(['x'], some ['x'])] ∧
    ∃ stA stAB : State,
      main_loop (default_config CREATE) okDb (roster_of_x 32767) (init blank blank connected)
        = some stA ∧
      main_loop (default_config CREATE) okDb (roster_of_x 32767 ++ roster_of_x 1)
        (init blank blank connected) = some stAB ∧
      records stAB.calls = records stA.calls ∧
      (records stA.calls).length = 32767 ∧
      records stAB.calls ≠ records stA.calls ++ [(['x'], some ['x'])] := by
  refine ⟨roster_of_x_no_backslash _, roster_of_x_no_backslash _, roster_of_x_getLast 32767 (by omega),
    rfl, by decide, ?_⟩
  · obtain ⟨s1, a0, a1, a2, a3, a4, a5, a6, a7⟩ := created_run 32767 (le_refl _)
    obtain ⟨s2, b0, b1, b2, b3, b4, b5, b6, b7⟩ := wrapped_run 0 (by omega)
    have hlen : (records s1.calls).length = 32767 := by
      simp [records, a6]
    refine ⟨s1, s2, a0, ?_, ?_, hlen, ?_⟩
    · rw [Nat.add_zero, roster_of_x_add] at b0
      exact b0
    · rw [a6, b6]
    · intro h
      have hlen2 : (records s2.calls).length = 32767 := by
        rw [b6, ← a6]
        exact hlen
      have := congrArg List.length h
      rw [List.length_append, hlen, hlen2, List.length_singleton] at this
      omega

/-! ## The bounds of the two arrays -/

theorem step_newline_defined (cfg : Config) (db : Oracle) (st : State) (hesc : st.esc = false)
    (ha : 0 ≤ st.aidx ∧ st.aidx < ID_LEN) (hp : 0 ≤ st.pidx ∧ st.pidx < ID_LEN) :
    ∃ st1 : State, step cfg db st NEWLINE = some st1 ∧ st1.esc = false ∧ st1.blind = 0 ∧
      st1.fieldnum = 1 ∧ st1.aidx = 0 ∧ st1.pidx = 0 := by
  by_cases hs : cfg.skip < wrap16 (st.linecnt + 1)
  · exact ⟨_, step_newline_dispatch cfg db st _ _ hesc hs
      (store_some st.account st.aidx NUL ha.1 ha.2)
      (store_some st.defpass st.pidx NUL hp.1 hp.2), hesc, rfl, rfl, rfl, rfl⟩
  · have hstep : step cfg db st NEWLINE =
        some { st with phys := st.phys + 1, linecnt := wrap16 (st.linecnt + 1), fieldnum := 1,
                       blind := 0, account := set0 st.account NUL, aidx := 0,
                       defpass := set0 st.defpass NUL, pidx := 0 } := by
      rw [step_newline cfg db st hesc, case_newline_eq]
      simp only [hs, if_false]
    exact ⟨_, hstep, hesc, rfl, rfl, rfl, rfl⟩

theorem step_sep_defined (cfg : Config) (db : Oracle) (st : State) (hesc : st.esc = false)
    (hblind : st.blind = 0)
    (hq : cfg.G_sep ≠ DQUOTE) (hb : cfg.G_sep ≠ BACKSLASH) (hn : cfg.G_sep ≠ NEWLINE)
    (ha : 0 ≤ st.aidx ∧ st.aidx < ID_LEN) (hp : 0 ≤ st.pidx ∧ st.pidx < ID_LEN) :
    ∃ st1 : State, step cfg db st cfg.G_sep = some st1 ∧ st1.esc = false ∧ st1.blind = 0 ∧
      st1.fieldnum = wrap16 (st.fieldnum + 1) ∧
      st1.aidx = (if wrap16 (st.fieldnum + 1) = cfg.G_id then 0 else st.aidx) ∧
      st1.pidx = (if wrap16 (st.fieldnum + 1) = cfg.G_pwd then 0 else st.pidx) := by
  rw [step_sep cfg db st _ hesc hq hb hn rfl, case_sep_eq, if_pos hblind]
  have h1 : ∃ acc, (if st.fieldnum = cfg.G_id then store st.account st.aidx NUL
      else some st.account) = some acc := by
    by_cases h : st.fieldnum = cfg.G_id
    · exact ⟨_, by rw [if_pos h]; exact store_some st.account st.aidx NUL ha.1 ha.2⟩
    · exact ⟨_, by rw [if_neg h]⟩
  have h2 : ∃ dp, (if st.fieldnum = cfg.G_pwd then store st.defpass st.pidx NUL
      else some st.defpass) = some dp := by
    by_cases h : st.fieldnum = cfg.G_pwd
    · exact ⟨_, by rw [if_pos h]; exact store_some st.defpass st.pidx NUL hp.1 hp.2⟩
    · exact ⟨_, by rw [if_neg h]⟩
  obtain ⟨acc, hacc⟩ := h1
  obtain ⟨dp, hdp⟩ := h2
  rw [hacc, Option.some_bind, hdp, Option.some_bind]
  exact ⟨_, rfl, hesc, hblind, rfl, rfl, rfl⟩

theorem step_other_defined (cfg : Config) (db : Oracle) (st : State) (ch : Char)
    (hesc : st.esc = false)
    (hq : ch ≠ DQUOTE) (hb : ch ≠ BACKSLASH) (hn : ch ≠ NEWLINE) (hs : ch ≠ cfg.G_sep)
    (ha : 0 ≤ st.aidx) (ha2 : st.fieldnum = cfg.G_id → st.aidx < 249)
    (hp : 0 ≤ st.pidx) (hp2 : st.fieldnum = cfg.G_pwd → st.pidx < 249) :
    ∃ st1 : State, step cfg db st ch = some st1 ∧ st1.esc = false ∧ st1.blind = st.blind ∧
      st1.fieldnum = st.fieldnum ∧
      st1.aidx = (if st.fieldnum = cfg.G_id then st.aidx + 1 else st.aidx) ∧
      st1.pidx = (if st.fieldnum = cfg.G_pwd then st.pidx + 1 else st.pidx) := by
  rw [step_other cfg db st ch hesc hq hb hn hs, case_other_eq]
  have h1 : ∃ acc, (if st.fieldnum = cfg.G_id then
        (store st.account st.aidx ch).map (fun b => (b, wrap16 (st.aidx + 1)))
      else some (st.account, st.aidx)) =
      some (acc, if st.fieldnum = cfg.G_id then st.aidx + 1 else st.aidx) := by
    by_cases h : st.fieldnum = cfg.G_id
    · have hlt := ha2 h
      refine ⟨fun j => if j = st.aidx.toNat then ch else st.account j, ?_⟩
      rw [if_pos h, if_pos h, store_some st.account st.aidx ch ha (by unfold ID_LEN; omega),
        Option.map_some', wrap16_small _ ha (by omega)]
    · exact ⟨st.account, by rw [if_neg h, if_neg h]⟩
  have h2 : ∃ dp, (if st.fieldnum = cfg.G_pwd then
        (store st.defpass st.pidx ch).map (fun b => (b, wrap16 (st.pidx + 1)))
      else some (st.defpass, st.pidx)) =
      some (dp, if st.fieldnum = cfg.G_pwd then st.pidx + 1 else st.pidx) := by
    by_cases h : st.fieldnum = cfg.G_pwd
    · have hlt := hp2 h
      refine ⟨fun j => if j = st.pidx.toNat then ch else st.defpass j, ?_⟩
      rw [if_pos h, if_pos h, store_some st.defpass st.pidx ch hp (by unfold ID_LEN; omega),
        Option.map_some', wrap16_small _ hp (by omega)]
    · exact ⟨st.defpass, by rw [if_neg h, if_neg h]⟩
  obtain ⟨acc, hacc⟩ := h1
  obtain ⟨dp, hdp⟩ := h2
  rw [hacc, Option.some_bind, hdp, Option.some_bind]
  exact ⟨_, rfl, hesc, rfl, rfl, rfl, rfl⟩
theorem step_tracks (cfg : Config) (db : Oracle) (st : State) (s : Fill) (ch : Char)
    (ht : tracks st s) (hna : s.na ≤ 249) (hnp : s.np ≤ 249)
    (hfa : (fill_step cfg s ch).na ≤ 249) (hfp : (fill_step cfg s ch).np ≤ 249) :
    ∃ st1 : State, step cfg db st ch = some st1 ∧ tracks st1 (fill_step cfg s ch) := by
  obtain ⟨t1, t2, t3, t4, t5⟩ := ht
  have ha : 0 ≤ st.aidx ∧ st.aidx < ID_LEN := by rw [t4]; unfold ID_LEN; omega
  have hp : 0 ≤ st.pidx ∧ st.pidx < ID_LEN := by rw [t5]; unfold ID_LEN; omega
  by_cases he : s.esc = true
  · have hf : fill_step cfg s ch = { s with esc := false } := by simp [fill_step, he]
    rw [hf]
    exact ⟨_, step_esc cfg db st ch (t1.trans he), rfl, t2, t3, t4, t5⟩
  have he : s.esc = false := by simpa using he
  have hesc : st.esc = false := t1.trans he
  by_cases hq : ch = DQUOTE
  · subst hq
    have hf : fill_step cfg s DQUOTE = { s with quoted := !s.quoted } := by
      simp [fill_step, he]
    rw [hf]
    refine ⟨_, step_quote cfg db st hesc, hesc.trans he.symm, ?_, t3, t4, t5⟩
    show (st.blind + 1) % 2 = _
    rw [t2]
    cases s.quoted <;> rfl
  by_cases hb : ch = BACKSLASH
  · subst hb
    have hf : fill_step cfg s BACKSLASH = { s with esc := true } := by
      simp [fill_step, he, hq]
    rw [hf]
    exact ⟨_, step_backslash cfg db st hesc, rfl, t2, t3, t4, t5⟩
  by_cases hn : ch = NEWLINE
  · subst hn
    have hf : fill_step cfg s NEWLINE =
        { esc := false, quoted := false, fieldnum := 1, na := 0, np := 0 } := by
      simp [fill_step, he, hq, hb]
    rw [hf]
    obtain ⟨st1, h1, h2, h3, h4, h5, h6⟩ := step_newline_defined cfg db st hesc ha hp
    exact ⟨st1, h1, h2, h3, h4, by simpa using h5, by simpa using h6⟩
  by_cases hs : ch = cfg.G_sep
  · subst hs
    by_cases hquo : s.quoted = true
    · have hf : fill_step cfg s cfg.G_sep = s := by
        simp [fill_step, he, hq, hb, hn, hquo]
      rw [hf]
      have hblind : st.blind ≠ 0 := by rw [t2, hquo]; decide
      exact ⟨st, quoted_separator_leaves_state cfg db st hesc hblind hq hb hn,
        t1, t2, t3, t4, t5⟩
    · have hquo : s.quoted = false := by simpa using hquo
      have hf : fill_step cfg s cfg.G_sep =
          { s with
            fieldnum := wrap16 (s.fieldnum + 1),
            na := if wrap16 (s.fieldnum + 1) = cfg.G_id then 0 else s.na,
            np := if wrap16 (s.fieldnum + 1) = cfg.G_pwd then 0 else s.np } := by
        simp [fill_step, he, hq, hb, hn, hquo]
      rw [hf]
      have hblind : st.blind = 0 := by rw [t2, hquo]; rfl
      obtain ⟨st1, h1, h2, h3, h4, h5, h6⟩ := step_sep_defined cfg db st hesc hblind hq hb hn ha hp
      refine ⟨st1, h1, h2.trans he.symm, ?_, ?_, ?_, ?_⟩
      · rw [h3, hquo]; rfl
      · rw [h4, t3]
      · rw [h5, t3, t4]
        show _ = ((if wrap16 (s.fieldnum + 1) = cfg.G_id then 0 else s.na : Nat) : Int)
        split_ifs <;> simp
      · rw [h6, t3, t5]
        show _ = ((if wrap16 (s.fieldnum + 1) = cfg.G_pwd then 0 else s.np : Nat) : Int)
        split_ifs <;> simp
  · have hf : fill_step cfg s ch =
        { s with
          na := if s.fieldnum = cfg.G_id then s.na + 1 else s.na,
          np := if s.fieldnum = cfg.G_pwd then s.np + 1 else s.np } := by
      simp [fill_step, he, hq, hb, hn, hs]
    rw [hf] at hfa hfp ⊢
    simp only at hfa hfp
    have ha2 : st.fieldnum = cfg.G_id → st.aidx < 249 := by
      intro h
      rw [t3] at h
      rw [if_pos h] at hfa
      rw [t4]
      omega
    have hp2 : st.fieldnum = cfg.G_pwd → st.pidx < 249 := by
      intro h
      rw [t3] at h
      rw [if_pos h] at hfp
      rw [t5]
      omega
    obtain ⟨st1, h1, h2, h3, h4, h5, h6⟩ :=
      step_other_defined cfg db st ch hesc hq hb hn hs ha.1 ha2 hp.1 hp2
    refine ⟨st1, h1, h2.trans he.symm, h3.trans t2, h4.trans t3, ?_, ?_⟩
    · rw [h5, t3, t4]
      show _ = ((if s.fieldnum = cfg.G_id then s.na + 1 else s.na : Nat) : Int)
      split_ifs <;> simp
    · rw [h6, t3, t5]
      show _ = ((if s.fieldnum = cfg.G_pwd then s.np + 1 else s.np : Nat) : Int)
      split_ifs <;> simp

theorem main_loop_tracks (cfg : Config) (db : Oracle) (l : List Char) :
    ∀ (st : State) (s : Fill), tracks st s → s.na ≤ 249 → s.np ≤ 249 →
      fits_from cfg s l = true →
      ∃ st1 : State, main_loop cfg db l st = some st1 ∧
        tracks st1 (l.foldl (fill_step cfg) s) ∧
        (l.foldl (fill_step cfg) s).na ≤ 249 ∧ (l.foldl (fill_step cfg) s).np ≤ 249 := by
  induction l with
  | nil =>
    intro st s ht hna hnp _
    exact ⟨st, rfl, ht, hna, hnp⟩
  | cons ch l ih =>
    intro st s ht hna hnp hfit
    simp only [fits_from, Bool.and_eq_true, decide_eq_true_eq] at hfit
    obtain ⟨⟨hfa, hfp⟩, hrest⟩ := hfit
    obtain ⟨st1, h1, h2⟩ := step_tracks cfg db st s ch ht hna hnp hfa hfp
    obtain ⟨st2, k1, k2, k3, k4⟩ := ih st1 (fill_step cfg s ch) h2 hfa hfp hrest
    refine ⟨st2, ?_, k2, k3, k4⟩
    rw [main_loop_cons, h1, Option.some_bind]
    exact k1

theorem fits_from_prefix (cfg : Config) (l1 l2 : List Char) :
    ∀ s : Fill, fits_from cfg s (l1 ++ l2) = true → fits_from cfg s l1 = true := by
  induction l1 with
  | nil => intro s _; rfl
  | cons ch l ih =>
    intro s h
    simp only [List.cons_append, fits_from, Bool.and_eq_true] at h ⊢
    exact ⟨h.1, ih _ h.2⟩
theorem step_sep_resets (cfg : Config) (db : Oracle) (st st1 : State) (hesc : st.esc = false)
    (hblind : st.blind = 0)
    (hq : cfg.G_sep ≠ DQUOTE) (hb : cfg.G_sep ≠ BACKSLASH) (hn : cfg.G_sep ≠ NEWLINE)
    (h : step cfg db st cfg.G_sep = some st1) :
    st1.fieldnum = wrap16 (st.fieldnum + 1) ∧
    (st1.fieldnum = cfg.G_id → st1.aidx = 0) ∧ (st1.fieldnum = cfg.G_pwd → st1.pidx = 0) := by
  rw [step_sep cfg db st _ hesc hq hb hn rfl, case_sep_eq, if_pos hblind] at h
  simp only [Option.bind_eq_some] at h
  obtain ⟨a, -, p, -, h⟩ := h
  cases h
  refine ⟨rfl, ?_, ?_⟩
  · intro hh
    exact if_pos hh
  · intro hh
    exact if_pos hh

set_option maxRecDepth 100000 in
/-- **C21** as stated fails: a newline that follows a backslash resets
neither index, so the bytes of the next physical line are accumulated after
those of the current one. After the bytes `a`, backslash, newline the index of
`account` is 1, not 0. With id-field 1, the roster of two physical lines of
126 bytes `a`, the first one ended by backslash and newline, has no line
whose first field holds more than 249 bytes, and yet the read loop writes
outside the array: the 251st `a` is stored at index 250 of `account`. -/
theorem escaped_newline_keeps_buffer_index :
    (main_loop (Config.mk ',' 1 2 0 CREATE none) okDb ['a', BACKSLASH, NEWLINE]
        (init blank blank connected)).map (fun s => (s.aidx, s.pidx)) = some (1, 0) ∧
    (field_at ',' 0 (List.replicate 126 'a' ++ [BACKSLASH])).length ≤ 249 ∧
    (field_at ',' 0 (List.replicate 126 'a')).length ≤ 249 ∧
    (main_loop (Config.mk ',' 1 2 0 CREATE none) okDb
        (List.replicate 126 'a' ++ [BACKSLASH, NEWLINE] ++ List.replicate 124 'a')
        (init blank blank connected)).map (fun s => s.aidx) = some 250 ∧
    main_loop (Config.mk ',' 1 2 0 CREATE none) okDb
        (List.replicate 126 'a' ++ [BACKSLASH, NEWLINE] ++ List.replicate 126 'a' ++ [NEWLINE])
        (init blank blank connected) = none ∧
    fits (Config.mk ',' 1 2 0 CREATE none)
        (List.replicate 126 'a' ++ [BACKSLASH, NEWLINE] ++ List.replicate 126 'a' ++ [NEWLINE])
      = false := by
  refine ⟨by decide, by decide, by decide, by decide, ?_, by decide⟩
  exact Option.isNone_iff_eq_none.1 (by decide)

/-- **C21** (buffer bounds), amended. Let a roster be such that neither the
identifier field nor the secret field ever accumulates more than 249 bytes,
the count of a field restarting at 0 at every newline that is not escaped and
whenever a separator outside quotes makes the field counter reach the
selector of the field (a newline that follows a backslash restarts nothing).
Then the read loop is defined on the roster and on every prefix of it: every
write to `account` and `defpass`, of a content byte or of the terminating NUL,
uses an index in 0..249, and after every byte read both indices are in 0..249.
In every state, a newline read with no escape pending leaves both indices at
0, and a separator read outside quotes, which increments the field counter,
leaves at 0 the index of each buffer whose selector the counter has
reached; a newline read as an escaped byte leaves both indices as they
were. -/
theorem buffer_writes_stay_in_bounds (cfg : Config) (db : Oracle) (roster : List Char)
    (a0 p0 : Buf) (g : Session) (hfit : fits cfg roster = true) :
    (∀ pre post : List Char, roster = pre ++ post →
      ∃ st : State, main_loop cfg db pre (init a0 p0 g) = some st ∧
        0 ≤ st.aidx ∧ st.aidx ≤ 249 ∧ 0 ≤ st.pidx ∧ st.pidx ≤ 249) ∧
    (∀ st st1 : State, st.esc = false → step cfg db st NEWLINE = some st1 →
      st1.aidx = 0 ∧ st1.pidx = 0) ∧
    (∀ st st1 : State, st.esc = false → st.blind = 0 →
      cfg.G_sep ≠ DQUOTE → cfg.G_sep ≠ BACKSLASH → cfg.G_sep ≠ NEWLINE →
      step cfg db st cfg.G_sep = some st1 →
      st1.fieldnum = wrap16 (st.fieldnum + 1) ∧
      (st1.fieldnum = cfg.G_id → st1.aidx = 0) ∧ (st1.fieldnum = cfg.G_pwd → st1.pidx = 0)) ∧
    (∀ st : State, st.esc = true →
      ∃ st1 : State, step cfg db st NEWLINE = some st1 ∧
        st1.aidx = st.aidx ∧ st1.pidx = st.pidx) := by
  refine ⟨?_, ?_, ?_, ?_⟩
  · intro pre post hr
    subst hr
    have hpre := fits_from_prefix cfg pre post fill_init hfit
    obtain ⟨st, h1, ⟨-, -, -, t4, t5⟩, h3, h4⟩ := main_loop_tracks cfg db pre (init a0 p0 g)
      fill_init ⟨rfl, rfl, rfl, rfl, rfl⟩ (by decide) (by decide) hpre
    exact ⟨st, h1, by rw [t4]; omega, by rw [t4]; omega, by rw [t5]; omega, by rw [t5]; omega⟩
  · intro st st1 hesc h
    obtain ⟨-, -, h3, h4, -⟩ := line_start_after_newline cfg db st st1 hesc h
    exact ⟨h3, h4⟩
  · intro st st1 hesc hblind hq hb hn h
    exact step_sep_resets cfg db st st1 hesc hblind hq hb hn h
  · intro st hesc
    exact ⟨_, step_esc cfg db st NEWLINE hesc, rfl, rfl⟩

/-- Witness of **C21** (amended): the roster of the two records `alice` and
`bob`, with id-field 2 and secret-field 3. -/
theorem buffer_writes_stay_in_bounds_witness :
    fits (Config.mk ',' 2 3 0 CREATE none) "1,alice,secretpw\n2,bob,hunter2\n".toList = true ∧
    (main_loop (Config.mk ',' 2 3 0 CREATE none) okDb "1,alice,secretpw\n2,bob".toList
        (init blank blank connected)).map (fun s => (s.aidx, s.pidx)) = some (3, 0) ∧
    ∃ st : State,
      main_loop (Config.mk ',' 2 3 0 CREATE none) okDb "1,alice,secretpw\n2,bob".toList
        (init blank blank connected) = some st ∧
      0 ≤ st.aidx ∧ st.aidx ≤ 249 ∧ 0 ≤ st.pidx ∧ st.pidx ≤ 249 := by
  refine ⟨by decide, by decide, ?_⟩
  exact (buffer_writes_stay_in_bounds (Config.mk ',' 2 3 0 CREATE none) okDb
    "1,alice,secretpw\n2,bob,hunter2\n".toList blank blank connected (by decide)).1
    "1,alice,secretpw\n2,bob".toList ",hunter2\n".toList (by decide)

/-! ## Lines are independent while the line counter does not overflow -/

theorem store_eq_some (buf buf1 : Buf) (i : Int) (c : Char) (h : store buf i c = some buf1) :
    0 ≤ i ∧ i < ID_LEN ∧ buf1 = fun j => if j = i.toNat then c else buf j := by
  unfold store at h
  by_cases hb : 0 ≤ i ∧ i < ID_LEN
  · rw [if_pos hb] at h
    cases h
    exact ⟨hb.1, hb.2, rfl⟩
  · rw [if_neg hb] at h
    cases h

theorem cstrAux_congr (b b' : Buf) (k : Nat) (hk : b k = NUL) (hk' : b' k = NUL) (n : Nat) :
    ∀ i : Nat, i ≤ k → (∀ j : Nat, i ≤ j → j < k → b j = b' j) →
      cstrAux b n i = cstrAux b' n i := by
  induction n with
  | zero => intro i _ _; rfl
  | succ n ih =>
    intro i hi hagree
    by_cases hik : i = k
    · subst hik
      simp [cstrAux, hk, hk']
    · have hlt : i < k := by omega
      have hb : b i = b' i := hagree i (le_refl _) hlt
      simp only [cstrAux, hb]
      by_cases hnul : b' i = NUL
      · simp [hnul]
      · simp only [hnul, if_false]
        congr 1
        exact ih (i + 1) (by omega) (fun j hj1 hj2 => hagree j (by omega) hj2)

/-- The C string read from an array depends only on the bytes that precede
its first NUL. -/
theorem cstr_congr (b b' : Buf) (k : Nat) (hk : b k = NUL) (hk' : b' k = NUL)
    (hagree : ∀ j : Nat, j < k → b j = b' j) : cstr b = cstr b' :=
  cstrAux_congr b b' k hk hk' _ 0 (Nat.zero_le _) (fun j _ hj => hagree j hj)

theorem cstr_store_congr (b b' : Buf) (i : Int) (hi : 0 ≤ i)
    (hagree : ∀ j : Nat, (j : Int) < i → b j = b' j) :
    cstr (fun j => if j = i.toNat then NUL else b j) =
      cstr (fun j => if j = i.toNat then NUL else b' j) := by
  apply cstr_congr _ _ i.toNat
  · simp
  · simp
  · intro j hj
    have hne : j ≠ i.toNat := by omega
    simp only [hne, if_false]
    exact hagree j (by omega)
theorem sep_buffer_agree (c : Prop) [Decidable c] (b b' acc' : Buf) (i : Int)
    (hagree : ∀ j : Nat, (j : Int) < i → b j = b' j)
    (h : (if c then store b' i NUL else some b') = some acc') :
    ∃ acc : Buf, (if c then store b i NUL else some b) = some acc ∧
      ∀ j : Nat, (j : Int) < i → acc j = acc' j := by
  by_cases hc : c
  · rw [if_pos hc] at h
    obtain ⟨h0, h1, rfl⟩ := store_eq_some _ _ _ _ h
    refine ⟨fun j => if j = i.toNat then NUL else b j, ?_, ?_⟩
    · rw [if_pos hc]
      exact store_some b i NUL h0 h1
    · intro j hj
      have hne : j ≠ i.toNat := by omega
      simp only [hne, if_false]
      exact hagree j hj
  · rw [if_neg hc] at h
    cases h
    exact ⟨b, by rw [if_neg hc], hagree⟩

theorem other_buffer_agree (c : Prop) [Decidable c] (b b' : Buf) (i : Int) (ch : Char)
    (r' : Buf × Int) (hagree : ∀ j : Nat, (j : Int) < i → b j = b' j)
    (h : (if c then (store b' i ch).map (fun x => (x, wrap16 (i + 1))) else some (b', i))
      = some r') :
    ∃ r : Buf × Int,
      (if c then (store b i ch).map (fun x => (x, wrap16 (i + 1))) else some (b, i)) = some r ∧
      r.2 = r'.2 ∧ ∀ j : Nat, (j : Int) < r.2 → r.1 j = r'.1 j := by
  by_cases hc : c
  · rw [if_pos hc] at h
    simp only [Option.map_eq_some'] at h
    obtain ⟨x, hx, rfl⟩ := h
    obtain ⟨h0, h1, rfl⟩ := store_eq_some _ _ _ _ hx
    have hw : wrap16 (i + 1) = i + 1 := by
      unfold ID_LEN at h1
      exact wrap16_small i h0 (by omega)
    refine ⟨(fun j => if j = i.toNat then ch else b j, wrap16 (i + 1)), ?_, rfl, ?_⟩
    · rw [if_pos hc, store_some b i ch h0 h1]
      rfl
    · intro j hj
      simp only [hw] at hj
      by_cases hji : j = i.toNat
      · simp [hji]
      · simp only [hji, if_false]
        exact hagree j (by omega)
  · rw [if_neg hc] at h
    cases h
    exact ⟨(b, i), by rw [if_neg hc], rfl, hagree⟩

theorem records_append (l : List Call) (c : Call) :
    records (l ++ [c]) = records l ++ [(c.id, c.pwd)] := by
  simp [records]

/-- One byte other than a backslash, read from two states at the same point
of a line that take the same decision on dispatching: when the step is
defined from the second state it is defined from the first, the two states
reached are again at the same point of a line, and the two steps hand over
the same records. -/
theorem step_same_line (cfg : Config) (db db' : Oracle) (s t t1 : State) (ch : Char)
    (hsl : same_line s t) (hch : ch ≠ BACKSLASH)
    (hd : ch = NEWLINE →
      (cfg.skip < wrap16 (s.linecnt + 1) ↔ cfg.skip < wrap16 (t.linecnt + 1)))
    (h : step cfg db' t ch = some t1) :
    ∃ s1 : State, step cfg db s ch = some s1 ∧ same_line s1 t1 ∧
      (∃ new, records s1.calls = records s.calls ++ new ∧
        records t1.calls = records t.calls ++ new) ∧
      s1.linecnt = (if ch = NEWLINE then wrap16 (s.linecnt + 1) else s.linecnt) ∧
      t1.linecnt = (if ch = NEWLINE then wrap16 (t.linecnt + 1) else t.linecnt) := by
  obtain ⟨e1, e2, e3, e4, e5, e6, e7, e8⟩ := hsl
  by_cases hq : ch = DQUOTE
  · subst hq
    rw [step_quote cfg db' t e2] at h
    cases h
    have hn : DQUOTE ≠ NEWLINE := by decide
    refine ⟨_, step_quote cfg db s e1, ⟨e1, e2, ?_, e4, e5, e6, e7, e8⟩,
      ⟨[], by simp, by simp⟩, by simp [hn], by simp [hn]⟩
    show (s.blind + 1) % 2 = (t.blind + 1) % 2
    rw [e3]
  by_cases hn : ch = NEWLINE
  · subst hn
    simp only [if_true]
    by_cases hs : cfg.skip < wrap16 (t.linecnt + 1)
    · rw [step_newline cfg db' t e2, case_newline_eq] at h
      simp only [hs, if_true, dispatch_eq, Option.map_eq_some', Option.bind_eq_some] at h
      obtain ⟨x, ⟨acc', hacc', dp', hdp', hx⟩, rfl⟩ := h
      cases hx
      obtain ⟨a0, a1, rfl⟩ := store_eq_some _ _ _ _ hacc'
      obtain ⟨p0, p1, rfl⟩ := store_eq_some _ _ _ _ hdp'
      have hacc := store_some s.account s.aidx NUL (by rw [e5]; exact a0) (by rw [e5]; exact a1)
      have hdp := store_some s.defpass s.pidx NUL (by rw [e6]; exact p0) (by rw [e6]; exact p1)
      have hcA : cstr (fun j => if j = s.aidx.toNat then NUL else s.account j) =
          cstr (fun j => if j = t.aidx.toNat then NUL else t.account j) := by
        rw [← e5]
        exact cstr_store_congr s.account t.account s.aidx (by rw [e5]; exact a0) e7
      have hcP : cstr (fun j => if j = s.pidx.toNat then NUL else s.defpass j) =
          cstr (fun j => if j = t.pidx.toNat then NUL else t.defpass j) := by
        rw [← e6]
        exact cstr_store_congr s.defpass t.defpass s.pidx (by rw [e6]; exact p0) e8
      refine ⟨_, step_newline_dispatch cfg db s _ _ e1 ((hd rfl).2 hs) hacc hdp,
        ⟨e1, e2, rfl, rfl, rfl, rfl, ?_, ?_⟩, ?_, rfl, rfl⟩
      · intro i hi
        exact absurd hi (not_lt.2 (Int.ofNat_nonneg i))
      · intro i hi
        exact absurd hi (not_lt.2 (Int.ofNat_nonneg i))
      · refine ⟨[(cstr (fun j => if j = t.aidx.toNat then NUL else t.account j),
          if cfg.op = CREATE then
            some (cstr (fun j => if j = t.pidx.toNat then NUL else t.defpass j)) else none)],
          ?_, ?_⟩
        · simp only [dispatched, records_append, hcA, hcP]
        · simp only [dispatched, records_append]
    · rw [step_newline cfg db' t e2, case_newline_eq] at h
      simp only [hs, if_false] at h
      cases h
      have hs2 : ¬ cfg.skip < wrap16 (s.linecnt + 1) := fun hh => hs ((hd rfl).1 hh)
      have hstep : step cfg db s NEWLINE =
          some { s with phys := s.phys + 1, linecnt := wrap16 (s.linecnt + 1), fieldnum := 1,
                        blind := 0, account := set0 s.account NUL, aidx := 0,
                        defpass := set0 s.defpass NUL, pidx := 0 } := by
        rw [step_newline cfg db s e1, case_newline_eq]
        simp only [hs2, if_false]
      refine ⟨_, hstep, ⟨e1, e2, rfl, rfl, rfl, rfl, ?_, ?_⟩, ⟨[], by simp, by simp⟩, rfl, rfl⟩
      · intro i hi
        exact absurd hi (not_lt.2 (Int.ofNat_nonneg i))
      · intro i hi
        exact absurd hi (not_lt.2 (Int.ofNat_nonneg i))
  simp only [hn, if_false]
  by_cases hsep : ch = cfg.G_sep
  · by_cases hbl : t.blind = 0
    · rw [step_sep cfg db' t ch e2 hq hch hn hsep, case_sep_eq, if_pos hbl] at h
      simp only [Option.bind_eq_some] at h
      obtain ⟨acc', hacc', dp', hdp', hx⟩ := h
      cases hx
      rw [← e4, ← e5] at hacc'
      rw [← e4, ← e6] at hdp'
      obtain ⟨acc, hacc, hA⟩ := sep_buffer_agree _ s.account t.account acc' s.aidx e7 hacc'
      obtain ⟨dp, hdp, hP⟩ := sep_buffer_agree _ s.defpass t.defpass dp' s.pidx e8 hdp'
      have hstep : step cfg db s ch =
          some { s with
            account := acc,
            defpass := dp,
            fieldnum := wrap16 (s.fieldnum + 1),
            aidx := if wrap16 (s.fieldnum + 1) = cfg.G_id then 0 else s.aidx,
            pidx := if wrap16 (s.fieldnum + 1) = cfg.G_pwd then 0 else s.pidx } := by
        rw [step_sep cfg db s ch e1 hq hch hn hsep, case_sep_eq, if_pos (e3.trans hbl), hacc,
          Option.some_bind, hdp, Option.some_bind]
      refine ⟨_, hstep, ⟨e1, e2, e3, ?_, ?_, ?_, ?_, ?_⟩, ⟨[], by simp, by simp⟩, rfl, rfl⟩
      · show wrap16 (s.fieldnum + 1) = wrap16 (t.fieldnum + 1)
        rw [e4]
      · show (if wrap16 (s.fieldnum + 1) = cfg.G_id then 0 else s.aidx) =
          (if wrap16 (t.fieldnum + 1) = cfg.G_id then 0 else t.aidx)
        rw [e4, e5]
      · show (if wrap16 (s.fieldnum + 1) = cfg.G_pwd then 0 else s.pidx) =
          (if wrap16 (t.fieldnum + 1) = cfg.G_pwd then 0 else t.pidx)
        rw [e4, e6]
      · intro i hi
        have hi2 : (i : Int) < (if wrap16 (s.fieldnum + 1) = cfg.G_id then 0 else s.aidx) := hi
        by_cases hr : wrap16 (s.fieldnum + 1) = cfg.G_id
        · rw [if_pos hr] at hi2
          exact absurd hi2 (not_lt.2 (Int.ofNat_nonneg i))
        · rw [if_neg hr] at hi2
          exact hA i hi2
      · intro i hi
        have hi2 : (i : Int) < (if wrap16 (s.fieldnum + 1) = cfg.G_pwd then 0 else s.pidx) := hi
        by_cases hr : wrap16 (s.fieldnum + 1) = cfg.G_pwd
        · rw [if_pos hr] at hi2
          exact absurd hi2 (not_lt.2 (Int.ofNat_nonneg i))
        · rw [if_neg hr] at hi2
          exact hP i hi2
    · rw [step_sep cfg db' t ch e2 hq hch hn hsep, case_sep_eq, if_neg hbl] at h
      cases h
      have hstep : step cfg db s ch = some s := by
        rw [step_sep cfg db s ch e1 hq hch hn hsep, case_sep_eq, if_neg (by rw [e3]; exact hbl)]
      exact ⟨s, hstep, ⟨e1, e2, e3, e4, e5, e6, e7, e8⟩, ⟨[], by simp, by simp⟩, rfl, rfl⟩
  · rw [step_other cfg db' t ch e2 hq hch hn hsep, case_other_eq] at h
    simp only [Option.bind_eq_some] at h
    obtain ⟨ra', hra', rp', hrp', hx⟩ := h
    cases hx
    rw [← e4, ← e5] at hra'
    rw [← e4, ← e6] at hrp'
    obtain ⟨ra, hra, hA1, hA2⟩ :=
      other_buffer_agree _ s.account t.account s.aidx ch ra' e7 hra'
    obtain ⟨rp, hrp, hP1, hP2⟩ :=
      other_buffer_agree _ s.defpass t.defpass s.pidx ch rp' e8 hrp'
    have hstep : step cfg db s ch =
        some { s with account := ra.1, aidx := ra.2, defpass := rp.1, pidx := rp.2 } := by
      rw [step_other cfg db s ch e1 hq hch hn hsep, case_other_eq, hra, Option.some_bind, hrp,
        Option.some_bind]
    exact ⟨_, hstep, ⟨e1, e2, e3, e4, hA1, hP1, hA2, hP2⟩, ⟨[], by simp, by simp⟩, rfl, rfl⟩

theorem main_loop_same_line (cfg : Config) (db db' : Oracle) (l : List Char) :
    ∀ s t tB : State, same_line s t → BACKSLASH ∉ l → cfg.skip = 0 →
      0 ≤ t.linecnt → t.linecnt ≤ s.linecnt → s.linecnt + (l.count NEWLINE : Int) ≤ 32767 →
      main_loop cfg db' l t = some tB →
      ∃ sB : State, main_loop cfg db l s = some sB ∧
        ∃ new, records sB.calls = records s.calls ++ new ∧
          records tB.calls = records t.calls ++ new := by
  induction l with
  | nil =>
    intro s t tB _ _ _ _ _ _ h
    rw [main_loop_nil] at h
    cases h
    exact ⟨s, rfl, [], by simp, by simp⟩
  | cons ch l ih =>
    intro s t tB hsl hb hskip h0 hle hbound h
    rw [main_loop_cons] at h
    simp only [Option.bind_eq_some] at h
    obtain ⟨t1, h1, h2⟩ := h
    have hch : ch ≠ BACKSLASH := fun hh => hb (by simp [hh])
    have hb1 : BACKSLASH ∉ l := fun hh => hb (List.mem_cons_of_mem _ hh)
    rw [count_newline_cons] at hbound
    have hd : ch = NEWLINE →
        (cfg.skip < wrap16 (s.linecnt + 1) ↔ cfg.skip < wrap16 (t.linecnt + 1)) := by
      intro hn
      rw [if_pos hn] at hbound
      push_cast at hbound
      rw [hskip, wrap16_small s.linecnt (by omega) (by omega),
        wrap16_small t.linecnt h0 (by omega)]
      constructor <;> intro _ <;> omega
    obtain ⟨s1, k1, k2, ⟨new1, k3, k4⟩, k5, k6⟩ :=
      step_same_line cfg db db' s t t1 ch hsl hch hd h1
    have hlin : 0 ≤ t1.linecnt ∧ t1.linecnt ≤ s1.linecnt ∧
        s1.linecnt + (l.count NEWLINE : Int) ≤ 32767 := by
      rw [k5, k6]
      by_cases hn : ch = NEWLINE
      · rw [if_pos hn] at hbound ⊢
        push_cast at hbound
        rw [if_pos hn, wrap16_small s.linecnt (by omega) (by omega),
          wrap16_small t.linecnt h0 (by omega)]
        omega
      · rw [if_neg hn] at hbound ⊢
        push_cast at hbound
        rw [if_neg hn]
        omega
    obtain ⟨sB, m1, new2, m2, m3⟩ := ih s1 t1 tB k2 hb1 hskip hlin.1 hlin.2.1 hlin.2.2 h2
    refine ⟨sB, ?_, new1 ++ new2, ?_, ?_⟩
    · rw [main_loop_cons, k1, Option.some_bind]
      exact m1
    · rw [m2, k3, List.append_assoc]
    · rw [m3, k4, List.append_assoc]

theorem line_start_of_terminated (cfg : Config) (db : Oracle) (A : List Char) (a0 p0 : Buf)
    (g : Session) (stA : State) (hA : BACKSLASH ∉ A)
    (hend : A = [] ∨ A.getLast? = some NEWLINE) (hk : A.count NEWLINE ≤ 32767)
    (h : main_loop cfg db A (init a0 p0 g) = some stA) : line_start stA := by
  rcases hend with rfl | hlast
  · rw [main_loop_nil] at h
    cases h
    exact line_start_init _ _ _
  · obtain ⟨A1, rfl⟩ : ∃ A1, A = A1 ++ [NEWLINE] := by
      rcases List.eq_nil_or_concat A with rfl | ⟨A1, c, rfl⟩
      · simp at hlast
      · rw [List.concat_eq_append, List.getLast?_concat] at hlast
        cases hlast
        exact ⟨A1, by simp⟩
    rw [main_loop_append] at h
    simp only [Option.bind_eq_some] at h
    obtain ⟨st1, h1, h2⟩ := h
    rw [main_loop_cons] at h2
    simp only [Option.bind_eq_some] at h2
    obtain ⟨st2, h3, h4⟩ := h2
    rw [main_loop_nil] at h4
    cases h4
    have hA1 : BACKSLASH ∉ A1 := fun hh => hA (List.mem_append_left _ hh)
    have hc : A1.count NEWLINE ≤ 32767 := by
      rw [List.count_append] at hk
      omega
    obtain ⟨hesc, -⟩ := main_loop_lines cfg db A1 (init a0 p0 g) st1 h1 hA1 rfl rfl
      (by simpa [init] using hc)
    exact line_start_after_newline cfg db st1 _ hesc h3

/-- Supplement to **C20**: as long as the 16-bit line counter does not
overflow, that is when `A` followed by `B` holds at most 32767 lines, the
independence of the claim holds. With `skip = 0`, for rosters `A` and `B`
without backslash where `A` is empty or ends with a newline: if the read loop
is defined on `A` and, started afresh, on `B`, then it is defined on `A`
followed by `B`, and the records it hands over are those of `A` followed by
those of `B`, whatever the databases answer and whatever the arrays held at
the start. -/
theorem records_of_concatenation_without_overflow (cfg : Config) (db db' : Oracle)
    (A B : List Char) (a0 p0 b0 q0 : Buf) (g g' : Session) (stA stB : State)
    (hskip : cfg.skip = 0) (hA : BACKSLASH ∉ A) (hB : BACKSLASH ∉ B)
    (hend : A = [] ∨ A.getLast? = some NEWLINE)
    (hk : (A ++ B).count NEWLINE ≤ 32767)
    (hrunA : main_loop cfg db A (init a0 p0 g) = some stA)
    (hrunB : main_loop cfg db' B (init b0 q0 g') = some stB) :
    ∃ st : State, main_loop cfg db (A ++ B) (init a0 p0 g) = some st ∧
      records st.calls = records stA.calls ++ records stB.calls := by
  rw [List.count_append] at hk
  obtain ⟨l1, l2, l3, l4, l5⟩ :=
    line_start_of_terminated cfg db A a0 p0 g stA hA hend (by omega) hrunA
  obtain ⟨-, m2, m3, -⟩ := main_loop_lines cfg db A (init a0 p0 g) stA hrunA hA rfl rfl
    (by simp only [init]; omega)
  have hlc : stA.linecnt = (A.count NEWLINE : Int) := by
    rw [m2, m3]
    simp [init]
  have hsl : same_line stA (init b0 q0 g') := by
    refine ⟨l5, rfl, l2, l1, l3, l4, ?_, ?_⟩
    · intro i hi
      rw [l3] at hi
      exact absurd hi (not_lt.2 (Int.ofNat_nonneg i))
    · intro i hi
      rw [l4] at hi
      exact absurd hi (not_lt.2 (Int.ofNat_nonneg i))
  obtain ⟨sB, n1, new, n2, n3⟩ := main_loop_same_line cfg db db' B stA (init b0 q0 g') stB hsl
    hB hskip (le_refl _) (by rw [hlc]; exact Int.ofNat_nonneg _)
    (by rw [hlc]; exact_mod_cast hk) hrunB
  refine ⟨sB, ?_, ?_⟩
  · rw [main_loop_append, hrunA, Option.some_bind]
    exact n1
  · have hnew : records stB.calls = new := by simpa [init, records] using n3
    rw [n2, hnew]

end Pgaccounts
